import Mathlib

/-! # Preemptive-RANSAC relocalisation of `SLAMComponentWithScoreForest`

A shallow embedding of the relocalisation code of
`modules/spaint/src/pipelinecomponents/SLAMComponentWithScoreForest.cpp`
(`process_relocalisation`, `generate_pose_candidates`, `hypothesize_pose`,
`estimate_pose`, `sample_pixels_for_ransac`, `update_inliers_for_optimization`,
`compute_and_sort_energies`, `compute_pose_energy`, `update_candidate_pose`) together
with theorems about it.

Modelling conventions.

* `float` and `double` values are exact rationals; casts between them are the
  identity, and a division by zero yields `0` as in `ℚ`. Rounding is not modelled.
* Library code that is not part of the sources (the `Helpers` routines, the forest,
  `GetArgMax3D`, the ALGLIB optimiser, `sqrt`, `exp`, `log10`) is a field of `Env`;
  theorems quantify over every `Env`.
* A `std::mt19937` engine is a stream of draws together with a read position.
* Arrays indexed by a linear pixel index are total functions on `ℕ`; the sampling mask,
  whose emptiness is tested by the code, is a list.
* A run that dereferences a null prediction, reads past the end of a vector or builds
  a distribution over an empty range ends in `Fault.undefinedBehaviour`.
* The retry loop of `sample_pixels_for_ransac` takes a `fuel` argument and ends in
  `Fault.samplingUnfinished` when it runs out. The tournament loop is given as many passes
  as it has candidates on entry and would end in `Fault.roundsUnfinished` if it needed
  more; `estimate_pose_ends_with_one` shows that it never does.
* `std::sort` is insertion sort with the comparator of the source (one admissible
  result of `std::sort`; the theorems use only that it returns a sorted permutation).
* The inner selection loop of `hypothesize_pose` takes the same kind of `fuel`: the source
  counts only the passes that reach `++iterationsInner`, so the counted bound of 6000 does
  not bound the passes.
* In the definitions named after the source, OpenMP loops over candidates run their
  iterations in ascending order. The definitions ending in `_scheduled` run the parallel
  loops of `estimate_pose` with their iterations completed in an arbitrary order
  (`Schedule`); each iteration writes only its own candidate. The attempts of
  `generate_pose_candidates` run in the order of their index, each with the engine of the
  thread a schedule `threadOf` assigns to it; `process_relocalisation` takes the outcome of
  the generation as a field of `Pipeline`.
* The definitions whose name starts with `spec` follow the wording of the specification
  and are compared with the embedded code in the theorems.
* `Kabsch`, whose body is not among the sources, is modelled from the specification.
-/

namespace spaint

/-! ## Data model -/

/-- Ways in which a run fails to produce a value. -/
inductive Fault where
  | undefinedBehaviour
  | samplingUnfinished
  | roundsUnfinished
  deriving DecidableEq, Repr

/-- Result of running a piece of the embedded code. -/
abbrev Run (α : Type) := Except Fault α

abbrev Vector3 := Fin 3 → ℚ
abbrev Vector4 := Fin 4 → ℚ
abbrev Vector6 := Fin 6 → ℚ
abbrev Matrix3 := Matrix (Fin 3) (Fin 3) ℚ
abbrev Matrix4f := Matrix (Fin 4) (Fin 4) ℚ

/-- One Gaussian component of a mode (`PredictedGaussianMean`). -/
structure PredictedGaussianMean where
  _nbPoints : Int
  _mean : Vector3
  _inverseCovariance : Matrix3
  _determinant : ℚ
  deriving DecidableEq

/-- The prediction of one pixel: `_modes[m][0]` is the 3D position component of mode `m`,
`_modes[m][1]` its colour component. -/
structure EnsemblePredictionGaussianMean where
  _modes : List (List PredictedGaussianMean)
  deriving DecidableEq

/-- One entry of the feature image. `position 3` is the `w` coordinate, negative when the
pixel has no depth. -/
structure RGBDPatchFeature where
  position : Vector4
  colour : Vector4
  deriving DecidableEq

/-- The tuple `PoseCandidate` of the source: `std::get<0>` is the pose, `std::get<1>` the
inliers `(linearIdx, modeIdx)`, `std::get<2>` the energy and `std::get<3>` the id. -/
structure PoseCandidate where
  cameraPose : Matrix4f
  inliers : List (Nat × Int)
  energy : ℚ
  cameraId : Int
  deriving DecidableEq

/-- The parameters set in the constructor of `SLAMComponentWithScoreForest`. -/
structure Config where
  m_kInitRansac : Nat
  m_nbPointsForKabschBoostrap : Nat
  m_useAllModesPerLeafInPoseHypothesisGeneration : Bool
  m_checkMinDistanceBetweenSampledModes : Bool
  m_minDistanceBetweenSampledModes : ℚ
  m_checkRigidTransformationConstraint : Bool
  m_translationErrorMaxForCorrectPose : ℚ
  m_batchSizeRansac : Nat
  m_trimKinitAfterFirstEnergyComputation : Nat
  m_poseUpdate : Bool
  m_usePredictionCovarianceForPoseOptimization : Bool

/-- The values assigned by the constructor ("Set params as in scoreforests"). -/
def constructorConfig : Config where
  m_kInitRansac := 1024
  m_nbPointsForKabschBoostrap := 3
  m_useAllModesPerLeafInPoseHypothesisGeneration := true
  m_checkMinDistanceBetweenSampledModes := true
  m_minDistanceBetweenSampledModes := 3 / 10
  m_checkRigidTransformationConstraint := false
  m_translationErrorMaxForCorrectPose := 5 / 100
  m_batchSizeRansac := 500
  m_trimKinitAfterFirstEnergyComputation := 64
  m_poseUpdate := true
  m_usePredictionCovarianceForPoseOptimization := true

/-- The current frame and the library routines the relocaliser calls. -/
structure Env where
  /-- Width of the feature image, `m_featureImage->noDims.width`. -/
  width : Nat
  /-- Height of the feature image, `m_featureImage->noDims.height`. -/
  height : Nat
  /-- Feature data, `m_featureImage->GetData(MEMORYDEVICE_CPU)`. -/
  patchFeaturesData : Nat → RGBDPatchFeature
  /-- Width of the leaf image, `m_leafImage->noDims.width`. -/
  leafWidth : Nat
  /-- Height of the leaf image, `m_leafImage->noDims.height`, the number of trees. -/
  leafHeight : Nat
  /-- Leaf data, `m_leafImage->GetData(MEMORYDEVICE_CPU)`. -/
  leafData : Nat → Nat
  /-- The call `m_dataset->GetForest()->GetPredictionForLeaves`, already cast to
  `EnsemblePredictionGaussianMean`; `none` is the null pointer -/
  GetPredictionForLeaves : List Nat → Option EnsemblePredictionGaussianMean
  /-- The call `EnsemblePredictionGaussianMean::GetArgMax3D(point, 0)`. -/
  GetArgMax3D : EnsemblePredictionGaussianMean → Vector4 → Int
  /-- The routine `Helpers::Rigid3DTransformation` on a 3-vector. -/
  Rigid3DTransformation : Matrix4f → Vector3 → Vector4
  /-- The routine `Helpers::Rigid3DTransformation` on a homogeneous 4-vector. -/
  Rigid3DTransformationH : Matrix4f → Vector4 → Vector4
  MahalanobisSquared3x3 : Matrix3 → Vector3 → ℚ
  ConvertWorldCoordinatesFromHomogeneousCoordinates : Vector4 → Vector3
  LieGroupToLieAlgebraSE3 : Matrix4f → Vector6
  LieAlgebraToLieGroupSE3 : Vector6 → Matrix4f
  /-- The call `alglib::minlmoptimize` followed by `alglib::minlmresults`: start point and residual
  function to the point it stops at -/
  minlmoptimize : Vector6 → (Vector6 → ℚ) → Vector6
  sqrt : ℚ → ℚ
  exp : ℚ → ℚ
  log10 : ℚ → ℚ
  M_PI : ℚ
  /-- The draws of a default-constructed `std::mt19937` through the distributions used -/
  mt19937 : Nat → Nat

/-- The size `m_featureImage->dataSize`. -/
def Env.dataSize (env : Env) : Nat := env.width * env.height

/-- A `std::mt19937` engine seen through the integer distributions drawing from it. -/
structure Mt19937 where
  stream : Nat → Nat
  pos : Nat

/-- One draw of `std::uniform_int_distribution<int>(0, n - 1)`. -/
def uniform_int_distribution (n : Nat) (eng : Mt19937) : Nat × Mt19937 :=
  (eng.stream eng.pos % n, { eng with pos := eng.pos + 1 })

/-- The prediction cache `m_featurePredictions`; `none` is a null pointer. -/
abbrev PredictionCache := Nat → Option EnsemblePredictionGaussianMean

/-- Assignment `m_featurePredictions[linearIdx] = prediction`. -/
def PredictionCache.store (cache : PredictionCache) (linearIdx : Nat)
    (prediction : EnsemblePredictionGaussianMean) : PredictionCache :=
  fun i => if i = linearIdx then some prediction else cache i

/-- The read `pred->_modes[m][k]`, `none` when an index is out of range. -/
def modeComponent (pred : EnsemblePredictionGaussianMean) (m : Int) (k : Nat) :
    Option PredictedGaussianMean :=
  if m < 0 then none else (pred._modes[m.toNat]?).bind (fun components => components[k]?)

/-! ## Filling the prediction cache -/

/-- The leaves of pixel `linearIdx`, one per tree. -/
def featureLeaves (env : Env) (linearIdx : Nat) : List Nat :=
  (List.range env.leafHeight).map (fun tree_idx => env.leafData (tree_idx * env.leafWidth + linearIdx))

/-- Filter predictions "and keep only those with the most inliers": `std::sort` with the
comparator `a.size() > b.size()` on the modes, then `resize(20)` when there are more. -/
def filterModes (prediction : EnsemblePredictionGaussianMean) : EnsemblePredictionGaussianMean :=
  let sorted := prediction._modes.insertionSort (fun a b => a.length ≥ b.length)
  { _modes := if sorted.length > 20 then sorted.take 20 else sorted }

/-! ## `sample_pixels_for_ransac` -/

/-- The variables `sample_pixels_for_ransac` reads and writes. -/
structure SamplerState where
  m_featurePredictions : PredictionCache
  maskSampledPixels : List Bool
  sampledPixelIdx : List (Nat × Nat)
  eng : Mt19937

/-- The block that sets `selectedPrediction` for the pixel `linearIdx`: the cached prediction
or, when the cache holds a null pointer, the prediction of the forest for the leaves of the
pixel, filtered and stored in the cache. The result is `none` when the forest has no
prediction (the `continue` of the source). -/
def select_prediction (env : Env) (st : SamplerState) (linearIdx : Nat) : Option SamplerState :=
  match st.m_featurePredictions linearIdx with
  | some _ => some st
  | none =>
    match env.GetPredictionForLeaves (featureLeaves env linearIdx) with
    | none => none
    | some p =>
      some { st with m_featurePredictions := st.m_featurePredictions.store linearIdx (filterModes p) }

/-- One pass through the body of the inner `while` loop. The result is `validIndex`. -/
def sample_attempt (env : Env) (st : SamplerState) : Run (Bool × SamplerState) :=
  let (x, eng1) := uniform_int_distribution env.width st.eng
  let (y, eng2) := uniform_int_distribution env.height eng1
  let linearIdx := y * env.width + x
  let st1 : SamplerState := { st with eng := eng2 }
  if (env.patchFeaturesData linearIdx).position 3 ≥ 0 then
    match select_prediction env st1 linearIdx with
    | none => .ok (false, st1)
    | some st2 =>
      if st2.maskSampledPixels.isEmpty then
        .ok (true, { st2 with sampledPixelIdx := st2.sampledPixelIdx ++ [(x, y)] })
      else
        match st2.maskSampledPixels[linearIdx]? with
        | none => .error .undefinedBehaviour
        | some true => .ok (false, st2)
        | some false =>
          .ok (true, { st2 with sampledPixelIdx := st2.sampledPixelIdx ++ [(x, y)],
                                maskSampledPixels := st2.maskSampledPixels.set linearIdx true })
  else
    .ok (false, st1)

/-- The loop `while (!validIndex && innerIterations < 50)` entered with `validIndex` false.
No statement of the body changes `innerIterations`. -/
def sample_slot (env : Env) : Nat → Nat → SamplerState → Run (Bool × SamplerState)
  | 0, innerIterations, st =>
    if innerIterations < 50 then .error .samplingUnfinished else .ok (false, st)
  | fuel + 1, innerIterations, st =>
    if innerIterations < 50 then
      match sample_attempt env st with
      | .error e => .error e
      | .ok (true, st1) => .ok (true, st1)
      | .ok (false, st1) => sample_slot env fuel innerIterations st1
    else .ok (false, st)

/-- The loop `for (int i = 0; i < batchSize; ++i)` with `remaining` slots to go. -/
def sample_batch (env : Env) (fuel : Nat) : Nat → SamplerState → Run SamplerState
  | 0, st => .ok st
  | remaining + 1, st =>
    match sample_slot env fuel 0 st with
    | .error e => .error e
    | .ok (true, st1) => sample_batch env fuel remaining st1
    | .ok (false, st1) => .ok st1

/-- The call `sample_pixels_for_ransac(maskSampledPixels, sampledPixelIdx, eng, batchSize)`; `fuel`
bounds the passes of the inner loop of each slot. The two distributions range over
`[0, width - 1]` and `[0, height - 1]`. -/
def sample_pixels_for_ransac (env : Env) (fuel : Nat) (st : SamplerState) (batchSize : Nat) :
    Run SamplerState :=
  if env.width = 0 ∨ env.height = 0 then .error .undefinedBehaviour
  else sample_batch env fuel batchSize st

/-! ## `update_inliers_for_optimization` -/

/-- The inliers appended for the sampled pixels. -/
def sampledInliers (env : Env) (sampledPixelIdx : List (Nat × Nat)) : List (Nat × Int) :=
  sampledPixelIdx.map (fun s => (s.2 * env.width + s.1, -1))

def update_inliers_for_optimization (env : Env) (sampledPixelIdx : List (Nat × Nat))
    (poseCandidates : List PoseCandidate) : List PoseCandidate :=
  poseCandidates.map (fun c => { c with inliers := c.inliers ++ sampledInliers env sampledPixelIdx })

/-! ## `compute_pose_energy` and `compute_and_sort_energies` -/

/-- The body of the loop of `compute_pose_energy` for the inlier at `linearIdx`: the amount
added to `energy`, or `none` when the iteration ends in `continue`. -/
def inlier_energy (env : Env) (cache : PredictionCache) (candidateCameraPose : Matrix4f)
    (linearIdx : Nat) : Run (Option ℚ) :=
  let localPixel : Vector3 := fun i => (env.patchFeaturesData linearIdx).position i.castSucc
  let projectedPixel := env.Rigid3DTransformation candidateCameraPose localPixel
  match cache linearIdx with
  | none => .error .undefinedBehaviour
  | some pred =>
    let exponant : ℚ := (2 * env.M_PI) ^ 3
    let nbModes : ℚ := pred._modes.length
    let argmax := env.GetArgMax3D pred projectedPixel
    match modeComponent pred argmax 0 with
    | none => .error .undefinedBehaviour
    | some mode =>
      let nbPts : ℚ := mode._nbPoints
      let totalNbPoints : ℚ := 0 + nbPts
      let diff : Vector3 := fun i => projectedPixel i.castSucc - mode._mean i
      let normalization := 1 / env.sqrt (mode._determinant * exponant)
      let descriptiveStatistics :=
        env.exp (-(1 / 2) * env.MahalanobisSquared3x3 mode._inverseCovariance diff)
      let evalGaussian1 := normalization * descriptiveStatistics
      let res : ℚ := 0 + nbPts * (evalGaussian1 * 1) / nbModes
      if totalNbPoints = 0 then .ok none
      else
        let prob := res / totalNbPoints
        let prob := if prob < 1 / 10 ^ 10 then 1 / 10 ^ 10 else prob
        .ok (some (-env.log10 prob))

/-- The loop of `compute_pose_energy` over the remaining inliers, `energy` being the value
accumulated so far. -/
def energy_loop (env : Env) (cache : PredictionCache) (candidateCameraPose : Matrix4f) :
    List (Nat × Int) → ℚ → Run ℚ
  | [], energy => .ok energy
  | s :: rest, energy =>
    match inlier_energy env cache candidateCameraPose s.1 with
    | .error e => .error e
    | .ok none => energy_loop env cache candidateCameraPose rest energy
    | .ok (some term) => energy_loop env cache candidateCameraPose rest (energy + term)

def compute_pose_energy (env : Env) (cache : PredictionCache) (candidateCameraPose : Matrix4f)
    (inliersIndices : List (Nat × Int)) : Run ℚ :=
  match energy_loop env cache candidateCameraPose inliersIndices 0 with
  | .error e => .error e
  | .ok energy => .ok (energy / inliersIndices.length)

/-- The comparator `SortByEnergyAsc`. -/
def SortByEnergyAsc (i j : PoseCandidate) : Prop := i.energy < j.energy

instance (i j : PoseCandidate) : Decidable (SortByEnergyAsc i j) :=
  inferInstanceAs (Decidable (i.energy < j.energy))

/-- The first loop of `compute_and_sort_energies`: every candidate gets its energy. -/
def assign_energies (env : Env) (cache : PredictionCache) :
    List PoseCandidate → Run (List PoseCandidate)
  | [] => .ok []
  | c :: rest =>
    match compute_pose_energy env cache c.cameraPose c.inliers with
    | .error e => .error e
    | .ok energy =>
      match assign_energies env cache rest with
      | .error e => .error e
      | .ok rest1 => .ok ({ c with energy := energy } :: rest1)

def compute_and_sort_energies (env : Env) (cache : PredictionCache)
    (poseCandidates : List PoseCandidate) : Run (List PoseCandidate) :=
  match assign_energies env cache poseCandidates with
  | .error e => .error e
  | .ok scored => .ok (scored.insertionSort (fun a b => ¬ SortByEnergyAsc b a))

/-! ## `update_candidate_pose` -/

/-- An entry of `PointsForLM::pts`: the local homogeneous point `first[0]` and the selected
mode component `second[0]`. -/
abbrev PointForLM := Vector4 × PredictedGaussianMean

/-- The difference `diff` between the transformed point and the mean of its mode. -/
def residualDiff (env : Env) (candidateCameraPoseD : Matrix4f) (pt : PointForLM) : Vector3 :=
  fun p => env.Rigid3DTransformationH candidateCameraPoseD pt.1 p.castSucc - pt.2._mean p

def EnergyForContinuous3DOptimizationUsingFullCovariance (env : Env) (pts : List PointForLM)
    (candidateCameraPoseD : Matrix4f) : ℚ :=
  pts.foldl
    (fun res pt =>
      let err := env.sqrt
        (env.MahalanobisSquared3x3 pt.2._inverseCovariance (residualDiff env candidateCameraPoseD pt))
      res + err)
    0

def EnergyForContinuous3DOptimizationUsingL2 (env : Env) (pts : List PointForLM)
    (candidateCameraPoseD : Matrix4f) : ℚ :=
  pts.foldl
    (fun res pt =>
      let diff := residualDiff env candidateCameraPoseD pt
      let err := env.sqrt (diff 0 * diff 0 + diff 1 * diff 1 + diff 2 * diff 2)
      let err := err * err
      res + err)
    0

/-- The energy both `energyBefore` and `energyAfter` are computed with, selected by
`m_usePredictionCovarianceForPoseOptimization`. -/
def refinementEnergy (env : Env) (cfg : Config) (pts : List PointForLM) (pose : Matrix4f) : ℚ :=
  if cfg.m_usePredictionCovarianceForPoseOptimization then
    EnergyForContinuous3DOptimizationUsingFullCovariance env pts pose
  else
    EnergyForContinuous3DOptimizationUsingL2 env pts pose

/-- The first loop of `update_candidate_pose`: the contents of `ptsForLM.pts` built from the
remaining `samples`. -/
def pointsForLM (env : Env) (cache : PredictionCache) (candidateCameraPose : Matrix4f) :
    List (Nat × Int) → Run (List PointForLM)
  | [] => .ok []
  | s :: rest =>
    let linearizedIdx := s.1
    let pixelLocalCoordinates := (env.patchFeaturesData linearizedIdx).position
    let projectedPixel : Vector4 := Matrix.mulVec candidateCameraPose pixelLocalCoordinates
    match cache linearizedIdx with
    | none => .error .undefinedBehaviour
    | some epgm =>
      let argmax := env.GetArgMax3D epgm projectedPixel
      if argmax = -1 then pointsForLM env cache candidateCameraPose rest
      else
        match modeComponent epgm argmax 0 with
        | none => .error .undefinedBehaviour
        | some mode =>
          let d : Vector3 := fun i =>
            mode._mean i - env.ConvertWorldCoordinatesFromHomogeneousCoordinates projectedPixel i
          match pointsForLM env cache candidateCameraPose rest with
          | .error e => .error e
          | .ok pts =>
            if env.sqrt (d 0 * d 0 + d 1 * d 1 + d 2 * d 2) < 2 / 10 then
              .ok ((pixelLocalCoordinates, mode) :: pts)
            else .ok pts

/-- The pose `updatedCandidateCameraPoseD` the optimiser arrives at from `pose` on `pts`. -/
def optimisedPose (env : Env) (cfg : Config) (pts : List PointForLM) (pose : Matrix4f) : Matrix4f :=
  env.LieAlgebraToLieGroupSE3
    (env.minlmoptimize (env.LieGroupToLieAlgebraSE3 pose)
      (fun ksi => refinementEnergy env cfg pts (env.LieAlgebraToLieGroupSE3 ksi)))

def update_candidate_pose (env : Env) (cfg : Config) (cache : PredictionCache)
    (poseCandidate : PoseCandidate) : Run (Bool × PoseCandidate) :=
  match pointsForLM env cache poseCandidate.cameraPose poseCandidate.inliers with
  | .error e => .error e
  | .ok pts =>
    if pts.length > 3 then
      let energyBefore := refinementEnergy env cfg pts poseCandidate.cameraPose
      let updatedCandidateCameraPoseD := optimisedPose env cfg pts poseCandidate.cameraPose
      let energyAfter := refinementEnergy env cfg pts updatedCandidateCameraPoseD
      if energyAfter < energyBefore then
        .ok (true, { poseCandidate with cameraPose := updatedCandidateCameraPoseD })
      else .ok (false, poseCandidate)
    else .ok (false, poseCandidate)

def update_candidate_poses (env : Env) (cfg : Config) (cache : PredictionCache) :
    List PoseCandidate → Run (List PoseCandidate)
  | [] => .ok []
  | c :: rest =>
    match update_candidate_pose env cfg cache c with
    | .error e => .error e
    | .ok (_, c1) =>
      match update_candidate_poses env cfg cache rest with
      | .error e => .error e
      | .ok rest1 => .ok (c1 :: rest1)

/-! ## `estimate_pose` -/

/-- The variables of `estimate_pose`. -/
structure RansacState where
  candidates : List PoseCandidate
  m_featurePredictions : PredictionCache
  maskSampledPixels : List Bool
  random_engine : Mt19937
  /-- The counter `iteration` of the tournament loop. -/
  iteration : Nat

/-- The evaluation part of the first trim: sample with the empty `dummy_vector` as mask,
append the inliers, score and sort, then erase the candidates from position
`m_trimKinitAfterFirstEnergyComputation` on. -/
def trim_evaluate (env : Env) (cfg : Config) (fuel : Nat) (st : RansacState) : Run RansacState :=
  match sample_pixels_for_ransac env fuel
      { m_featurePredictions := st.m_featurePredictions, maskSampledPixels := [],
        sampledPixelIdx := [], eng := st.random_engine } cfg.m_batchSizeRansac with
  | .error e => .error e
  | .ok sampled =>
    match compute_and_sort_energies env sampled.m_featurePredictions
        (update_inliers_for_optimization env sampled.sampledPixelIdx st.candidates) with
    | .error e => .error e
    | .ok sorted =>
      .ok { st with
            candidates := sorted.take cfg.m_trimKinitAfterFirstEnergyComputation,
            m_featurePredictions := sampled.m_featurePredictions,
            random_engine := sampled.eng }

/-- The loop erasing, from every candidate, the samples from position `nbSamplesPerCamera` on. -/
def trim_inliers (nbSamplesPerCamera : Nat) (candidates : List PoseCandidate) : List PoseCandidate :=
  candidates.map (fun c =>
    if c.inliers.length > nbSamplesPerCamera then
      { c with inliers := c.inliers.take nbSamplesPerCamera }
    else c)

/-- The block guarded by `m_trimKinitAfterFirstEnergyComputation < candidates.size()`. -/
def first_trim (env : Env) (cfg : Config) (fuel : Nat) (st : RansacState) : Run RansacState :=
  if cfg.m_trimKinitAfterFirstEnergyComputation < st.candidates.length then
    let nbSamplesPerCamera :=
      match st.candidates with
      | [] => 0
      | c :: _ => c.inliers.length
    match trim_evaluate env cfg fuel st with
    | .error e => .error e
    | .ok evaluated =>
      if cfg.m_trimKinitAfterFirstEnergyComputation > 1 then
        .ok { evaluated with candidates := trim_inliers nbSamplesPerCamera evaluated.candidates }
      else .ok evaluated
  else .ok st

/-- The body of the tournament loop up to and including `compute_and_sort_energies`. -/
def round_scored (env : Env) (cfg : Config) (fuel : Nat) (st : RansacState) : Run RansacState :=
  match sample_pixels_for_ransac env fuel
      { m_featurePredictions := st.m_featurePredictions, maskSampledPixels := st.maskSampledPixels,
        sampledPixelIdx := [], eng := st.random_engine } cfg.m_batchSizeRansac with
  | .error e => .error e
  | .ok sampled =>
    let appended := update_inliers_for_optimization env sampled.sampledPixelIdx st.candidates
    let refined : Run (List PoseCandidate) :=
      if cfg.m_poseUpdate then update_candidate_poses env cfg sampled.m_featurePredictions appended
      else .ok appended
    match refined with
    | .error e => .error e
    | .ok refined1 =>
      match compute_and_sort_energies env sampled.m_featurePredictions refined1 with
      | .error e => .error e
      | .ok sorted =>
        .ok { candidates := sorted,
              m_featurePredictions := sampled.m_featurePredictions,
              maskSampledPixels := sampled.maskSampledPixels,
              random_engine := sampled.eng,
              iteration := st.iteration + 1 }

/-- The final statement of the loop body:
`candidates.erase(candidates.begin() + candidates.size() / 2, candidates.end())`. -/
def erase_worse_half (st : RansacState) : RansacState :=
  { st with candidates := st.candidates.take (st.candidates.length / 2) }

/-- One pass through the body of `while (candidates.size() > 1)`. -/
def tournament_round (env : Env) (cfg : Config) (fuel : Nat) (st : RansacState) : Run RansacState :=
  match round_scored env cfg fuel st with
  | .error e => .error e
  | .ok scored => .ok (erase_worse_half scored)

/-- The loop `while (candidates.size() > 1)`, allowed at most `rounds` passes. -/
def tournament_loop (env : Env) (cfg : Config) (fuel : Nat) : Nat → RansacState → Run RansacState
  | 0, st => if st.candidates.length > 1 then .error .roundsUnfinished else .ok st
  | rounds + 1, st =>
    if st.candidates.length > 1 then
      match tournament_round env cfg fuel st with
      | .error e => .error e
      | .ok st1 => tournament_loop env cfg fuel rounds st1
    else .ok st

/-- The state in which the tournament loop is entered: the candidates left by the first
trim, a mask of `dataSize` entries all `false`, and `iteration = 0`. -/
def loop_entry (env : Env) (trimmed : RansacState) : RansacState :=
  { trimmed with maskSampledPixels := List.replicate env.dataSize false, iteration := 0 }

/-- The variables of `estimate_pose` on entry, before the first trim, for the pool
`candidates` and the cache `cache`. -/
def entryState (env : Env) (cache : PredictionCache) (candidates : List PoseCandidate) :
    RansacState where
  candidates := candidates
  m_featurePredictions := cache
  maskSampledPixels := []
  random_engine := { stream := env.mt19937, pos := 0 }
  iteration := 0

/-- What `estimate_pose` leaves behind: the returned candidate and the final variables. -/
structure EstimateResult where
  result : PoseCandidate
  final : RansacState

/-- The call `estimate_pose(candidates)` with the cache `m_featurePredictions` as it is on
entry. The engine `random_engine` is default-constructed. The loop is given as many passes as
there are candidates on entry to it. -/
def estimate_pose (env : Env) (cfg : Config) (fuel : Nat) (cache : PredictionCache)
    (candidates : List PoseCandidate) : Run EstimateResult :=
  match first_trim env cfg fuel (entryState env cache candidates) with
  | .error e => .error e
  | .ok trimmed =>
    match tournament_loop env cfg fuel trimmed.candidates.length (loop_entry env trimmed) with
    | .error e => .error e
    | .ok final =>
      match final.candidates with
      | [] => .error .undefinedBehaviour
      | c :: _ => .ok { result := c, final := final }

/-! ## `process_relocalisation` -/

inductive TrackingResult where
  | TRACKING_GOOD
  | TRACKING_POOR
  | TRACKING_FAILED
  deriving DecidableEq, Repr

/-- The calls through which `process_relocalisation` acts on the rest of the system, in the
order of the source. -/
inductive Step where
  | ComputeFeature
  | evaluate_forest
  | generate_pose_candidates
  | estimate_pose
  | SetInvM (invPose : Matrix4f)
  | UpdateVisibleList
  | prepare_for_tracking
  | Track
  deriving DecidableEq

/-- The state `process_relocalisation` works on. -/
structure SLAMState where
  /-- The inverse matrix of `trackingState->pose_d`. -/
  pose_d : Matrix4f
  /-- The field `trackingState->trackerResult`. -/
  trackerResult : TrackingResult
  m_featurePredictions : PredictionCache
  /-- The calls made so far. -/
  steps : List Step

/-- What the rest of the system answers to `process_relocalisation`. -/
structure Pipeline where
  /-- The count `m_lowLevelEngine->CountValidDepths(inputDepthImage)`. -/
  CountValidDepths : Nat
  /-- The candidates and the prediction cache `generate_pose_candidates` leaves, a parallel
  loop over `hypothesize_pose` entered here through its outcome. -/
  generate_pose_candidates : Run (List PoseCandidate × PredictionCache)
  /-- The tracker result after `m_trackingController->Track` from the given pose. -/
  Track : Matrix4f → TrackingResult

/-- The statements installing `invPose` and tracking from it. -/
def install_pose (pl : Pipeline) (invPose : Matrix4f) (s : SLAMState) : SLAMState :=
  { s with
    pose_d := invPose
    trackerResult := pl.Track invPose
    steps := s.steps ++ [Step.SetInvM invPose, Step.UpdateVisibleList, Step.prepare_for_tracking,
      Step.Track] }

/-- The body of `process_relocalisation` up to the first `return trackingResult;` that follows
the block guarded by `trackingResult == TrackingResult::TRACKING_FAILED`; the statements
after that `return` are never executed. -/
def process_relocalisation (env : Env) (cfg : Config) (fuel : Nat) (pl : Pipeline)
    (trackingResult : TrackingResult) (s : SLAMState) : Run (TrackingResult × SLAMState) :=
  if trackingResult = TrackingResult.TRACKING_FAILED then
    if pl.CountValidDepths < max cfg.m_nbPointsForKabschBoostrap cfg.m_batchSizeRansac then
      .ok (trackingResult, s)
    else
      match pl.generate_pose_candidates with
      | .error e => .error e
      | .ok (poseCandidates, cache) =>
        match estimate_pose env cfg fuel cache poseCandidates with
        | .error e => .error e
        | .ok final_candidate =>
          let s1 : SLAMState :=
            { s with
              m_featurePredictions := final_candidate.final.m_featurePredictions
              steps := s.steps ++ [Step.ComputeFeature, Step.evaluate_forest,
                Step.generate_pose_candidates, Step.estimate_pose] }
          let s2 := install_pose pl final_candidate.result.cameraPose s1
          let trackingResult := s2.trackerResult
          .ok (trackingResult, s2)
  else .ok (trackingResult, s)

/-! ## Closed-form alignment -/

/-- The points of a `3 × n` matrix are its columns. -/
abbrev Points (n : Nat) := Matrix (Fin 3) (Fin n) ℚ

/-- The 4×4 matrix of the rigid transform with rotation `R` and translation `t`. -/
def rigidTransform (R : Matrix3) (t : Vector3) : Matrix4f :=
  Matrix.of ![![R 0 0, R 0 1, R 0 2, t 0],
              ![R 1 0, R 1 1, R 1 2, t 1],
              ![R 2 0, R 2 1, R 2 2, t 2],
              ![0, 0, 0, 1]]

/-- The images of the points `P` under the rigid transform with rotation `R` and
translation `t`. -/
def transformPoints {n : Nat} (R : Matrix3) (t : Vector3) (P : Points n) : Points n :=
  Matrix.of fun i j => (R * P) i j + t i

/-- Modelled from the spec: the centroid of the points, for the step "translation as the
difference of centroids after rotation" of `Kabsch`, whose body is not among the sources. -/
def centroid {n : Nat} (P : Points n) : Vector3 :=
  fun i => (∑ j, P i j) / n

/-- The points relative to their centroid. -/
def centred {n : Nat} (P : Points n) : Points n :=
  Matrix.of fun i j => P i j - centroid P i

/-- Total squared distance between the points `X` rotated by `R` and the points `Y`. -/
def squaredDistance {n : Nat} (R : Matrix3) (X Y : Points n) : ℚ :=
  ∑ j, ∑ i, ((R * X) i j - Y i j) ^ 2

/-- The matrix `R` is a proper rotation: orthogonal with determinant one. -/
def IsRotation (R : Matrix3) : Prop :=
  R.transpose * R = 1 ∧ R.det = 1

/-- Modelled from the spec: the result of the step "rotation via optimal orthogonal fit" of
`Kabsch`, whose body is not among the sources: `R` is a rotation and no rotation brings `X`
closer to `Y` in total squared distance. -/
def IsOptimalOrthogonalFit {n : Nat} (R : Matrix3) (X Y : Points n) : Prop :=
  IsRotation R ∧ ∀ R1 : Matrix3, IsRotation R1 → squaredDistance R X Y ≤ squaredDistance R1 X Y

/-- Modelled from the spec: the body of `Kabsch(P, Q)` (declared in `PreemptiveRansac.h`,
called as `Helpers::Kabsch(localPoints, worldPoints)`) is not among the sources. Section 4.2:
"closed-form rigid alignment: rotation via optimal orthogonal fit, translation as the
difference of centroids after rotation". The orthogonal fit of the centred point sets is the
argument `orthogonalFit`. -/
def Kabsch {n : Nat} (orthogonalFit : Points n → Points n → Matrix3) (P Q : Points n) : Matrix4f :=
  let R := orthogonalFit (centred P) (centred Q)
  rigidTransform R (fun i => centroid Q i - (R.mulVec (centroid P)) i)

/-- The cross product of two vectors. -/
def cross (u v : Vector3) : Vector3 :=
  ![u 1 * v 2 - u 2 * v 1, u 2 * v 0 - u 0 * v 2, u 0 * v 1 - u 1 * v 0]

/-- The points `a`, `b`, `c` of `P` are not on one line. -/
def NonCollinear {n : Nat} (P : Points n) (a b c : Fin n) : Prop :=
  cross (fun i => P i b - P i a) (fun i => P i c - P i a) ≠ 0

/-- The matrix with columns `u`, `v`, `w`. -/
def columns (u v w : Vector3) : Matrix3 :=
  Matrix.of ![![u 0, v 0, w 0], ![u 1, v 1, w 1], ![u 2, v 2, w 2]]

/-! ## Relations used in the statements -/

/-- The candidate `s` is the candidate `c` with the energy of its pose and inliers filled in. -/
def ScoredFrom (env : Env) (cache : PredictionCache) (c s : PoseCandidate) : Prop :=
  s = { c with energy := s.energy } ∧
    compute_pose_energy env cache c.cameraPose c.inliers = .ok s.energy

/-- The candidates `c` and `r` differ at most in their pose. -/
def SameButPose (c r : PoseCandidate) : Prop :=
  r = { c with cameraPose := r.cameraPose }

/-- The pixels `idxs` are pairwise distinct, none of them is marked in `mask`, all of them
are marked in `mask1`, and every pixel marked in `mask` is still marked in `mask1`. -/
def FreshlyMasked (mask mask1 : List Bool) (idxs : List Nat) : Prop :=
  idxs.Nodup ∧ (∀ i ∈ idxs, mask[i]? ≠ some true ∧ mask1[i]? = some true) ∧
    (∀ i : Nat, mask[i]? = some true → mask1[i]? = some true) ∧ mask1.length = mask.length

/-! ## A small frame for concrete runs -/

/-- The prediction of pixel `i` in the example frame: one mode with a position and a colour
component, centred at the local point of the pixel. -/
def examplePrediction (i : Nat) : EnsemblePredictionGaussianMean where
  _modes := [[{ _nbPoints := 10, _mean := ![(i : ℚ), 0, 0], _inverseCovariance := 1,
                _determinant := 1 },
              { _nbPoints := 10, _mean := ![0, 0, 0], _inverseCovariance := 1,
                _determinant := 1 }]]

/-- A frame of `4 × 1` pixels, all with depth, pixel `i` at the local point `(i, 0, 0)`. The
library routines are simple rational stand-ins: poses act by their translation column, the
optimiser always proposes the zero twist, and attempt `k` of the engine draws column
`k mod 4`. -/
def exampleEnv : Env where
  width := 4
  height := 1
  patchFeaturesData := fun i => { position := ![(i : ℚ), 0, 0, 1], colour := ![0, 0, 0, 0] }
  leafWidth := 4
  leafHeight := 1
  leafData := fun i => i
  GetPredictionForLeaves := fun leaves =>
    match leaves with
    | [i] => some (examplePrediction i)
    | _ => none
  GetArgMax3D := fun _ _ => 0
  Rigid3DTransformation := fun T p => ![p 0 + T 0 3, p 1 + T 1 3, p 2 + T 2 3, 1]
  Rigid3DTransformationH := fun T p => ![p 0 + T 0 3, p 1 + T 1 3, p 2 + T 2 3, 1]
  MahalanobisSquared3x3 := fun _ d => d 0 * d 0 + d 1 * d 1 + d 2 * d 2
  ConvertWorldCoordinatesFromHomogeneousCoordinates := fun p => ![p 0, p 1, p 2]
  LieGroupToLieAlgebraSE3 := fun T => ![T 0 3, T 1 3, T 2 3, 0, 0, 0]
  LieAlgebraToLieGroupSE3 := fun k => rigidTransform 1 ![k 0, k 1, k 2]
  minlmoptimize := fun _ _ => 0
  sqrt := fun x => x
  exp := fun x => 1 + x
  log10 := fun x => x
  M_PI := 3
  mt19937 := fun k => k / 2

/-- The example configuration: batches of one pixel, no first trim for pools of at most 64. -/
def exampleConfig : Config :=
  { constructorConfig with m_batchSizeRansac := 1 }

/-- The cache in which every pixel of the example frame has its prediction. -/
def exampleCache : PredictionCache := fun i => some (filterModes (examplePrediction i))

/-- A candidate of the example frame: translation by `(k / 10, 0, 0)`, pixel `0` as its only
inlier, id `k`. -/
def exampleCandidate (k : Nat) : PoseCandidate where
  cameraPose := rigidTransform 1 ![(k : ℚ) / 10, 0, 0]
  inliers := [(0, 0)]
  energy := 0
  cameraId := k

/-- The variables of `estimate_pose` on entry to the tournament loop for the pool
`candidates` in the example frame. -/
def exampleState (candidates : List PoseCandidate) : RansacState where
  candidates := candidates
  m_featurePredictions := exampleCache
  maskSampledPixels := List.replicate exampleEnv.dataSize false
  random_engine := { stream := exampleEnv.mt19937, pos := 0 }
  iteration := 0

/-- A state of the SLAM component before a relocalisation request: no call made yet. -/
def exampleSLAMState : SLAMState where
  pose_d := 1
  trackerResult := TrackingResult.TRACKING_FAILED
  m_featurePredictions := exampleCache
  steps := []

/-- A frame with 499 valid depth pixels, one fewer than the batch size of the constructor. -/
def examplePipeline : Pipeline where
  CountValidDepths := 499
  generate_pose_candidates := .ok ([exampleCandidate 0, exampleCandidate 1], exampleCache)
  Track := fun _ => TrackingResult.TRACKING_GOOD

/-- A candidate of the example frame whose inliers are the four pixels of the frame and whose
pose is off by `(1 / 10, 0, 0)`. -/
def exampleCandidateFourInliers : PoseCandidate where
  cameraPose := rigidTransform 1 ![1 / 10, 0, 0]
  inliers := [(0, 0), (1, 0), (2, 0), (3, 0)]
  energy := 0
  cameraId := 7

/-- The example configuration with a trim threshold of two. -/
def exampleTrimConfig : Config :=
  { constructorConfig with m_batchSizeRansac := 1, m_trimKinitAfterFirstEnergyComputation := 2 }

/-- The quarter turn about the third axis. -/
def exampleRotation : Matrix3 :=
  Matrix.of ![![0, -1, 0], ![1, 0, 0], ![0, 0, 1]]

/-- Three local points not on one line, as the columns of a `3 × 3` matrix. -/
def examplePoints : Points 3 :=
  Matrix.of ![![0, 1, 0], ![0, 0, 1], ![0, 0, 0]]

/-! ## Frames for the sampling loop -/

/-- The example frame with the depth taken away from every pixel (`w = -1`). -/
def noDepthEnv : Env :=
  { exampleEnv with
    patchFeaturesData := fun i => { position := ![(i : ℚ), 0, 0, -1], colour := ![0, 0, 0, 0] } }

/-- A frame of `64 × 1` pixels of which only pixel `59` has depth; attempt `k` of the engine
draws column `k mod 64`. -/
def lateEnv : Env :=
  { exampleEnv with
    width := 64
    patchFeaturesData := fun i =>
      { position := ![(i : ℚ), 0, 0, if i = 59 then 1 else -1], colour := ![0, 0, 0, 0] } }

/-- The variables of `sample_pixels_for_ransac` on entry for the frame `env`: the given cache
and mask, nothing sampled, a default-constructed engine. -/
def samplerEntry (env : Env) (cache : PredictionCache) (mask : List Bool) : SamplerState where
  m_featurePredictions := cache
  maskSampledPixels := mask
  sampledPixelIdx := []
  eng := { stream := env.mt19937, pos := 0 }

/-! ## `hypothesize_pose` -/

/-- The constant `INT_MAX` that `prevNbPointsPerMode` starts from. -/
def INT_MAX : Int := 2147483647

/-- The loop looking for the first mode, from index `i` on, whose `_nbPoints` exceeds
`prevNbPointsPerMode`: the index found, or `none` when the loop ends with `found` false. -/
def first_tree_boundary : List (List PredictedGaussianMean) → Nat → Int → Run (Option Nat)
  | [], _, _ => .ok none
  | mode :: rest, i, prevNbPointsPerMode =>
    match mode[0]? with
    | none => .error .undefinedBehaviour
    | some g =>
      if g._nbPoints > prevNbPointsPerMode then .ok (some i)
      else first_tree_boundary rest (i + 1) g._nbPoints

/-- The block computing `nbModesInFirstTree` for the selected prediction. -/
def nbModesInFirstTree (selectedPrediction : EnsemblePredictionGaussianMean) : Run Nat :=
  match first_tree_boundary selectedPrediction._modes 0 INT_MAX with
  | .error e => .error e
  | .ok (some i) => .ok i
  | .ok none => .ok selectedPrediction._modes.length

/-- The choice of `selectedModeIdx`: `0`, or a draw of the distribution over
`[0, nbModesInFirstTree - 1]` when all modes of the leaf are used. -/
def select_mode (cfg : Config) (nbModes : Nat) (eng : Mt19937) : Run (Nat × Mt19937) :=
  if cfg.m_useAllModesPerLeafInPoseHypothesisGeneration then
    if nbModes = 0 then .error .undefinedBehaviour
    else .ok (uniform_int_distribution nbModes eng)
  else .ok (0, eng)

/-- The Euclidean norm `(a - b).norm()` of Eigen. -/
def distance (env : Env) (a b : Vector3) : ℚ :=
  env.sqrt ((a 0 - b 0) * (a 0 - b 0) + (a 1 - b 1) * (a 1 - b 1) + (a 2 - b 2) * (a 2 - b 2))

/-- The first three coordinates `position.v` of a feature. -/
def localPoint (feature : RGBDPatchFeature) : Vector3 :=
  fun i => feature.position i.castSucc

/-- The colour check of the first selected pixel: no channel of the pixel differs from the
colour mean of the selected mode by more than `30`. -/
def consistentColour (selectedFeature : RGBDPatchFeature)
    (selectedPrediction : EnsemblePredictionGaussianMean) (selectedModeIdx : Nat) : Run Bool :=
  match modeComponent selectedPrediction selectedModeIdx 1 with
  | none => .error .undefinedBehaviour
  | some colourMode =>
    .ok (decide (∀ c : Fin 3, ¬ |selectedFeature.colour c.castSucc - colourMode._mean c| > 30))

/-- The loop over the pixels selected so far that sets `farEnough`. -/
def farEnough (env : Env) (cfg : Config) (cache : PredictionCache) (worldPt : Vector3) :
    List (Nat × Nat × Nat) → Run Bool
  | [] => .ok true
  | (xOther, yOther, modeIdxOther) :: rest =>
    match cache (yOther * env.width + xOther) with
    | none => .error .undefinedBehaviour
    | some predOther =>
      match modeComponent predOther modeIdxOther 0 with
      | none => .error .undefinedBehaviour
      | some modeOther =>
        if distance env modeOther._mean worldPt < cfg.m_minDistanceBetweenSampledModes then
          .ok false
        else farEnough env cfg cache worldPt rest

/-- The loop over the pixels selected so far that sets `violatesConditions`. -/
def violatesConditions (env : Env) (cfg : Config) (cache : PredictionCache)
    (selectedFeature : RGBDPatchFeature) (selectedPrediction : EnsemblePredictionGaussianMean)
    (selectedModeIdx : Nat) : List (Nat × Nat × Nat) → Run Bool
  | [] => .ok false
  | (xFirst, yFirst, modeIdxFirst) :: rest =>
    let linearIdxOther := yFirst * env.width + xFirst
    match cache linearIdxOther with
    | none => .error .undefinedBehaviour
    | some predFirst =>
      match modeComponent predFirst modeIdxFirst 0, modeComponent selectedPrediction selectedModeIdx 0 with
      | some modeFirst, some modeCur =>
        let distWorld := distance env modeFirst._mean modeCur._mean
        let distLocal := distance env (localPoint (env.patchFeaturesData linearIdxOther))
          (localPoint selectedFeature)
        if distLocal < cfg.m_minDistanceBetweenSampledModes ∨
            |distLocal - distWorld| > 1 / 2 * cfg.m_translationErrorMaxForCorrectPose then
          .ok true
        else
          violatesConditions env cfg cache selectedFeature selectedPrediction selectedModeIdx rest
      | _, _ => .error .undefinedBehaviour

/-- The checks between the choice of the mode and `push_back`, in the order of the source:
colour (first pixel only), minimum distance between modes, rigidity. The result tells whether
the pixel is pushed. -/
def passes_checks (env : Env) (cfg : Config) (cache : PredictionCache)
    (selected : List (Nat × Nat × Nat)) (selectedFeature : RGBDPatchFeature)
    (selectedPrediction : EnsemblePredictionGaussianMean) (selectedModeIdx : Nat) : Run Bool :=
  let colour : Run Bool :=
    if selected.isEmpty then consistentColour selectedFeature selectedPrediction selectedModeIdx
    else .ok true
  match colour with
  | .error e => .error e
  | .ok false => .ok false
  | .ok true =>
    let far : Run Bool :=
      if cfg.m_checkMinDistanceBetweenSampledModes then
        match modeComponent selectedPrediction selectedModeIdx 0 with
        | none => .error .undefinedBehaviour
        | some mode => farEnough env cfg cache mode._mean selected
      else .ok true
    match far with
    | .error e => .error e
    | .ok false => .ok false
    | .ok true =>
      if cfg.m_checkRigidTransformationConstraint then
        match violatesConditions env cfg cache selectedFeature selectedPrediction
            selectedModeIdx selected with
        | .error e => .error e
        | .ok violates => .ok (!violates)
      else .ok true

/-- The block of `hypothesize_pose` that sets `selectedPrediction` for the pixel
`linearFeatureIdx`: the cached prediction or, when the cache holds a null pointer, the
prediction of the forest, filtered and stored. The result is `none` when the forest has no
prediction (the `continue` of the source). -/
def cached_prediction (env : Env) (cache : PredictionCache) (linearFeatureIdx : Nat) :
    Option (EnsemblePredictionGaussianMean × PredictionCache) :=
  match cache linearFeatureIdx with
  | some p => some (p, cache)
  | none =>
    match env.GetPredictionForLeaves (featureLeaves env linearFeatureIdx) with
    | none => none
    | some p => some (filterModes p, cache.store linearFeatureIdx (filterModes p))

/-- The variables of the inner loop of `hypothesize_pose`. -/
structure HypothesisState where
  m_featurePredictions : PredictionCache
  eng : Mt19937
  selectedPixelsAndModes : List (Nat × Nat × Nat)
  iterationsInner : Nat

/-- One pass through the body of the inner loop of `hypothesize_pose`. -/
def hypothesize_attempt (env : Env) (cfg : Config) (st : HypothesisState) : Run HypothesisState :=
  let (x, eng1) := uniform_int_distribution env.width st.eng
  let (y, eng2) := uniform_int_distribution env.height eng1
  let linearFeatureIdx := y * env.width + x
  let selectedFeature := env.patchFeaturesData linearFeatureIdx
  let st1 : HypothesisState := { st with eng := eng2 }
  if selectedFeature.position 3 < 0 then .ok st1
  else
    match cached_prediction env st1.m_featurePredictions linearFeatureIdx with
    | none => .ok st1
    | some (selectedPrediction, cache1) =>
      let st2 : HypothesisState :=
        { st1 with m_featurePredictions := cache1, iterationsInner := st1.iterationsInner + 1 }
      match nbModesInFirstTree selectedPrediction with
      | .error e => .error e
      | .ok nbModes =>
        match select_mode cfg nbModes st2.eng with
        | .error e => .error e
        | .ok (selectedModeIdx, eng3) =>
          let st3 : HypothesisState := { st2 with eng := eng3 }
          match passes_checks env cfg cache1 st3.selectedPixelsAndModes selectedFeature
              selectedPrediction selectedModeIdx with
          | .error e => .error e
          | .ok false => .ok st3
          | .ok true =>
            .ok { st3 with
                  selectedPixelsAndModes :=
                    st3.selectedPixelsAndModes ++ [(x, y, selectedModeIdx)] }

/-- The bound `maxIterationsInner`. -/
def maxIterationsInner : Nat := 6000

/-- The bound `maxIterationsOuter`. -/
def maxIterationsOuter : Nat := 20

/-- The inner loop `while (selectedPixelsAndModes.size() != N && iterationsInner <
maxIterationsInner)`; `fuel` bounds its passes, of which those ending before
`++iterationsInner` are not counted by the source. -/
def hypothesize_inner (env : Env) (cfg : Config) : Nat → HypothesisState → Run HypothesisState
  | 0, st =>
    if st.selectedPixelsAndModes.length ≠ cfg.m_nbPointsForKabschBoostrap ∧
        st.iterationsInner < maxIterationsInner then .error .samplingUnfinished
    else .ok st
  | fuel + 1, st =>
    if st.selectedPixelsAndModes.length ≠ cfg.m_nbPointsForKabschBoostrap ∧
        st.iterationsInner < maxIterationsInner then
      match hypothesize_attempt env cfg st with
      | .error e => .error e
      | .ok st1 => hypothesize_inner env cfg fuel st1
    else .ok st

/-- The loop filling `localPoints`, `worldPoints` and `tmpInliers` from the selected pixels:
for each, the local point, the mean of the selected mode and the inlier. -/
def correspondences (env : Env) (cache : PredictionCache) :
    List (Nat × Nat × Nat) → Run (List (Vector3 × Vector3 × (Nat × Int)))
  | [] => .ok []
  | (x, y, modeIdx) :: rest =>
    let linearIdx := y * env.width + x
    match cache linearIdx with
    | none => .error .undefinedBehaviour
    | some pred =>
      match modeComponent pred modeIdx 0 with
      | none => .error .undefinedBehaviour
      | some mode =>
        match correspondences env cache rest with
        | .error e => .error e
        | .ok found =>
          .ok ((localPoint (env.patchFeaturesData linearIdx), mode._mean,
            (linearIdx, (modeIdx : Int))) :: found)

/-- The candidate `res` built from the correspondences: the pose of `Kabsch` on the local and
world points, the inliers, energy `0` and id `-1`. -/
def hypothesis (orthogonalFit : (n : Nat) → Points n → Points n → Matrix3)
    (found : List (Vector3 × Vector3 × (Nat × Int))) : PoseCandidate where
  cameraPose :=
    Kabsch (orthogonalFit found.length)
      (Matrix.of fun i (j : Fin found.length) => (found.get j).1 i)
      (Matrix.of fun i (j : Fin found.length) => (found.get j).2.1 i)
  inliers := found.map (fun f => f.2.2)
  energy := 0
  cameraId := -1

/-- What a call of `hypothesize_pose` leaves behind. -/
structure HypothesisResult where
  /-- The value returned. -/
  returned : Bool
  /-- The candidate assigned to `res`, `none` when `res` is left as the caller passed it. -/
  res : Option PoseCandidate
  iterationsOuter : Nat
  m_featurePredictions : PredictionCache
  eng : Mt19937

/-- The outer loop `while (!foundIsometricMapping && iterationsOuter < maxIterationsOuter)`
followed by the final test of `iterationsOuter`; `remaining` is
`maxIterationsOuter - iterationsOuter` and `found` holds `res` once `foundIsometricMapping`
is set. -/
def hypothesize_outer (env : Env) (cfg : Config)
    (orthogonalFit : (n : Nat) → Points n → Points n → Matrix3) (fuel : Nat) :
    Nat → Option PoseCandidate → PredictionCache → Mt19937 → Run HypothesisResult
  | 0, found, cache, eng =>
    .ok { returned := false, res := found, iterationsOuter := maxIterationsOuter,
          m_featurePredictions := cache, eng := eng }
  | remaining + 1, some res, cache, eng =>
    .ok { returned := true, res := some res,
          iterationsOuter := maxIterationsOuter - (remaining + 1),
          m_featurePredictions := cache, eng := eng }
  | remaining + 1, none, cache, eng =>
    match hypothesize_inner env cfg fuel
        { m_featurePredictions := cache, eng := eng, selectedPixelsAndModes := [],
          iterationsInner := 0 } with
    | .error e => .error e
    | .ok st =>
      if st.selectedPixelsAndModes.length ≠ cfg.m_nbPointsForKabschBoostrap then
        .ok { returned := false, res := none, iterationsOuter := maxIterationsOuter - remaining,
              m_featurePredictions := st.m_featurePredictions, eng := st.eng }
      else
        match correspondences env st.m_featurePredictions st.selectedPixelsAndModes with
        | .error e => .error e
        | .ok found =>
          hypothesize_outer env cfg orthogonalFit fuel remaining
            (some (hypothesis orthogonalFit found)) st.m_featurePredictions st.eng

/-- The call `hypothesize_pose(res, eng)` with the cache `m_featurePredictions` as it is on
entry. The two pixel distributions range over `[0, width - 1]` and `[0, height - 1]`. -/
def hypothesize_pose (env : Env) (cfg : Config)
    (orthogonalFit : (n : Nat) → Points n → Points n → Matrix3) (fuel : Nat)
    (cache : PredictionCache) (eng : Mt19937) : Run HypothesisResult :=
  if env.width = 0 ∨ env.height = 0 then .error .undefinedBehaviour
  else hypothesize_outer env cfg orthogonalFit fuel maxIterationsOuter none cache eng

/-! ## `generate_pose_candidates` -/

/-- The number `nbThreads` of engines. -/
def nbThreads : Nat := 12

/-- What `generate_pose_candidates` needs beyond the frame: the orthogonal fit used by
`Kabsch`, the draws of the engines seeded `1` to `nbThreads`, and the thread
(`omp_get_thread_num()`) that runs each iteration of the parallel loop. -/
structure Generator where
  orthogonalFit : (n : Nat) → Points n → Points n → Matrix3
  /-- The draws of an engine after `seed(s)`. -/
  seeded : Nat → Nat → Nat
  threadOf : Nat → Fin nbThreads

/-- The variables of the loop of `generate_pose_candidates`. -/
structure GeneratorState where
  poseCandidates : List PoseCandidate
  m_featurePredictions : PredictionCache
  engs : Fin nbThreads → Mt19937

/-- The statements of iteration `i` after the call of `hypothesize_pose`: the candidate is
given the id `i` and appended when `true` was returned and it has some inliers. -/
def push_candidate (poseCandidates : List PoseCandidate) (i : Nat) (r : HypothesisResult) :
    List PoseCandidate :=
  match r.returned, r.res with
  | true, some candidate =>
    if candidate.inliers ≠ [] then poseCandidates ++ [{ candidate with cameraId := (i : Int) }]
    else poseCandidates
  | _, _ => poseCandidates

/-- The iterations `i`, `i + 1`, ... of the loop of `generate_pose_candidates`, `remaining`
of them, run one after the other. -/
def generate_loop (env : Env) (cfg : Config) (gen : Generator) (fuel : Nat) :
    Nat → Nat → GeneratorState → Run GeneratorState
  | 0, _, st => .ok st
  | remaining + 1, i, st =>
    let threadId := gen.threadOf i
    match hypothesize_pose env cfg gen.orthogonalFit fuel st.m_featurePredictions
        (st.engs threadId) with
    | .error e => .error e
    | .ok r =>
      generate_loop env cfg gen fuel remaining (i + 1)
        { poseCandidates := push_candidate st.poseCandidates i r,
          m_featurePredictions := r.m_featurePredictions,
          engs := fun t => if t = threadId then r.eng else st.engs t }

/-- The call `generate_pose_candidates(poseCandidates)` on an empty vector: the cache is
cleared, the engines are seeded with `1` to `nbThreads`, and the `m_kInitRansac` iterations
run in the order of their index. -/
def generate_pose_candidates (env : Env) (cfg : Config) (gen : Generator) (fuel : Nat) :
    Run GeneratorState :=
  generate_loop env cfg gen fuel cfg.m_kInitRansac 0
    { poseCandidates := [],
      m_featurePredictions := fun _ => none,
      engs := fun t => { stream := gen.seeded (t.val + 1), pos := 0 } }

/-! ## Relations between caches -/

/-- Every entry of `cache1` is the entry of `cache`, or `cache` holds a null pointer there and
`cache1` the filtered prediction of the forest for the leaves of that pixel. -/
def CacheExtends (env : Env) (cache cache1 : PredictionCache) : Prop :=
  ∀ i, cache1 i = cache i ∨
    (cache i = none ∧ ∃ p, env.GetPredictionForLeaves (featureLeaves env i) = some p ∧
      cache1 i = some (filterModes p))

/-- The support counts `_modes[m][0]->_nbPoints` of the modes of a prediction that have a
first component. -/
def supports (pred : EnsemblePredictionGaussianMean) : List Int :=
  pred._modes.filterMap (fun mode => mode[0]?.map (fun g => g._nbPoints))

/-- A prediction as the forest may return it: two modes with a position and a colour
component each, the first with `5` training points and the second with `10`. -/
def ascendingPrediction : EnsemblePredictionGaussianMean where
  _modes :=
    [[{ _nbPoints := 5, _mean := ![0, 0, 0], _inverseCovariance := 1, _determinant := 1 },
      { _nbPoints := 5, _mean := ![0, 0, 0], _inverseCovariance := 1, _determinant := 1 }],
     [{ _nbPoints := 10, _mean := ![1, 0, 0], _inverseCovariance := 1, _determinant := 1 },
      { _nbPoints := 10, _mean := ![0, 0, 0], _inverseCovariance := 1, _determinant := 1 }]]

/-- The example frame with a forest that returns `ascendingPrediction` for every pixel. -/
def ascendingEnv : Env :=
  { exampleEnv with GetPredictionForLeaves := fun _ => some ascendingPrediction }

/-- The pool holds candidates of attempts below `i`, in the order of the attempts, each with
the index of its attempt as id and with `nbPoints` inliers. -/
def PoolUpTo (nbPoints i : Nat) (poseCandidates : List PoseCandidate) : Prop :=
  (poseCandidates.map PoseCandidate.cameraId).Sublist ((List.range i).map Int.ofNat) ∧
    ∀ c ∈ poseCandidates, c.inliers.length = nbPoints

/-- An orthogonal fit that always answers the identity. -/
def identityFit : (n : Nat) → Points n → Points n → Matrix3 := fun _ _ _ => 1

/-- A generator for concrete runs: the identity as orthogonal fit, the engine seeded `s`
drawing `k + s` in its draw `k`, and every iteration run by thread `0`. -/
def exampleGenerator : Generator where
  orthogonalFit := identityFit
  seeded := fun s k => k + s
  threadOf := fun _ => ⟨0, by decide⟩

/-- The configuration of the constructor with four attempts instead of 1024. -/
def fourAttemptsConfig : Config :=
  { constructorConfig with m_kInitRansac := 4 }

/-- The example frame with the colour `(100, 100, 100)` at every pixel, more than `30` away
from the colour mean `(0, 0, 0)` of every mode. -/
def colourEnv : Env :=
  { exampleEnv with
    patchFeaturesData := fun i => { position := ![(i : ℚ), 0, 0, 1], colour := ![100, 100, 100, 0] } }

/-- The configuration of the constructor without the check of the distance between the
sampled modes. -/
def noDistanceConfig : Config :=
  { constructorConfig with m_checkMinDistanceBetweenSampledModes := false }

/-- A prediction with 25 modes, as the forest may return it. -/
def manyModesPrediction : EnsemblePredictionGaussianMean where
  _modes := List.replicate 25
    [{ _nbPoints := 10, _mean := ![0, 0, 0], _inverseCovariance := 1, _determinant := 1 },
     { _nbPoints := 10, _mean := ![0, 0, 0], _inverseCovariance := 1, _determinant := 1 }]

/-- The example frame with a forest that returns `manyModesPrediction` for every pixel. -/
def manyModesEnv : Env :=
  { exampleEnv with GetPredictionForLeaves := fun _ => some manyModesPrediction }

/-- A cache with the prediction of pixel `3` of the example frame and nothing else. -/
def onePixelCache : PredictionCache :=
  fun i => if i = 3 then some (filterModes (examplePrediction 3)) else none

/-! ## The energy in the words of the specification

The definitions of this section follow the wording of the specification, not the code; they
are compared with `compute_pose_energy` in the theorems. -/

/-- The inner loop `for (int s = 0; s < sampledPixelIdx.size(); ++s)`: one `push_back` of
`(y * width + x, -1)` per remaining sampled pixel. -/
def push_samples (env : Env) : List (Nat × Nat) → List (Nat × Int) → List (Nat × Int)
  | [], inliers => inliers
  | s :: rest, inliers =>
    let x := s.1
    let y := s.2
    push_samples env rest (inliers ++ [(y * env.width + x, -1)])

/-- The outer loop `for (int p = 0; p < poseCandidates.size(); ++p)` over the remaining
candidates, each getting the pushes of the inner loop. -/
def update_inliers_loop (env : Env) (sampledPixelIdx : List (Nat × Nat)) :
    List PoseCandidate → List PoseCandidate
  | [] => []
  | c :: rest =>
    { c with inliers := push_samples env sampledPixelIdx c.inliers }
      :: update_inliers_loop env sampledPixelIdx rest

/-! ## The refinement energy in the words of the specification -/

/-- Specification side: the plain Euclidean distance between the transformed local point of
a correspondence and its mode mean. -/
def specDistance (env : Env) (pose : Matrix4f) (pt : PointForLM) : ℚ :=
  let d := residualDiff env pose pt
  env.sqrt (d 0 * d 0 + d 1 * d 1 + d 2 * d 2)

/-- Specification side: the sum of the plain Euclidean distances over the correspondences. -/
def specL2Energy (env : Env) (pts : List PointForLM) (pose : Matrix4f) : ℚ :=
  (pts.map (specDistance env pose)).sum

/-- The squared Euclidean distance between the transformed local point of a correspondence
and its mode mean. -/
def squaredResidual (env : Env) (pose : Matrix4f) (pt : PointForLM) : ℚ :=
  let d := residualDiff env pose pt
  d 0 * d 0 + d 1 * d 1 + d 2 * d 2

/-- The example frame with a square root that is exact at `4`, the only value needed. -/
def rootEnv : Env :=
  { exampleEnv with sqrt := fun x => if x = 4 then 2 else x }

/-- Two correspondences whose local points lie at distance `2` from their mode mean. -/
def farPoints : List PointForLM :=
  [(![2, 0, 0, 1],
      { _nbPoints := 10, _mean := ![0, 0, 0], _inverseCovariance := 1, _determinant := 1 }),
   (![0, 2, 0, 1],
      { _nbPoints := 10, _mean := ![0, 0, 0], _inverseCovariance := 1, _determinant := 1 })]

/-! ## A frame with a monotone logarithm -/

/-- Specification side: `k` is the smallest index `i ≥ 1` at which the support count of mode
`i` exceeds that of mode `i - 1`, or the number of modes when there is no such index. -/
def specIsFirstTreeCount (s : List Int) (k : Nat) : Prop :=
  (∀ i < k, 1 ≤ i → s.getD i 0 ≤ s.getD (i - 1) 0) ∧
    (k = s.length ∨ (1 ≤ k ∧ k < s.length ∧ s.getD k 0 > s.getD (k - 1) 0))

instance (s : List Int) (k : Nat) : Decidable (specIsFirstTreeCount s k) := by
  unfold specIsFirstTreeCount
  infer_instance

/-- A mode with a position and a colour component of `n` training points each. -/
def modeOfSupport (n : Int) : List PredictedGaussianMean :=
  [{ _nbPoints := n, _mean := ![0, 0, 0], _inverseCovariance := 1, _determinant := 1 },
   { _nbPoints := n, _mean := ![0, 0, 0], _inverseCovariance := 1, _determinant := 1 }]

/-- A prediction with the supports `10, 5, 7, 2`: the modes of a second tree start at
index `2`. -/
def twoTreesPrediction : EnsemblePredictionGaussianMean where
  _modes := [modeOfSupport 10, modeOfSupport 5, modeOfSupport 7, modeOfSupport 2]

/-- A prediction with the supports `10, 5, 5, 2`, in non-increasing order. -/
def descendingPrediction : EnsemblePredictionGaussianMean where
  _modes := [modeOfSupport 10, modeOfSupport 5, modeOfSupport 5, modeOfSupport 2]

/-! ## Relations on selected pixels, sampled pixels and inliers -/

/-- The mean `_modes[modeIdx][0]->_mean` of the cached prediction of pixel `linearIdx`;
`none` when the cache holds a null pointer there or an index is out of range. -/
def chosenMean (cache : PredictionCache) (linearIdx : Nat) (modeIdx : Int) : Option Vector3 :=
  (cache linearIdx).bind (fun pred => (modeComponent pred modeIdx 0).map (fun g => g._mean))

/-- The modes recorded in the inliers `a` and `b` have 3D means at a distance of at least
the configured minimum. -/
def ModesApart (env : Env) (cfg : Config) (cache : PredictionCache) (a b : Nat × Int) : Prop :=
  ∃ pa pb, chosenMean cache a.1 a.2 = some pa ∧ chosenMean cache b.1 b.2 = some pb ∧
    cfg.m_minDistanceBetweenSampledModes ≤ distance env pa pb

/-- The inlier `(y * width + x, modeIdx)` that `hypothesize_pose` records for a selected
pixel. -/
def selectedInlier (env : Env) (s : Nat × Nat × Nat) : Nat × Int :=
  (s.2.1 * env.width + s.1, (s.2.2 : Int))

/-- Every pixel `(x, y)` of the list lies inside the feature image and has a non-null entry
in the cache. -/
def SampledCached (env : Env) (cache : PredictionCache) (pixels : List (Nat × Nat)) : Prop :=
  ∀ s ∈ pixels, s.1 < env.width ∧ s.2 < env.height ∧
    ∃ pred, cache (s.2 * env.width + s.1) = some pred

/-- Every inlier of every candidate has a pixel index inside the feature image whose entry
in the cache is not null. -/
def InliersCached (env : Env) (cache : PredictionCache) (candidates : List PoseCandidate) :
    Prop :=
  ∀ c ∈ candidates, ∀ s ∈ c.inliers, s.1 < env.dataSize ∧ ∃ pred, cache s.1 = some pred

/-- The configuration of the constructor with a minimum distance of `1` between the sampled
modes. -/
def unitDistanceConfig : Config :=
  { constructorConfig with m_minDistanceBetweenSampledModes := 1 }

/-- The pixels selected so far lie inside the feature image and have non-null entries in the
cache. -/
def SelectedCached (env : Env) (cache : PredictionCache) (selected : List (Nat × Nat × Nat)) :
    Prop :=
  ∀ s ∈ selected, s.1 < env.width ∧ s.2.1 < env.height ∧
    ∃ pred, cache (selectedInlier env s).1 = some pred

/-- The modes selected so far have means that are pairwise at least the configured minimum
distance apart. -/
def SelectedApart (env : Env) (cfg : Config) (cache : PredictionCache)
    (selected : List (Nat × Nat × Nat)) : Prop :=
  (selected.map (selectedInlier env)).Pairwise (ModesApart env cfg cache)

/-- The configuration of the constructor with four attempts and batches of one pixel. -/
def smallPoolConfig : Config :=
  { constructorConfig with m_kInitRansac := 4, m_batchSizeRansac := 1 }

/-- The same configuration with a trim threshold of two. -/
def smallTrimConfig : Config :=
  { smallPoolConfig with m_trimKinitAfterFirstEnergyComputation := 2 }

/-! ## The parallel loops of `estimate_pose` under a schedule

The three loops marked `#pragma omp parallel for` that `estimate_pose` runs (in
`update_inliers_for_optimization`, `update_candidate_poses` and `compute_and_sort_energies`)
have iterations that read shared data and write only `poseCandidates[i]`. A run of such a
loop is given by the order in which its iterations complete. -/

/-- A `parallel for` over the candidates whose iteration `i` replaces `poseCandidates[i]` by
the result of `body` on it; the iterations complete in the order `order`. -/
def parallel_for (body : PoseCandidate → Run PoseCandidate) :
    List Nat → List PoseCandidate → Run (List PoseCandidate)
  | [], poseCandidates => .ok poseCandidates
  | i :: rest, poseCandidates =>
    match poseCandidates[i]? with
    | none => .error .undefinedBehaviour
    | some c =>
      match body c with
      | .error e => .error e
      | .ok c1 => parallel_for body rest (poseCandidates.set i c1)

/-- The parallel loops that `estimate_pose` runs. -/
inductive ParallelLoop where
  | update_inliers_for_optimization
  | update_candidate_poses
  | compute_and_sort_energies
  deriving DecidableEq

/-- What the OpenMP runtime decides in one run of `estimate_pose`: for each parallel loop,
each pass (`0` for the evaluation round of the first trim, `k + 1` for the round of the
tournament loop entered with `iteration = k`) and each number of candidates, the order in
which the iterations complete. -/
abbrev Schedule := ParallelLoop → Nat → Nat → List Nat

/-- Every loop completes each of its iterations exactly once. -/
def Schedule.Valid (sched : Schedule) : Prop :=
  ∀ loop pass n, (sched loop pass n).Perm (List.range n)

/-- The loop of `update_inliers_for_optimization` with its iterations in the order `order`. -/
def update_inliers_scheduled (env : Env) (sampledPixelIdx : List (Nat × Nat))
    (order : List Nat) (poseCandidates : List PoseCandidate) : Run (List PoseCandidate) :=
  parallel_for (fun c => .ok { c with inliers := push_samples env sampledPixelIdx c.inliers })
    order poseCandidates

/-- The loop of `update_candidate_poses` with its iterations in the order `order`. -/
def update_candidate_poses_scheduled (env : Env) (cfg : Config) (cache : PredictionCache)
    (order : List Nat) (poseCandidates : List PoseCandidate) : Run (List PoseCandidate) :=
  parallel_for
    (fun c =>
      match update_candidate_pose env cfg cache c with
      | .error e => .error e
      | .ok (_, c1) => .ok c1)
    order poseCandidates

/-- The loop of `compute_and_sort_energies` with its iterations in the order `order`,
followed by the sort. -/
def compute_and_sort_energies_scheduled (env : Env) (cache : PredictionCache)
    (order : List Nat) (poseCandidates : List PoseCandidate) : Run (List PoseCandidate) :=
  match parallel_for
      (fun c =>
        match compute_pose_energy env cache c.cameraPose c.inliers with
        | .error e => .error e
        | .ok energy => .ok { c with energy := energy })
      order poseCandidates with
  | .error e => .error e
  | .ok scored => .ok (scored.insertionSort (fun a b => ¬ SortByEnergyAsc b a))

/-- The evaluation part of the first trim under the schedule `sched`. -/
def trim_evaluate_scheduled (env : Env) (cfg : Config) (sched : Schedule) (fuel : Nat)
    (st : RansacState) : Run RansacState :=
  match sample_pixels_for_ransac env fuel
      { m_featurePredictions := st.m_featurePredictions, maskSampledPixels := [],
        sampledPixelIdx := [], eng := st.random_engine } cfg.m_batchSizeRansac with
  | .error e => .error e
  | .ok sampled =>
    match update_inliers_scheduled env sampled.sampledPixelIdx
        (sched ParallelLoop.update_inliers_for_optimization 0 st.candidates.length)
        st.candidates with
    | .error e => .error e
    | .ok appended =>
      match compute_and_sort_energies_scheduled env sampled.m_featurePredictions
          (sched ParallelLoop.compute_and_sort_energies 0 appended.length) appended with
      | .error e => .error e
      | .ok sorted =>
        .ok { st with
              candidates := sorted.take cfg.m_trimKinitAfterFirstEnergyComputation,
              m_featurePredictions := sampled.m_featurePredictions,
              random_engine := sampled.eng }

/-- The first trim under the schedule `sched`. -/
def first_trim_scheduled (env : Env) (cfg : Config) (sched : Schedule) (fuel : Nat)
    (st : RansacState) : Run RansacState :=
  if cfg.m_trimKinitAfterFirstEnergyComputation < st.candidates.length then
    let nbSamplesPerCamera :=
      match st.candidates with
      | [] => 0
      | c :: _ => c.inliers.length
    match trim_evaluate_scheduled env cfg sched fuel st with
    | .error e => .error e
    | .ok evaluated =>
      if cfg.m_trimKinitAfterFirstEnergyComputation > 1 then
        .ok { evaluated with candidates := trim_inliers nbSamplesPerCamera evaluated.candidates }
      else .ok evaluated
  else .ok st

/-- The body of the tournament loop up to and including `compute_and_sort_energies`, under
the schedule `sched`. -/
def round_scored_scheduled (env : Env) (cfg : Config) (sched : Schedule) (fuel : Nat)
    (st : RansacState) : Run RansacState :=
  match sample_pixels_for_ransac env fuel
      { m_featurePredictions := st.m_featurePredictions, maskSampledPixels := st.maskSampledPixels,
        sampledPixelIdx := [], eng := st.random_engine } cfg.m_batchSizeRansac with
  | .error e => .error e
  | .ok sampled =>
    match update_inliers_scheduled env sampled.sampledPixelIdx
        (sched ParallelLoop.update_inliers_for_optimization (st.iteration + 1)
          st.candidates.length) st.candidates with
    | .error e => .error e
    | .ok appended =>
      let refined : Run (List PoseCandidate) :=
        if cfg.m_poseUpdate then
          update_candidate_poses_scheduled env cfg sampled.m_featurePredictions
            (sched ParallelLoop.update_candidate_poses (st.iteration + 1) appended.length)
            appended
        else .ok appended
      match refined with
      | .error e => .error e
      | .ok refined1 =>
        match compute_and_sort_energies_scheduled env sampled.m_featurePredictions
            (sched ParallelLoop.compute_and_sort_energies (st.iteration + 1) refined1.length)
            refined1 with
        | .error e => .error e
        | .ok sorted =>
          .ok { candidates := sorted,
                m_featurePredictions := sampled.m_featurePredictions,
                maskSampledPixels := sampled.maskSampledPixels,
                random_engine := sampled.eng,
                iteration := st.iteration + 1 }

/-- One pass through the body of `while (candidates.size() > 1)` under the schedule. -/
def tournament_round_scheduled (env : Env) (cfg : Config) (sched : Schedule) (fuel : Nat)
    (st : RansacState) : Run RansacState :=
  match round_scored_scheduled env cfg sched fuel st with
  | .error e => .error e
  | .ok scored => .ok (erase_worse_half scored)

/-- The loop `while (candidates.size() > 1)` under the schedule, allowed at most `rounds`
passes. -/
def tournament_loop_scheduled (env : Env) (cfg : Config) (sched : Schedule) (fuel : Nat) :
    Nat → RansacState → Run RansacState
  | 0, st => if st.candidates.length > 1 then .error .roundsUnfinished else .ok st
  | rounds + 1, st =>
    if st.candidates.length > 1 then
      match tournament_round_scheduled env cfg sched fuel st with
      | .error e => .error e
      | .ok st1 => tournament_loop_scheduled env cfg sched fuel rounds st1
    else .ok st

/-- A run of `estimate_pose(candidates)` in which the OpenMP runtime follows `sched`. -/
def estimate_pose_scheduled (env : Env) (cfg : Config) (sched : Schedule) (fuel : Nat)
    (cache : PredictionCache) (candidates : List PoseCandidate) : Run EstimateResult :=
  match first_trim_scheduled env cfg sched fuel (entryState env cache candidates) with
  | .error e => .error e
  | .ok trimmed =>
    match tournament_loop_scheduled env cfg sched fuel trimmed.candidates.length
        (loop_entry env trimmed) with
    | .error e => .error e
    | .ok final =>
      match final.candidates with
      | [] => .error .undefinedBehaviour
      | c :: _ => .ok { result := c, final := final }

/-- The schedule that completes the iterations of every loop in ascending order. -/
def ascendingSchedule : Schedule := fun _ _ n => List.range n

/-- The schedule that completes the iterations of every loop in descending order. -/
def descendingSchedule : Schedule := fun _ _ n => (List.range n).reverse

/-! # Theorems -/

/-! ## Lists related element by element -/

theorem forall₂_exists_left {α β : Type} {R : α → β → Prop} :
    ∀ {l1 : List α} {l2 : List β}, List.Forall₂ R l1 l2 → ∀ b ∈ l2, ∃ a ∈ l1, R a b
  | _, _, List.Forall₂.nil, b, hb => by simp at hb
  | _, _, List.Forall₂.cons hab hrest, b, hb => by
    rcases List.mem_cons.mp hb with rfl | hb1
    · exact ⟨_, List.mem_cons_self _ _, hab⟩
    · obtain ⟨a, ha, hR⟩ := forall₂_exists_left hrest b hb1
      exact ⟨a, List.mem_cons_of_mem _ ha, hR⟩

/-! ## Scoring and sorting -/

theorem assign_energies_scored (env : Env) (cache : PredictionCache) :
    ∀ (cs scored : List PoseCandidate), assign_energies env cache cs = .ok scored →
      List.Forall₂ (ScoredFrom env cache) cs scored
  | [], scored, h => by
    simp only [assign_energies, Except.ok.injEq] at h
    subst h
    exact List.Forall₂.nil
  | c :: rest, scored, h => by
    simp only [assign_energies] at h
    cases hc : compute_pose_energy env cache c.cameraPose c.inliers with
    | error e => simp [hc] at h
    | ok energy =>
      cases hr : assign_energies env cache rest with
      | error e => simp [hc, hr] at h
      | ok rest1 =>
        simp only [hc, hr, Except.ok.injEq] at h
        subst h
        exact List.Forall₂.cons ⟨rfl, hc⟩ (assign_energies_scored env cache rest rest1 hr)

theorem energy_order_total : IsTotal PoseCandidate (fun a b => ¬ SortByEnergyAsc b a) :=
  ⟨fun a b => by
    simp only [SortByEnergyAsc, not_lt]
    exact le_total a.energy b.energy⟩

theorem energy_order_trans : IsTrans PoseCandidate (fun a b => ¬ SortByEnergyAsc b a) :=
  ⟨fun a b c hab hbc => by
    simp only [SortByEnergyAsc, not_lt] at *
    exact le_trans hab hbc⟩

theorem compute_and_sort_energies_sorted (env : Env) (cache : PredictionCache)
    (cs sorted : List PoseCandidate) (h : compute_and_sort_energies env cache cs = .ok sorted) :
    ∃ scored, List.Forall₂ (ScoredFrom env cache) cs scored ∧ sorted.Perm scored ∧
      sorted.Pairwise (fun a b => a.energy ≤ b.energy) := by
  simp only [compute_and_sort_energies] at h
  cases hs : assign_energies env cache cs with
  | error e => simp [hs] at h
  | ok scored =>
    simp only [hs, Except.ok.injEq] at h
    subst h
    refine ⟨scored, assign_energies_scored env cache cs scored hs, List.perm_insertionSort _ _, ?_⟩
    have hsorted := @List.sorted_insertionSort PoseCandidate (fun a b => ¬ SortByEnergyAsc b a) _
      energy_order_total energy_order_trans scored
    refine List.Pairwise.imp ?_ hsorted
    intro a b hab
    simpa [SortByEnergyAsc] using hab

/-! ## Refinement keeps everything but the pose -/

theorem update_candidate_pose_same (env : Env) (cfg : Config) (cache : PredictionCache)
    (c r : PoseCandidate) (b : Bool) (h : update_candidate_pose env cfg cache c = .ok (b, r)) :
    SameButPose c r := by
  unfold update_candidate_pose at h
  split at h
  · cases h
  · split at h
    · simp only at h
      split at h
      · cases h; rfl
      · cases h; rfl
    · cases h; rfl

theorem update_candidate_poses_same (env : Env) (cfg : Config) (cache : PredictionCache) :
    ∀ (cs rs : List PoseCandidate), update_candidate_poses env cfg cache cs = .ok rs →
      List.Forall₂ SameButPose cs rs
  | [], rs, h => by
    simp only [update_candidate_poses, Except.ok.injEq] at h
    subst h
    exact List.Forall₂.nil
  | c :: rest, rs, h => by
    simp only [update_candidate_poses] at h
    cases hc : update_candidate_pose env cfg cache c with
    | error e => simp [hc] at h
    | ok br =>
      obtain ⟨b, r⟩ := br
      cases hr : update_candidate_poses env cfg cache rest with
      | error e => simp [hc, hr] at h
      | ok rest1 =>
        simp only [hc, hr, Except.ok.injEq] at h
        subst h
        exact List.Forall₂.cons (update_candidate_pose_same env cfg cache c r b hc)
          (update_candidate_poses_same env cfg cache rest rest1 hr)

/-! ## The shape of one round -/

/-- What a completed `round_scored` consists of. -/
theorem round_scored_spec (env : Env) (cfg : Config) (fuel : Nat) (st sc : RansacState)
    (h : round_scored env cfg fuel st = .ok sc) :
    ∃ (sampled : SamplerState) (refined scored : List PoseCandidate),
      sample_pixels_for_ransac env fuel
        { m_featurePredictions := st.m_featurePredictions,
          maskSampledPixels := st.maskSampledPixels,
          sampledPixelIdx := [], eng := st.random_engine } cfg.m_batchSizeRansac = .ok sampled ∧
      List.Forall₂ SameButPose
        (update_inliers_for_optimization env sampled.sampledPixelIdx st.candidates) refined ∧
      List.Forall₂ (ScoredFrom env sampled.m_featurePredictions) refined scored ∧
      sc.candidates.Perm scored ∧
      sc.candidates.Pairwise (fun a b => a.energy ≤ b.energy) ∧
      sc.m_featurePredictions = sampled.m_featurePredictions ∧
      sc.maskSampledPixels = sampled.maskSampledPixels ∧
      sc.iteration = st.iteration + 1 := by
  unfold round_scored at h
  split at h
  · cases h
  · rename_i sampled hsampled
    simp only at h
    split at h
    · cases h
    · rename_i refined hrefined
      split at h
      · cases h
      · rename_i sorted hsorted
        cases h
        obtain ⟨scored, hscored, hperm, hpair⟩ :=
          compute_and_sort_energies_sorted env _ _ _ hsorted
        refine ⟨sampled, refined, scored, hsampled, ?_, hscored, hperm, hpair, rfl, rfl, rfl⟩
        by_cases hu : cfg.m_poseUpdate = true
        · rw [if_pos hu] at hrefined
          exact update_candidate_poses_same env cfg _ _ _ hrefined
        · rw [if_neg hu] at hrefined
          cases hrefined
          exact List.forall₂_same.mpr (fun c _ => rfl)

/-! ## The faults of the parts of a round -/

theorem sample_attempt_fault (env : Env) (st : SamplerState) (e : Fault)
    (h : sample_attempt env st = .error e) : e = Fault.undefinedBehaviour := by
  unfold sample_attempt at h
  simp only at h
  split at h
  · split at h
    · cases h
    · split at h
      · cases h
      · split at h
        · cases h; rfl
        · cases h
        · cases h
  · cases h

theorem sample_slot_fault (env : Env) :
    ∀ (fuel innerIterations : Nat) (st : SamplerState) (e : Fault),
      sample_slot env fuel innerIterations st = .error e →
        e = Fault.undefinedBehaviour ∨ e = Fault.samplingUnfinished
  | 0, innerIterations, st, e, h => by
    unfold sample_slot at h
    split at h
    · cases h; exact Or.inr rfl
    · cases h
  | fuel + 1, innerIterations, st, e, h => by
    unfold sample_slot at h
    split at h
    · split at h
      · rename_i e1 hatt
        cases h
        exact Or.inl (sample_attempt_fault env st _ hatt)
      · cases h
      · exact sample_slot_fault env fuel innerIterations _ e h
    · cases h

theorem sample_batch_fault (env : Env) (fuel : Nat) :
    ∀ (remaining : Nat) (st : SamplerState) (e : Fault),
      sample_batch env fuel remaining st = .error e →
        e = Fault.undefinedBehaviour ∨ e = Fault.samplingUnfinished
  | 0, st, e, h => by
    unfold sample_batch at h
    cases h
  | remaining + 1, st, e, h => by
    unfold sample_batch at h
    split at h
    · rename_i e1 hslot
      cases h
      exact sample_slot_fault env fuel 0 st _ hslot
    · exact sample_batch_fault env fuel remaining _ e h
    · cases h

theorem sample_pixels_for_ransac_fault (env : Env) (fuel : Nat) (st : SamplerState)
    (batchSize : Nat) (e : Fault) (h : sample_pixels_for_ransac env fuel st batchSize = .error e) :
    e = Fault.undefinedBehaviour ∨ e = Fault.samplingUnfinished := by
  unfold sample_pixels_for_ransac at h
  split at h
  · cases h; exact Or.inl rfl
  · exact sample_batch_fault env fuel batchSize st e h

theorem inlier_energy_fault (env : Env) (cache : PredictionCache) (pose : Matrix4f)
    (linearIdx : Nat) (e : Fault) (h : inlier_energy env cache pose linearIdx = .error e) :
    e = Fault.undefinedBehaviour := by
  unfold inlier_energy at h
  simp only at h
  split at h
  · cases h; rfl
  · split at h
    · cases h; rfl
    · split at h
      · cases h
      · cases h

theorem energy_loop_fault (env : Env) (cache : PredictionCache) (pose : Matrix4f) :
    ∀ (inliers : List (Nat × Int)) (energy : ℚ) (e : Fault),
      energy_loop env cache pose inliers energy = .error e → e = Fault.undefinedBehaviour
  | [], energy, e, h => by
    unfold energy_loop at h
    cases h
  | s :: rest, energy, e, h => by
    unfold energy_loop at h
    split at h
    · rename_i e1 hin
      cases h
      exact inlier_energy_fault env cache pose _ _ hin
    · exact energy_loop_fault env cache pose rest _ e h
    · exact energy_loop_fault env cache pose rest _ e h

theorem compute_pose_energy_fault (env : Env) (cache : PredictionCache) (pose : Matrix4f)
    (inliers : List (Nat × Int)) (e : Fault)
    (h : compute_pose_energy env cache pose inliers = .error e) :
    e = Fault.undefinedBehaviour := by
  unfold compute_pose_energy at h
  split at h
  · rename_i e1 hl
    cases h
    exact energy_loop_fault env cache pose inliers 0 _ hl
  · cases h

theorem assign_energies_fault (env : Env) (cache : PredictionCache) :
    ∀ (cs : List PoseCandidate) (e : Fault),
      assign_energies env cache cs = .error e → e = Fault.undefinedBehaviour
  | [], e, h => by
    unfold assign_energies at h
    cases h
  | c :: rest, e, h => by
    unfold assign_energies at h
    split at h
    · rename_i e1 hc
      cases h
      exact compute_pose_energy_fault env cache _ _ _ hc
    · split at h
      · rename_i e1 hr
        cases h
        exact assign_energies_fault env cache rest _ hr
      · cases h

theorem compute_and_sort_energies_fault (env : Env) (cache : PredictionCache)
    (cs : List PoseCandidate) (e : Fault)
    (h : compute_and_sort_energies env cache cs = .error e) : e = Fault.undefinedBehaviour := by
  unfold compute_and_sort_energies at h
  split at h
  · rename_i e1 ha
    cases h
    exact assign_energies_fault env cache cs _ ha
  · cases h

theorem pointsForLM_fault (env : Env) (cache : PredictionCache) (pose : Matrix4f) :
    ∀ (samples : List (Nat × Int)) (e : Fault),
      pointsForLM env cache pose samples = .error e → e = Fault.undefinedBehaviour
  | [], e, h => by
    unfold pointsForLM at h
    cases h
  | s :: rest, e, h => by
    unfold pointsForLM at h
    simp only at h
    split at h
    · cases h; rfl
    · split at h
      · exact pointsForLM_fault env cache pose rest e h
      · split at h
        · cases h; rfl
        · split at h
          · rename_i e1 hr
            cases h
            exact pointsForLM_fault env cache pose rest _ hr
          · split at h
            · cases h
            · cases h

theorem update_candidate_pose_fault (env : Env) (cfg : Config) (cache : PredictionCache)
    (c : PoseCandidate) (e : Fault) (h : update_candidate_pose env cfg cache c = .error e) :
    e = Fault.undefinedBehaviour := by
  unfold update_candidate_pose at h
  split at h
  · rename_i e1 hp
    cases h
    exact pointsForLM_fault env cache _ _ _ hp
  · split at h
    · simp only at h
      split at h
      · cases h
      · cases h
    · cases h

theorem update_candidate_poses_fault (env : Env) (cfg : Config) (cache : PredictionCache) :
    ∀ (cs : List PoseCandidate) (e : Fault),
      update_candidate_poses env cfg cache cs = .error e → e = Fault.undefinedBehaviour
  | [], e, h => by
    unfold update_candidate_poses at h
    cases h
  | c :: rest, e, h => by
    unfold update_candidate_poses at h
    split at h
    · rename_i e1 hc
      cases h
      exact update_candidate_pose_fault env cfg cache c _ hc
    · split at h
      · rename_i e1 hr
        cases h
        exact update_candidate_poses_fault env cfg cache rest _ hr
      · cases h

/-- A round fails only through the sampler or through undefined behaviour. -/
theorem round_scored_fault (env : Env) (cfg : Config) (fuel : Nat) (st : RansacState) (e : Fault)
    (h : round_scored env cfg fuel st = .error e) :
    e = Fault.undefinedBehaviour ∨ e = Fault.samplingUnfinished := by
  unfold round_scored at h
  split at h
  · rename_i e1 hs
    cases h
    exact sample_pixels_for_ransac_fault env fuel _ _ _ hs
  · simp only at h
    split at h
    · rename_i e1 hr
      cases h
      split at hr
      · exact Or.inl (update_candidate_poses_fault env cfg _ _ _ hr)
      · cases hr
    · split at h
      · rename_i e1 hc
        cases h
        exact Or.inl (compute_and_sort_energies_fault env _ _ _ hc)
      · cases h

theorem tournament_round_fault (env : Env) (cfg : Config) (fuel : Nat) (st : RansacState)
    (e : Fault) (h : tournament_round env cfg fuel st = .error e) :
    e = Fault.undefinedBehaviour ∨ e = Fault.samplingUnfinished := by
  unfold tournament_round at h
  split at h
  · rename_i e1 hs
    cases h
    exact round_scored_fault env cfg fuel st _ hs
  · cases h

/-! ## C1: the size of the pool after one round -/

theorem round_scored_length (env : Env) (cfg : Config) (fuel : Nat) (st sc : RansacState)
    (h : round_scored env cfg fuel st = .ok sc) :
    sc.candidates.length = st.candidates.length := by
  obtain ⟨sampled, refined, scored, -, hrefined, hscored, hperm, -⟩ :=
    round_scored_spec env cfg fuel st sc h
  rw [hperm.length_eq, ← hscored.length_eq, ← hrefined.length_eq]
  simp [update_inliers_for_optimization]

theorem tournament_round_inv (env : Env) (cfg : Config) (fuel : Nat) (st st1 : RansacState)
    (h : tournament_round env cfg fuel st = .ok st1) :
    ∃ sc, round_scored env cfg fuel st = .ok sc ∧ st1 = erase_worse_half sc := by
  unfold tournament_round at h
  split at h
  · cases h
  · rename_i sc hsc
    cases h
    exact ⟨sc, hsc, rfl⟩

theorem tournament_round_length (env : Env) (cfg : Config) (fuel : Nat)
    (st st1 : RansacState) (h : tournament_round env cfg fuel st = .ok st1) :
    st1.candidates.length = st.candidates.length / 2 := by
  obtain ⟨sc, hsc, rfl⟩ := tournament_round_inv env cfg fuel st st1 h
  have hlen := round_scored_length env cfg fuel st sc hsc
  simp only [erase_worse_half, List.length_take, hlen]
  omega

/-- C1 (as amended): a completed tournament round (sample, append inliers, optional refine,
score, sort, erase) on a pool of `P > 1` candidates leaves exactly `P / 2` (rounded down)
candidates, which is at least one and fewer than `P`. -/
theorem tournament_round_leaves_half (env : Env) (cfg : Config) (fuel : Nat)
    (st st1 : RansacState) (hP : 1 < st.candidates.length)
    (h : tournament_round env cfg fuel st = .ok st1) :
    st1.candidates.length = st.candidates.length / 2 ∧
      1 ≤ st1.candidates.length ∧ st1.candidates.length < st.candidates.length := by
  have hlen := tournament_round_length env cfg fuel st st1 h
  rw [hlen]
  omega

theorem tournament_round_leaves_half_witness :
    ∃ st1, tournament_round exampleEnv exampleConfig 1
        (exampleState [exampleCandidate 2, exampleCandidate 0, exampleCandidate 1]) = .ok st1 ∧
      st1.candidates.length = 3 / 2 := by
  have h : ∃ st1, tournament_round exampleEnv exampleConfig 1
      (exampleState [exampleCandidate 2, exampleCandidate 0, exampleCandidate 1]) = .ok st1 :=
    ⟨_, by with_unfolding_all rfl⟩
  obtain ⟨st1, h1⟩ := h
  exact ⟨st1, h1,
    (tournament_round_leaves_half exampleEnv exampleConfig 1 _ st1 (by decide) h1).1⟩

/-- C1 (counterexample): on the pool of three candidates of the example frame a round
completes and leaves one candidate, the one of lowest energy, not `3 - 3 / 2 = 2`. -/
theorem tournament_round_odd_pool :
    ∃ st1, tournament_round exampleEnv exampleConfig 1
        (exampleState [exampleCandidate 2, exampleCandidate 0, exampleCandidate 1]) = .ok st1 ∧
      st1.candidates.map PoseCandidate.cameraId = [0] ∧
      st1.candidates.length ≠ 3 - 3 / 2 :=
  ⟨_, by with_unfolding_all rfl, by with_unfolding_all rfl, by with_unfolding_all decide⟩

/-! ## C2: the retained candidates are sorted and no worse than the dropped ones -/

/-- C2: when the scoring part of a round on the pool of `st` ends in `scored`, the round ends
in `erase_worse_half scored`; the pool is split into the retained front and the dropped rest,
the retained candidates are in ascending order of energy, each of them has an energy at most
that of every dropped candidate, and the energy of every candidate is the value
`compute_pose_energy` returns in this round for its pose and inliers. -/
theorem tournament_round_keeps_lowest (env : Env) (cfg : Config) (fuel : Nat)
    (st scored : RansacState) (hP : 1 < st.candidates.length)
    (h : round_scored env cfg fuel st = .ok scored) :
    tournament_round env cfg fuel st = .ok (erase_worse_half scored) ∧
    (erase_worse_half scored).candidates ++ scored.candidates.drop (st.candidates.length / 2)
      = scored.candidates ∧
    (erase_worse_half scored).candidates.length = st.candidates.length / 2 ∧
    (erase_worse_half scored).candidates.Pairwise (fun a b => a.energy ≤ b.energy) ∧
    (∀ r ∈ (erase_worse_half scored).candidates,
      ∀ d ∈ scored.candidates.drop (st.candidates.length / 2), r.energy ≤ d.energy) ∧
    (∀ c ∈ scored.candidates,
      compute_pose_energy env scored.m_featurePredictions c.cameraPose c.inliers = .ok c.energy) := by
  have hlen := round_scored_length env cfg fuel st scored h
  obtain ⟨sampled, refined, sc, -, -, hscored, hperm, hpair, hcache, -, -⟩ :=
    round_scored_spec env cfg fuel st scored h
  have hsplit : (erase_worse_half scored).candidates
      ++ scored.candidates.drop (st.candidates.length / 2) = scored.candidates := by
    simp only [erase_worse_half, hlen]
    exact List.take_append_drop _ _
  refine ⟨by simp [tournament_round, h], hsplit, ?_, ?_, ?_, ?_⟩
  · simp only [erase_worse_half, List.length_take, hlen]
    omega
  · simp only [erase_worse_half]
    exact hpair.sublist (List.take_sublist _ _)
  · rw [← hsplit] at hpair
    exact (List.pairwise_append.mp hpair).2.2
  · intro c hc
    have hc1 : c ∈ sc := hperm.mem_iff.mp hc
    obtain ⟨c0, -, hc0⟩ := forall₂_exists_left hscored c hc1
    rw [hcache, hc0.1]
    exact hc0.2


theorem tournament_round_keeps_lowest_witness :
    ∃ scored, round_scored exampleEnv exampleConfig 1
        (exampleState [exampleCandidate 2, exampleCandidate 0, exampleCandidate 1]) = .ok scored ∧
      tournament_round exampleEnv exampleConfig 1
        (exampleState [exampleCandidate 2, exampleCandidate 0, exampleCandidate 1])
          = .ok (erase_worse_half scored) ∧
      (erase_worse_half scored).candidates.Pairwise (fun a b => a.energy ≤ b.energy) ∧
      (∀ r ∈ (erase_worse_half scored).candidates,
        ∀ d ∈ scored.candidates.drop (3 / 2), r.energy ≤ d.energy) := by
  have h : ∃ scored, round_scored exampleEnv exampleConfig 1
      (exampleState [exampleCandidate 2, exampleCandidate 0, exampleCandidate 1]) = .ok scored :=
    ⟨_, by with_unfolding_all rfl⟩
  obtain ⟨scored, h1⟩ := h
  have h2 := tournament_round_keeps_lowest exampleEnv exampleConfig 1
    (exampleState [exampleCandidate 2, exampleCandidate 0, exampleCandidate 1]) scored
    (by decide) h1
  exact ⟨scored, h1, h2.1, h2.2.2.2.1, h2.2.2.2.2.1⟩

/-! ## C3: the tournament loop ends with one candidate -/

theorem trim_inliers_length (nb : Nat) (cs : List PoseCandidate) :
    (trim_inliers nb cs).length = cs.length := by
  simp [trim_inliers]

theorem trim_evaluate_length (env : Env) (cfg : Config) (fuel : Nat) (st ev : RansacState)
    (h : trim_evaluate env cfg fuel st = .ok ev) :
    ev.candidates.length
      = min cfg.m_trimKinitAfterFirstEnergyComputation st.candidates.length := by
  unfold trim_evaluate at h
  split at h
  · cases h
  · rename_i sampled hsampled
    split at h
    · cases h
    · rename_i sorted hsorted
      cases h
      obtain ⟨scored, hscored, hperm, -⟩ := compute_and_sort_energies_sorted env _ _ _ hsorted
      simp only [List.length_take, hperm.length_eq, ← hscored.length_eq]
      simp [update_inliers_for_optimization]

theorem first_trim_length (env : Env) (cfg : Config) (fuel : Nat) (st trimmed : RansacState)
    (h : first_trim env cfg fuel st = .ok trimmed) :
    trimmed.candidates.length
      = min cfg.m_trimKinitAfterFirstEnergyComputation st.candidates.length := by
  unfold first_trim at h
  split at h
  · rename_i hlt
    simp only at h
    split at h
    · cases h
    · rename_i ev hev
      have hlen := trim_evaluate_length env cfg fuel st ev hev
      split at h
      · cases h
        simp only [trim_inliers_length, hlen]
      · cases h
        exact hlen
  · rename_i hge
    cases h
    omega

theorem tournament_round_iteration (env : Env) (cfg : Config) (fuel : Nat) (st st1 : RansacState)
    (h : tournament_round env cfg fuel st = .ok st1) :
    st1.iteration = st.iteration + 1 := by
  obtain ⟨sc, hsc, rfl⟩ := tournament_round_inv env cfg fuel st st1 h
  obtain ⟨_, _, _, -, -, -, -, -, -, -, hit⟩ := round_scored_spec env cfg fuel st sc hsc
  simpa [erase_worse_half] using hit

/-- The loop never needs more passes than there are candidates, and a completed loop on a
non-empty pool of `P` candidates ends with one candidate after `r` rounds, where
`2 ^ r ≤ P < 2 ^ (r + 1)`. -/
theorem tournament_loop_spec (env : Env) (cfg : Config) (fuel : Nat) :
    ∀ (rounds : Nat) (st : RansacState), st.candidates.length ≤ max rounds 1 →
      tournament_loop env cfg fuel rounds st ≠ .error .roundsUnfinished ∧
      ∀ final, tournament_loop env cfg fuel rounds st = .ok final →
        final.candidates.length ≤ 1 ∧
        (0 < st.candidates.length →
          final.candidates.length = 1 ∧ st.iteration ≤ final.iteration ∧
          2 ^ (final.iteration - st.iteration) ≤ st.candidates.length ∧
          st.candidates.length < 2 ^ (final.iteration - st.iteration + 1))
  | 0, st, hle => by
    have h1 : st.candidates.length ≤ 1 := by simpa using hle
    have h2 : ¬ st.candidates.length > 1 := by omega
    simp only [tournament_loop, if_neg h2]
    refine ⟨by simp, ?_⟩
    intro final hfinal
    cases hfinal
    refine ⟨h1, fun hpos => ⟨by omega, le_refl _, ?_, ?_⟩⟩
    · simpa using hpos
    · simp only [Nat.sub_self, zero_add, pow_one]
      omega
  | rounds + 1, st, hle => by
    by_cases hgt : st.candidates.length > 1
    · simp only [tournament_loop, if_pos hgt]
      cases hround : tournament_round env cfg fuel st with
      | error e =>
        simp only [ne_eq, reduceCtorEq, not_false_eq_true, false_implies, implies_true,
          and_true]
        intro hcontra
        have he : e = Fault.roundsUnfinished := by injection hcontra
        subst he
        rcases tournament_round_fault env cfg fuel st _ hround with h1 | h1 <;> cases h1
      | ok st1 =>
        have hlen := tournament_round_length env cfg fuel st st1 hround
        have hit := tournament_round_iteration env cfg fuel st st1 hround
        have hle1 : st1.candidates.length ≤ max rounds 1 := by
          rw [hlen]
          have : st.candidates.length ≤ rounds + 1 := by
            rcases Nat.le_total (rounds + 1) 1 with h | h
            · rw [max_eq_right h] at hle; omega
            · rw [max_eq_left h] at hle; exact hle
          have h3 : st.candidates.length / 2 ≤ rounds := by omega
          exact le_trans h3 (le_max_left _ _)
        obtain ⟨ih1, ih2⟩ := tournament_loop_spec env cfg fuel rounds st1 hle1
        refine ⟨ih1, ?_⟩
        intro final hfinal
        obtain ⟨hf1, hf2⟩ := ih2 final hfinal
        refine ⟨hf1, fun _ => ?_⟩
        have hpos1 : 0 < st1.candidates.length := by rw [hlen]; omega
        obtain ⟨hone, hmono, hlow, hhigh⟩ := hf2 hpos1
        have hk : final.iteration - st.iteration = (final.iteration - st1.iteration) + 1 := by
          omega
        refine ⟨hone, by omega, ?_, ?_⟩
        · rw [hk, pow_succ]
          rw [hlen] at hlow
          omega
        · rw [hk, pow_succ]
          rw [hlen] at hhigh
          omega
    · simp only [tournament_loop, if_neg hgt]
      refine ⟨by simp, ?_⟩
      intro final hfinal
      cases hfinal
      refine ⟨by omega, fun hpos => ⟨by omega, le_refl _, ?_, ?_⟩⟩
      · simpa using hpos
      · simp only [Nat.sub_self, zero_add, pow_one]
        omega


theorem first_trim_fault (env : Env) (cfg : Config) (fuel : Nat) (st : RansacState) (e : Fault)
    (h : first_trim env cfg fuel st = .error e) :
    e = Fault.undefinedBehaviour ∨ e = Fault.samplingUnfinished := by
  unfold first_trim at h
  split at h
  · simp only at h
    split at h
    · rename_i e1 hev
      cases h
      unfold trim_evaluate at hev
      split at hev
      · rename_i e2 hs
        cases hev
        exact sample_pixels_for_ransac_fault env fuel _ _ _ hs
      · split at hev
        · rename_i e2 hc
          cases hev
          exact Or.inl (compute_and_sort_energies_fault env _ _ _ hc)
        · cases hev
    · split at h
      · cases h
      · cases h
  · cases h

/-- C3: for a non-empty initial pool and a trim threshold of at least one (the constructor
sets 64), (1) a completed round never enlarges the pool and shrinks a pool of more than one
candidate to a smaller, non-empty one; (2) the tournament loop never needs more rounds than
it has candidates on entry, so `estimate_pose` does not end for lack of rounds; and (3) once
the first trim and the rounds of the loop have completed (every sampling call returned and no
read was undefined), the loop has made `r` rounds with `2 ^ r` at most the size of the pool,
it has left exactly one candidate, and `estimate_pose` returns that candidate. -/
theorem estimate_pose_ends_with_one (env : Env) (cfg : Config) (fuel : Nat)
    (cache : PredictionCache) (candidates : List PoseCandidate) (hne : candidates ≠ [])
    (hT : 0 < cfg.m_trimKinitAfterFirstEnergyComputation) :
    (∀ st st1, tournament_round env cfg fuel st = .ok st1 →
      st1.candidates.length ≤ st.candidates.length ∧
      (1 < st.candidates.length →
        st1.candidates.length < st.candidates.length ∧ 0 < st1.candidates.length)) ∧
    estimate_pose env cfg fuel cache candidates ≠ .error .roundsUnfinished ∧
    (∀ trimmed, first_trim env cfg fuel (entryState env cache candidates) = .ok trimmed →
      trimmed.candidates ≠ [] ∧ trimmed.candidates.length ≤ candidates.length ∧
      ∀ final, tournament_loop env cfg fuel trimmed.candidates.length (loop_entry env trimmed)
          = .ok final →
        ∃ c, final.candidates = [c] ∧
          estimate_pose env cfg fuel cache candidates = .ok { result := c, final := final } ∧
          2 ^ final.iteration ≤ candidates.length) := by
  refine ⟨?_, ?_, ?_⟩
  · intro st st1 h
    have hlen := tournament_round_length env cfg fuel st st1 h
    rw [hlen]
    exact ⟨Nat.div_le_self _ _, fun hgt => by omega⟩
  · unfold estimate_pose
    split
    · rename_i e he
      intro hcontra
      have : e = Fault.roundsUnfinished := by injection hcontra
      subst this
      rcases first_trim_fault env cfg fuel _ _ he with h1 | h1 <;> cases h1
    · rename_i trimmed htrim
      have hspec := tournament_loop_spec env cfg fuel trimmed.candidates.length
        (loop_entry env trimmed) (le_max_left _ _)
      split
      · rename_i e he
        intro hcontra
        have : e = Fault.roundsUnfinished := by injection hcontra
        subst this
        exact hspec.1 he
      · split
        · simp
        · simp
  · intro trimmed htrim
    have hlen := first_trim_length env cfg fuel _ trimmed htrim
    simp only at hlen
    have hpos : 0 < candidates.length := List.length_pos.mpr hne
    have hpos1 : 0 < trimmed.candidates.length := by
      rw [hlen]
      exact lt_min hT hpos
    refine ⟨List.length_pos.mp hpos1, by rw [hlen]; exact min_le_right _ _, ?_⟩
    intro final hfinal
    have hspec := (tournament_loop_spec env cfg fuel trimmed.candidates.length
      (loop_entry env trimmed) (le_max_left _ _)).2 final hfinal
    obtain ⟨hone, -, hlow, -⟩ := hspec.2 hpos1
    have hit : (loop_entry env trimmed).iteration = 0 := rfl
    have hcand : (loop_entry env trimmed).candidates = trimmed.candidates := rfl
    rw [hit, hcand, Nat.sub_zero] at hlow
    obtain ⟨c, hc⟩ := List.length_eq_one.mp hone
    refine ⟨c, hc, ?_, ?_⟩
    · unfold estimate_pose
      simp only [htrim, hfinal, hc]
    · refine le_trans hlow ?_
      rw [hlen]
      exact min_le_right _ _

theorem estimate_pose_ends_with_one_witness :
    [exampleCandidate 2, exampleCandidate 0, exampleCandidate 1] ≠ [] ∧
    0 < exampleConfig.m_trimKinitAfterFirstEnergyComputation ∧
    (∃ r, estimate_pose exampleEnv exampleConfig 1 exampleCache
        [exampleCandidate 2, exampleCandidate 0, exampleCandidate 1] = .ok r ∧
      r.final.candidates = [r.result] ∧ r.result.cameraId = 0 ∧ r.final.iteration = 1) ∧
    estimate_pose exampleEnv exampleConfig 1 exampleCache
        [exampleCandidate 2, exampleCandidate 0, exampleCandidate 1]
      ≠ .error .roundsUnfinished :=
  ⟨by simp, by decide,
    ⟨_, by with_unfolding_all rfl, by with_unfolding_all rfl, by with_unfolding_all rfl,
      by with_unfolding_all rfl⟩,
    (estimate_pose_ends_with_one exampleEnv exampleConfig 1 exampleCache
      [exampleCandidate 2, exampleCandidate 0, exampleCandidate 1] (by simp) (by decide)).2.1⟩


/-! ## C4: an empty pool -/

/-- C4 (the code on the failing input): on an empty pool `estimate_pose` skips the trim and
the loop and reads `candidates[0]` of the empty vector, which is undefined behaviour; it has
no way of reporting failure. `process_relocalisation`, with enough valid depth pixels and a
generator that leaves no candidate, runs into that read and has no branch that skips the
installation of the returned pose. -/
theorem estimate_pose_empty_pool (env : Env) (cfg : Config) (fuel : Nat)
    (cache : PredictionCache) (track : Matrix4f → TrackingResult) (s : SLAMState) :
    estimate_pose env cfg fuel cache [] = .error .undefinedBehaviour ∧
    process_relocalisation env cfg fuel
      { CountValidDepths := max cfg.m_nbPointsForKabschBoostrap cfg.m_batchSizeRansac,
        generate_pose_candidates := .ok ([], cache),
        Track := track }
      TrackingResult.TRACKING_FAILED s = .error .undefinedBehaviour := by
  have h : estimate_pose env cfg fuel cache [] = .error .undefinedBehaviour := by
    simp [estimate_pose, first_trim, tournament_loop, loop_entry, entryState]
  refine ⟨h, ?_⟩
  simp [process_relocalisation, h]

/-! ## C5: too few valid depth pixels -/

/-- C5: when tracking has failed and the number of valid depth pixels is below
`max(m_nbPointsForKabschBoostrap, m_batchSizeRansac)`, `process_relocalisation` returns the
incoming tracking result and leaves the whole state as it was: the pose, the prediction
cache and the record of calls are unchanged, whatever the candidate generator and the
tournament would have done. -/
theorem process_relocalisation_insufficient_depths (env : Env) (cfg : Config) (fuel : Nat)
    (pl : Pipeline) (trackingResult : TrackingResult) (s : SLAMState)
    (hfailed : trackingResult = TrackingResult.TRACKING_FAILED)
    (hfew : pl.CountValidDepths < max cfg.m_nbPointsForKabschBoostrap cfg.m_batchSizeRansac) :
    process_relocalisation env cfg fuel pl trackingResult s = .ok (trackingResult, s) := by
  unfold process_relocalisation
  rw [if_pos hfailed, if_pos hfew]

theorem process_relocalisation_insufficient_depths_witness :
    examplePipeline.CountValidDepths
      < max constructorConfig.m_nbPointsForKabschBoostrap constructorConfig.m_batchSizeRansac ∧
    process_relocalisation exampleEnv constructorConfig 1 examplePipeline
      TrackingResult.TRACKING_FAILED exampleSLAMState
        = .ok (TrackingResult.TRACKING_FAILED, exampleSLAMState) :=
  ⟨by decide,
    process_relocalisation_insufficient_depths exampleEnv constructorConfig 1 examplePipeline
      TrackingResult.TRACKING_FAILED exampleSLAMState rfl (by decide)⟩

/-! ## C7: a refined pose is accepted only when it lowers the energy -/

/-- C7: whatever the optimiser returns, when `update_candidate_pose` returns `true` the
candidate's pose has been replaced by the optimised pose and the energy of that pose over the
working set `ptsForLM.pts`, computed with the residual selected by
`m_usePredictionCovarianceForPoseOptimization`, is strictly below the energy of the pose
before refinement over the same working set; when it returns `false` the candidate is
unchanged. -/
theorem update_candidate_pose_accepts_decrease (env : Env) (cfg : Config)
    (cache : PredictionCache) (c r : PoseCandidate) (b : Bool)
    (h : update_candidate_pose env cfg cache c = .ok (b, r)) :
    ∃ pts, pointsForLM env cache c.cameraPose c.inliers = .ok pts ∧
      (b = true →
        r = { c with cameraPose := optimisedPose env cfg pts c.cameraPose } ∧
        refinementEnergy env cfg pts r.cameraPose < refinementEnergy env cfg pts c.cameraPose) ∧
      (b = false → r = c) := by
  unfold update_candidate_pose at h
  split at h
  · cases h
  · rename_i pts hpts
    refine ⟨pts, hpts, ?_⟩
    split at h
    · simp only at h
      split at h
      · rename_i hlt
        cases h
        exact ⟨fun _ => ⟨rfl, hlt⟩, fun hb => absurd hb (by decide)⟩
      · cases h
        exact ⟨fun hb => absurd hb (by decide), fun _ => rfl⟩
    · cases h
      exact ⟨fun hb => absurd hb (by decide), fun _ => rfl⟩

theorem update_candidate_pose_accepts_decrease_witness :
    ∃ r, update_candidate_pose exampleEnv constructorConfig exampleCache
        exampleCandidateFourInliers = .ok (true, r) ∧
      ∃ pts, pointsForLM exampleEnv exampleCache exampleCandidateFourInliers.cameraPose
          exampleCandidateFourInliers.inliers = .ok pts ∧
        refinementEnergy exampleEnv constructorConfig pts r.cameraPose
          < refinementEnergy exampleEnv constructorConfig pts
              exampleCandidateFourInliers.cameraPose := by
  have h : ∃ r, update_candidate_pose exampleEnv constructorConfig exampleCache
      exampleCandidateFourInliers = .ok (true, r) := ⟨_, by with_unfolding_all rfl⟩
  obtain ⟨r, hr⟩ := h
  obtain ⟨pts, hpts, htrue, -⟩ := update_candidate_pose_accepts_decrease exampleEnv
    constructorConfig exampleCache exampleCandidateFourInliers r true hr
  exact ⟨r, hr, pts, hpts, (htrue rfl).2⟩

/-! ## C8: the energy does not depend on the order of the inliers -/

theorem energy_loop_perm (env : Env) (cache : PredictionCache) (pose : Matrix4f)
    {l1 l2 : List (Nat × Int)} (hperm : l1.Perm l2) :
    ∀ energy : ℚ, energy_loop env cache pose l1 energy = energy_loop env cache pose l2 energy := by
  induction hperm with
  | nil => intro energy; rfl
  | cons s _ ih =>
    intro energy
    simp only [energy_loop]
    split
    · rfl
    · exact ih _
    · exact ih _
  | swap a b l =>
    intro energy
    simp only [energy_loop]
    cases ha : inlier_energy env cache pose a.1 with
    | error ea =>
      cases hb : inlier_energy env cache pose b.1 with
      | error eb =>
        rw [inlier_energy_fault env cache pose _ _ ha, inlier_energy_fault env cache pose _ _ hb]
      | ok tb => cases tb <;> rfl
    | ok ta =>
      cases hb : inlier_energy env cache pose b.1 with
      | error eb => cases ta <;> rfl
      | ok tb =>
        cases ta <;> cases tb <;> simp only [add_right_comm]
  | trans _ _ ih1 ih2 =>
    intro energy
    rw [ih1, ih2]

/-- C8: for every pose, `compute_pose_energy` returns the same result on every two inlier
lists that are permutations of each other. -/
theorem compute_pose_energy_perm (env : Env) (cache : PredictionCache) (pose : Matrix4f)
    (l1 l2 : List (Nat × Int)) (hperm : l1.Perm l2) :
    compute_pose_energy env cache pose l1 = compute_pose_energy env cache pose l2 := by
  unfold compute_pose_energy
  rw [energy_loop_perm env cache pose hperm 0, hperm.length_eq]

theorem compute_pose_energy_perm_witness :
    [((0 : Nat), (0 : Int)), (1, -1), (2, 0)].Perm [(2, 0), (0, 0), (1, -1)] ∧
    (∃ energy, compute_pose_energy exampleEnv exampleCache (exampleCandidate 1).cameraPose
        [(0, 0), (1, -1), (2, 0)] = .ok energy) ∧
    compute_pose_energy exampleEnv exampleCache (exampleCandidate 1).cameraPose
        [(0, 0), (1, -1), (2, 0)]
      = compute_pose_energy exampleEnv exampleCache (exampleCandidate 1).cameraPose
        [(2, 0), (0, 0), (1, -1)] :=
  ⟨by decide, ⟨_, by with_unfolding_all rfl⟩,
    compute_pose_energy_perm exampleEnv exampleCache (exampleCandidate 1).cameraPose _ _
      (by decide)⟩


/-! ## The sampling mask -/

theorem freshlyMasked_refl (mask : List Bool) : FreshlyMasked mask mask [] :=
  ⟨List.nodup_nil, fun _ h => by simp at h, fun _ h => h, rfl⟩

theorem freshlyMasked_append {mask mask1 mask2 : List Bool} {a b : List Nat}
    (h1 : FreshlyMasked mask mask1 a) (h2 : FreshlyMasked mask1 mask2 b) :
    FreshlyMasked mask mask2 (a ++ b) := by
  obtain ⟨ha, hafresh, hamono, halen⟩ := h1
  obtain ⟨hb, hbfresh, hbmono, hblen⟩ := h2
  refine ⟨?_, ?_, fun i hi => hbmono i (hamono i hi), by rw [hblen, halen]⟩
  · refine List.nodup_append.mpr ⟨ha, hb, ?_⟩
    intro i hia hib
    exact (hbfresh i hib).1 (hafresh i hia).2
  · intro i hi
    rcases List.mem_append.mp hi with hia | hib
    · exact ⟨(hafresh i hia).1, hbmono i (hafresh i hia).2⟩
    · exact ⟨fun hcontra => (hbfresh i hib).1 (hamono i hcontra), (hbfresh i hib).2⟩

theorem select_prediction_frame (env : Env) (st st2 : SamplerState) (linearIdx : Nat)
    (h : select_prediction env st linearIdx = some st2) :
    st2.maskSampledPixels = st.maskSampledPixels ∧ st2.sampledPixelIdx = st.sampledPixelIdx := by
  unfold select_prediction at h
  split at h
  · cases h
    exact ⟨rfl, rfl⟩
  · split at h
    · cases h
    · cases h
      exact ⟨rfl, rfl⟩

/-- One pass of the sampling loop with a non-empty mask appends at most one pixel, and only
one that was not marked; it marks that pixel. -/
theorem sample_attempt_fresh (env : Env) (st st1 : SamplerState) (v : Bool)
    (hmask : st.maskSampledPixels ≠ []) (h : sample_attempt env st = .ok (v, st1)) :
    ∃ new, st1.sampledPixelIdx = st.sampledPixelIdx ++ new ∧
      FreshlyMasked st.maskSampledPixels st1.maskSampledPixels
        ((sampledInliers env new).map Prod.fst) := by
  unfold sample_attempt at h
  simp only at h
  split at h
  · split at h
    · cases h
      exact ⟨[], by simp, freshlyMasked_refl _⟩
    · rename_i st2 hsel
      obtain ⟨hm, hs⟩ := select_prediction_frame env _ st2 _ hsel
      simp only at hm hs
      split at h
      · rename_i hempty
        rw [hm] at hempty
        exact absurd (List.isEmpty_iff.mp hempty) hmask
      · split at h
        · cases h
        · cases h
          exact ⟨[], by simp [hs], by rw [hm]; exact freshlyMasked_refl _⟩
        · rename_i hfalse
          cases h
          rw [hm] at hfalse
          refine ⟨[_], by rw [hs], ?_⟩
          simp only [sampledInliers, List.map_cons, List.map_nil, hm]
          obtain ⟨hlt, -⟩ := List.getElem?_eq_some.mp hfalse
          refine ⟨List.nodup_singleton _, ?_, ?_, List.length_set _ _ _⟩
          · intro i hi
            rw [List.mem_singleton] at hi
            subst hi
            refine ⟨by rw [hfalse]; simp, ?_⟩
            exact List.getElem?_set_self hlt
          · intro i hi
            by_cases hne : (uniform_int_distribution env.height
                (uniform_int_distribution env.width st.eng).2).1 * env.width
                + (uniform_int_distribution env.width st.eng).1 = i
            · subst hne
              rw [hfalse] at hi
              simp at hi
            · rw [List.getElem?_set_ne hne]
              exact hi
  · cases h
    exact ⟨[], by simp, freshlyMasked_refl _⟩


theorem freshlyMasked_ne_nil {mask mask1 : List Bool} {a : List Nat}
    (h : FreshlyMasked mask mask1 a) (hmask : mask ≠ []) : mask1 ≠ [] := by
  intro hcontra
  have hlen := h.2.2.2
  rw [hcontra] at hlen
  exact hmask (List.length_eq_zero.mp hlen.symm)

theorem sampledInliers_append (env : Env) (a b : List (Nat × Nat)) :
    (sampledInliers env (a ++ b)).map Prod.fst
      = (sampledInliers env a).map Prod.fst ++ (sampledInliers env b).map Prod.fst := by
  simp [sampledInliers]

theorem sample_slot_fresh (env : Env) :
    ∀ (fuel innerIterations : Nat) (st st1 : SamplerState) (v : Bool),
      st.maskSampledPixels ≠ [] → sample_slot env fuel innerIterations st = .ok (v, st1) →
      ∃ new, st1.sampledPixelIdx = st.sampledPixelIdx ++ new ∧
        FreshlyMasked st.maskSampledPixels st1.maskSampledPixels
          ((sampledInliers env new).map Prod.fst)
  | 0, innerIterations, st, st1, v, _, h => by
    unfold sample_slot at h
    split at h
    · cases h
    · cases h
      exact ⟨[], by simp, freshlyMasked_refl _⟩
  | fuel + 1, innerIterations, st, st1, v, hmask, h => by
    unfold sample_slot at h
    split at h
    · split at h
      · cases h
      · rename_i stA hatt
        cases h
        exact sample_attempt_fresh env st _ true hmask hatt
      · rename_i stA hatt
        obtain ⟨new1, hs1, hf1⟩ := sample_attempt_fresh env st stA false hmask hatt
        obtain ⟨new2, hs2, hf2⟩ := sample_slot_fresh env fuel innerIterations stA st1 v
          (freshlyMasked_ne_nil hf1 hmask) h
        refine ⟨new1 ++ new2, by rw [hs2, hs1, List.append_assoc], ?_⟩
        rw [sampledInliers_append]
        exact freshlyMasked_append hf1 hf2
    · cases h
      exact ⟨[], by simp, freshlyMasked_refl _⟩

theorem sample_batch_fresh (env : Env) (fuel : Nat) :
    ∀ (remaining : Nat) (st st1 : SamplerState),
      st.maskSampledPixels ≠ [] → sample_batch env fuel remaining st = .ok st1 →
      ∃ new, st1.sampledPixelIdx = st.sampledPixelIdx ++ new ∧
        FreshlyMasked st.maskSampledPixels st1.maskSampledPixels
          ((sampledInliers env new).map Prod.fst)
  | 0, st, st1, _, h => by
    unfold sample_batch at h
    cases h
    exact ⟨[], by simp, freshlyMasked_refl _⟩
  | remaining + 1, st, st1, hmask, h => by
    unfold sample_batch at h
    split at h
    · cases h
    · rename_i stA hslot
      obtain ⟨new1, hs1, hf1⟩ := sample_slot_fresh env fuel 0 st stA true hmask hslot
      obtain ⟨new2, hs2, hf2⟩ := sample_batch_fresh env fuel remaining stA st1
        (freshlyMasked_ne_nil hf1 hmask) h
      refine ⟨new1 ++ new2, by rw [hs2, hs1, List.append_assoc], ?_⟩
      rw [sampledInliers_append]
      exact freshlyMasked_append hf1 hf2
    · rename_i stA hslot
      cases h
      exact sample_slot_fresh env fuel 0 st _ false hmask hslot

/-- A completed call of `sample_pixels_for_ransac` on a frame-sized mask, started with an
empty `sampledPixelIdx`: the frame is not empty, and the sampled pixels are pairwise
distinct, were not marked before the call and are marked after it. -/
theorem sample_pixels_for_ransac_fresh (env : Env) (fuel batchSize : Nat)
    (st st1 : SamplerState) (hstart : st.sampledPixelIdx = [])
    (hlen : st.maskSampledPixels.length = env.dataSize)
    (h : sample_pixels_for_ransac env fuel st batchSize = .ok st1) :
    FreshlyMasked st.maskSampledPixels st1.maskSampledPixels
      ((sampledInliers env st1.sampledPixelIdx).map Prod.fst) := by
  unfold sample_pixels_for_ransac at h
  split at h
  · cases h
  · rename_i hdims
    have hmask : st.maskSampledPixels ≠ [] := by
      intro hcontra
      rw [hcontra] at hlen
      simp only [List.length_nil, Env.dataSize] at hlen
      rcases Nat.mul_eq_zero.mp hlen.symm with h0 | h0
      · exact hdims (Or.inl h0)
      · exact hdims (Or.inr h0)
    obtain ⟨new, hs, hf⟩ := sample_batch_fresh env fuel batchSize st st1 hmask h
    rw [hs, hstart, List.nil_append]
    exact hf

/-! ## How a round changes the candidates -/

/-- Every candidate left by the scoring part of a round is a candidate of the pool before
the round with the inliers of the sampled pixels appended, the same id, and possibly another
pose and energy. -/
theorem round_scored_candidates (env : Env) (cfg : Config) (fuel : Nat) (st sc : RansacState)
    (h : round_scored env cfg fuel st = .ok sc) :
    ∃ sampled : SamplerState,
      sample_pixels_for_ransac env fuel
        { m_featurePredictions := st.m_featurePredictions,
          maskSampledPixels := st.maskSampledPixels,
          sampledPixelIdx := [], eng := st.random_engine } cfg.m_batchSizeRansac = .ok sampled ∧
      sc.maskSampledPixels = sampled.maskSampledPixels ∧
      ∀ c1 ∈ sc.candidates, ∃ c ∈ st.candidates,
        c1.inliers = c.inliers ++ sampledInliers env sampled.sampledPixelIdx ∧
        c1.cameraId = c.cameraId := by
  obtain ⟨sampled, refined, scored, hsampled, hrefined, hscored, hperm, -, -, hmask, -⟩ :=
    round_scored_spec env cfg fuel st sc h
  refine ⟨sampled, hsampled, hmask, ?_⟩
  intro c1 hc1
  obtain ⟨c2, hc2, hsc⟩ := forall₂_exists_left hscored c1 (hperm.mem_iff.mp hc1)
  obtain ⟨c3, hc3, hsame⟩ := forall₂_exists_left hrefined c2 hc2
  simp only [update_inliers_for_optimization, List.mem_map] at hc3
  obtain ⟨c, hc, rfl⟩ := hc3
  refine ⟨c, hc, ?_, ?_⟩
  · rw [hsc.1, hsame]
  · rw [hsc.1, hsame]

/-- The invariant of the tournament loop: all surviving candidates have received the same
appended inliers, whose pixels are pairwise distinct and marked in the mask. -/
theorem tournament_loop_appends (env : Env) (cfg : Config) (fuel : Nat) :
    ∀ (rounds : Nat) (st final : RansacState),
      st.maskSampledPixels.length = env.dataSize →
      tournament_loop env cfg fuel rounds st = .ok final →
      ∃ added : List (Nat × Int),
        FreshlyMasked st.maskSampledPixels final.maskSampledPixels (added.map Prod.fst) ∧
        ∀ c1 ∈ final.candidates, ∃ c ∈ st.candidates,
          c1.inliers = c.inliers ++ added ∧ c1.cameraId = c.cameraId
  | 0, st, final, _, h => by
    unfold tournament_loop at h
    split at h
    · cases h
    · cases h
      exact ⟨[], freshlyMasked_refl _, fun c1 hc1 => ⟨c1, hc1, by simp, rfl⟩⟩
  | rounds + 1, st, final, hlen, h => by
    unfold tournament_loop at h
    split at h
    · split at h
      · cases h
      · rename_i st1 hround
        obtain ⟨sc, hsc, rfl⟩ := tournament_round_inv env cfg fuel st st1 hround
        obtain ⟨sampled, hsampled, hmask, hcands⟩ := round_scored_candidates env cfg fuel st sc hsc
        have hfresh := sample_pixels_for_ransac_fresh env fuel _ _ sampled rfl hlen hsampled
        simp only at hfresh
        have hlen1 : (erase_worse_half sc).maskSampledPixels.length = env.dataSize := by
          simp only [erase_worse_half, hmask, hfresh.2.2.2, hlen]
        obtain ⟨added, hfresh1, hcands1⟩ :=
          tournament_loop_appends env cfg fuel rounds (erase_worse_half sc) final hlen1 h
        refine ⟨sampledInliers env sampled.sampledPixelIdx ++ added, ?_, ?_⟩
        · rw [List.map_append]
          simp only [erase_worse_half, hmask] at hfresh1
          exact freshlyMasked_append hfresh hfresh1
        · intro c2 hc2
          obtain ⟨c1, hc1, hin1, hid1⟩ := hcands1 c2 hc2
          have hc1' : c1 ∈ sc.candidates := List.mem_of_mem_take hc1
          obtain ⟨c, hc, hin, hid⟩ := hcands c1 hc1'
          exact ⟨c, hc, by rw [hin1, hin, List.append_assoc], by rw [hid1, hid]⟩
    · cases h
      exact ⟨[], freshlyMasked_refl _, fun c1 hc1 => ⟨c1, hc1, by simp, rfl⟩⟩


/-! ## C9: inlier lists in the tournament loop and in the first trim -/

theorem tournament_round_grows (env : Env) (cfg : Config) (fuel : Nat) (st st1 : RansacState)
    (h : tournament_round env cfg fuel st = .ok st1) :
    ∀ c1 ∈ st1.candidates, ∃ c ∈ st.candidates,
      c.cameraId = c1.cameraId ∧ c.inliers <+: c1.inliers := by
  obtain ⟨sc, hsc, rfl⟩ := tournament_round_inv env cfg fuel st st1 h
  obtain ⟨sampled, -, -, hcands⟩ := round_scored_candidates env cfg fuel st sc hsc
  intro c1 hc1
  obtain ⟨c, hc, hin, hid⟩ := hcands c1 (List.mem_of_mem_take hc1)
  exact ⟨c, hc, hid.symm, ⟨_, hin.symm⟩⟩

theorem tournament_loop_grows (env : Env) (cfg : Config) (fuel : Nat) :
    ∀ (rounds : Nat) (st final : RansacState),
      tournament_loop env cfg fuel rounds st = .ok final →
      ∀ c1 ∈ final.candidates, ∃ c ∈ st.candidates,
        c.cameraId = c1.cameraId ∧ c.inliers <+: c1.inliers
  | 0, st, final, h => by
    unfold tournament_loop at h
    split at h
    · cases h
    · cases h
      exact fun c1 hc1 => ⟨c1, hc1, rfl, List.prefix_refl _⟩
  | rounds + 1, st, final, h => by
    unfold tournament_loop at h
    split at h
    · split at h
      · cases h
      · rename_i st1 hround
        intro c2 hc2
        obtain ⟨c1, hc1, hid1, hpre1⟩ := tournament_loop_grows env cfg fuel rounds st1 final h c2 hc2
        obtain ⟨c, hc, hid, hpre⟩ := tournament_round_grows env cfg fuel st st1 hround c1 hc1
        exact ⟨c, hc, hid.trans hid1, hpre.trans hpre1⟩
    · cases h
      exact fun c1 hc1 => ⟨c1, hc1, rfl, List.prefix_refl _⟩

theorem trim_evaluate_grows (env : Env) (cfg : Config) (fuel : Nat) (st ev : RansacState)
    (h : trim_evaluate env cfg fuel st = .ok ev) :
    ∀ c1 ∈ ev.candidates, ∃ c ∈ st.candidates,
      c.cameraId = c1.cameraId ∧ c.inliers <+: c1.inliers := by
  unfold trim_evaluate at h
  split at h
  · cases h
  · rename_i sampled hsampled
    split at h
    · cases h
    · rename_i sorted hsorted
      cases h
      obtain ⟨scored, hscored, hperm, -⟩ := compute_and_sort_energies_sorted env _ _ _ hsorted
      intro c1 hc1
      obtain ⟨c2, hc2, hsc⟩ :=
        forall₂_exists_left hscored c1 (hperm.mem_iff.mp (List.mem_of_mem_take hc1))
      simp only [update_inliers_for_optimization, List.mem_map] at hc2
      obtain ⟨c, hc, rfl⟩ := hc2
      refine ⟨c, hc, ?_, ?_⟩
      · rw [hsc.1]
      · rw [hsc.1]
        exact List.prefix_append _ _

/-- C9 (as amended): in every completed round of the tournament loop, and over any further
rounds of the loop, each candidate still in the pool has the id of a candidate of the earlier
pool whose inlier list is a prefix of its own; the same holds for the evaluation round of the
first trim, and hence for the whole first trim when the trim threshold is at most one. (The
erasure that ends the first trim when the threshold exceeds one is left out.) -/
theorem inliers_grow_in_rounds (env : Env) (cfg : Config) (fuel : Nat) :
    (∀ st st1, tournament_round env cfg fuel st = .ok st1 →
      ∀ c1 ∈ st1.candidates, ∃ c ∈ st.candidates,
        c.cameraId = c1.cameraId ∧ c.inliers <+: c1.inliers) ∧
    (∀ rounds st final, tournament_loop env cfg fuel rounds st = .ok final →
      ∀ c1 ∈ final.candidates, ∃ c ∈ st.candidates,
        c.cameraId = c1.cameraId ∧ c.inliers <+: c1.inliers) ∧
    (∀ st ev, trim_evaluate env cfg fuel st = .ok ev →
      ∀ c1 ∈ ev.candidates, ∃ c ∈ st.candidates,
        c.cameraId = c1.cameraId ∧ c.inliers <+: c1.inliers) ∧
    (∀ st trimmed, cfg.m_trimKinitAfterFirstEnergyComputation ≤ 1 →
      first_trim env cfg fuel st = .ok trimmed →
      ∀ c1 ∈ trimmed.candidates, ∃ c ∈ st.candidates,
        c.cameraId = c1.cameraId ∧ c.inliers <+: c1.inliers) := by
  refine ⟨tournament_round_grows env cfg fuel, tournament_loop_grows env cfg fuel,
    trim_evaluate_grows env cfg fuel, ?_⟩
  intro st trimmed hT h
  unfold first_trim at h
  split at h
  · simp only at h
    split at h
    · cases h
    · rename_i ev hev
      have hnot : ¬ cfg.m_trimKinitAfterFirstEnergyComputation > 1 := by omega
      rw [if_neg hnot] at h
      cases h
      exact trim_evaluate_grows env cfg fuel st _ hev
  · cases h
    exact fun c1 hc1 => ⟨c1, hc1, rfl, List.prefix_refl _⟩

theorem inliers_grow_in_rounds_witness :
    ∃ st1, tournament_round exampleEnv exampleConfig 1
        (exampleState [exampleCandidate 2, exampleCandidate 0, exampleCandidate 1]) = .ok st1 ∧
      st1.candidates.map PoseCandidate.inliers = [[(0, 0), (0, -1)]] ∧
      ∀ c1 ∈ st1.candidates,
        ∃ c ∈ (exampleState [exampleCandidate 2, exampleCandidate 0, exampleCandidate 1]).candidates,
          c.cameraId = c1.cameraId ∧ c.inliers <+: c1.inliers := by
  have h : ∃ st1, tournament_round exampleEnv exampleConfig 1
      (exampleState [exampleCandidate 2, exampleCandidate 0, exampleCandidate 1]) = .ok st1 ∧
      st1.candidates.map PoseCandidate.inliers = [[(0, 0), (0, -1)]] :=
    ⟨_, by with_unfolding_all rfl, by with_unfolding_all rfl⟩
  obtain ⟨st1, h1, h2⟩ := h
  exact ⟨st1, h1, h2, (inliers_grow_in_rounds exampleEnv exampleConfig 1).1 _ st1 h1⟩

/-- C9 (counterexample): with a trim threshold of two and a pool of three candidates with one
inlier each, the evaluation round of the first trim leaves two candidates with two inliers
each, and the first trim then hands the same two candidates to the loop with the second
inlier erased: the earlier list is not a prefix of the later one. -/
theorem first_trim_erases_inliers :
    ∃ ev trimmed,
      trim_evaluate exampleEnv exampleTrimConfig 1
        (entryState exampleEnv exampleCache
          [exampleCandidate 2, exampleCandidate 0, exampleCandidate 1]) = .ok ev ∧
      first_trim exampleEnv exampleTrimConfig 1
        (entryState exampleEnv exampleCache
          [exampleCandidate 2, exampleCandidate 0, exampleCandidate 1]) = .ok trimmed ∧
      ev.candidates.map PoseCandidate.cameraId = [0, 1] ∧
      trimmed.candidates.map PoseCandidate.cameraId = [0, 1] ∧
      ev.candidates.map PoseCandidate.inliers = [[(0, 0), (0, -1)], [(0, 0), (0, -1)]] ∧
      trimmed.candidates.map PoseCandidate.inliers = [[(0, 0)], [(0, 0)]] ∧
      ¬ ([((0 : Nat), (0 : Int)), (0, -1)] <+: [((0 : Nat), (0 : Int))]) :=
  ⟨_, _, by with_unfolding_all rfl, by with_unfolding_all rfl, by with_unfolding_all rfl,
    by with_unfolding_all rfl, by with_unfolding_all rfl, by with_unfolding_all rfl, by decide⟩

/-! ## C10: pixels sampled in the tournament loop -/

/-- C10 (as amended): the candidate returned by `estimate_pose` is a candidate left by the
first trim (one of the initial pool when the pool is not larger than the trim threshold),
with the same id, followed by the inliers appended in the rounds of the tournament loop, and
the pixel indices of those appended inliers are pairwise distinct. -/
theorem estimate_pose_appended_distinct (env : Env) (cfg : Config) (fuel : Nat)
    (cache : PredictionCache) (candidates : List PoseCandidate) (r : EstimateResult)
    (h : estimate_pose env cfg fuel cache candidates = .ok r) :
    ∃ trimmed, first_trim env cfg fuel (entryState env cache candidates) = .ok trimmed ∧
      (candidates.length ≤ cfg.m_trimKinitAfterFirstEnergyComputation →
        trimmed.candidates = candidates) ∧
      ∃ c ∈ trimmed.candidates, ∃ added : List (Nat × Int),
        r.result.inliers = c.inliers ++ added ∧ r.result.cameraId = c.cameraId ∧
        (added.map Prod.fst).Nodup := by
  unfold estimate_pose at h
  split at h
  · cases h
  · rename_i trimmed htrim
    split at h
    · cases h
    · rename_i final hfinal
      split at h
      · cases h
      · rename_i c1 rest hc1
        cases h
        refine ⟨trimmed, htrim, ?_, ?_⟩
        · intro hle
          have hnot : ¬ cfg.m_trimKinitAfterFirstEnergyComputation
              < (entryState env cache candidates).candidates.length := by
            show ¬ _ < candidates.length
            omega
          unfold first_trim at htrim
          rw [if_neg hnot] at htrim
          cases htrim
          rfl
        · have hlen : (loop_entry env trimmed).maskSampledPixels.length = env.dataSize := by
            simp [loop_entry]
          obtain ⟨added, hfresh, hcands⟩ :=
            tournament_loop_appends env cfg fuel _ (loop_entry env trimmed) final hlen hfinal
          obtain ⟨c, hc, hin, hid⟩ := hcands c1 (by rw [hc1]; exact List.mem_cons_self _ _)
          exact ⟨c, hc, added, hin, hid, hfresh.1⟩

theorem estimate_pose_appended_distinct_witness :
    ∃ r, estimate_pose exampleEnv exampleConfig 2 exampleCache
        [exampleCandidate 3, exampleCandidate 2, exampleCandidate 0, exampleCandidate 1] = .ok r ∧
      r.result.inliers = [(0, 0), (0, -1), (1, -1)] ∧
      ∃ trimmed, first_trim exampleEnv exampleConfig 2
          (entryState exampleEnv exampleCache
            [exampleCandidate 3, exampleCandidate 2, exampleCandidate 0, exampleCandidate 1])
            = .ok trimmed ∧
        ∃ c ∈ trimmed.candidates, ∃ added : List (Nat × Int),
          r.result.inliers = c.inliers ++ added ∧ r.result.cameraId = c.cameraId ∧
          (added.map Prod.fst).Nodup := by
  have h : ∃ r, estimate_pose exampleEnv exampleConfig 2 exampleCache
      [exampleCandidate 3, exampleCandidate 2, exampleCandidate 0, exampleCandidate 1] = .ok r ∧
      r.result.inliers = [(0, 0), (0, -1), (1, -1)] :=
    ⟨_, by with_unfolding_all rfl, by with_unfolding_all rfl⟩
  obtain ⟨r, h1, h2⟩ := h
  obtain ⟨trimmed, h3, -, h4⟩ := estimate_pose_appended_distinct exampleEnv exampleConfig 2
    exampleCache _ r h1
  exact ⟨r, h1, h2, trimmed, h3, h4⟩

/-- C10 (counterexample): both candidates of the pool have pixel `0` as their only inlier;
the single round of the tournament samples pixel `0`, which the fresh mask does not mark, and
the returned candidate has pixel `0` twice among its inliers. -/
theorem estimate_pose_repeats_initial_pixel :
    ∃ r, estimate_pose exampleEnv exampleConfig 1 exampleCache
        [exampleCandidate 0, exampleCandidate 1] = .ok r ∧
      (∀ c ∈ [exampleCandidate 0, exampleCandidate 1], (c.inliers.map Prod.fst).Nodup) ∧
      r.result.inliers = [(0, 0), (0, -1)] ∧
      ¬ (r.result.inliers.map Prod.fst).Nodup :=
  ⟨_, by with_unfolding_all rfl, by decide, by with_unfolding_all rfl,
    by with_unfolding_all decide⟩


/-! ## C6: closed-form alignment of noiseless correspondences -/

theorem transpose_mulVec_cross (M : Matrix3) (u v : Vector3) :
    M.transpose.mulVec (cross (M.mulVec u) (M.mulVec v)) = M.det • cross u v := by
  ext i
  fin_cases i <;>
    simp [cross, Matrix.mulVec, Matrix.dotProduct, Fin.sum_univ_three, Matrix.det_fin_three] <;>
    ring

theorem rotation_mul_transpose {R : Matrix3} (h : IsRotation R) : R * R.transpose = 1 :=
  Matrix.mul_eq_one_comm.mp h.1

theorem rotation_fixes_cross {S : Matrix3} (hS : IsRotation S) {u v : Vector3}
    (hu : S.mulVec u = u) (hv : S.mulVec v = v) : S.mulVec (cross u v) = cross u v := by
  have h1 := transpose_mulVec_cross S u v
  rw [hu, hv, hS.2, one_smul] at h1
  have h2 : S.mulVec (S.transpose.mulVec (cross u v)) = S.mulVec (cross u v) := by rw [h1]
  rw [Matrix.mulVec_mulVec, rotation_mul_transpose hS, Matrix.one_mulVec] at h2
  exact h2.symm

theorem det_columns_cross (u v : Vector3) :
    (columns u v (cross u v)).det
      = cross u v 0 ^ 2 + cross u v 1 ^ 2 + cross u v 2 ^ 2 := by
  simp [columns, cross, Matrix.det_fin_three]
  ring

theorem mul_columns (S : Matrix3) (u v w : Vector3) :
    S * columns u v w = columns (S.mulVec u) (S.mulVec v) (S.mulVec w) := by
  ext i j
  fin_cases i <;> fin_cases j <;>
    simp [columns, Matrix.mul_apply, Matrix.mulVec, Matrix.dotProduct, Fin.sum_univ_three]

theorem rotation_eq_one {S : Matrix3} (hS : IsRotation S) {u v : Vector3}
    (hu : S.mulVec u = u) (hv : S.mulVec v = v) (hw : cross u v ≠ 0) : S = 1 := by
  have hfix := rotation_fixes_cross hS hu hv
  have hB : S * columns u v (cross u v) = columns u v (cross u v) := by
    rw [mul_columns, hu, hv, hfix]
  have hdet : (columns u v (cross u v)).det ≠ 0 := by
    rw [det_columns_cross]
    intro hzero
    apply hw
    have h0 : cross u v 0 = 0 := by nlinarith [sq_nonneg (cross u v 0), sq_nonneg (cross u v 1), sq_nonneg (cross u v 2)]
    have h1 : cross u v 1 = 0 := by nlinarith [sq_nonneg (cross u v 0), sq_nonneg (cross u v 1), sq_nonneg (cross u v 2)]
    have h2 : cross u v 2 = 0 := by nlinarith [sq_nonneg (cross u v 0), sq_nonneg (cross u v 1), sq_nonneg (cross u v 2)]
    ext i
    fin_cases i
    · exact h0
    · exact h1
    · exact h2
  have hunit : IsUnit (columns u v (cross u v)).det := isUnit_iff_ne_zero.mpr hdet
  calc S = S * (columns u v (cross u v) * (columns u v (cross u v))⁻¹) := by
          rw [Matrix.mul_nonsing_inv _ hunit, mul_one]
    _ = (S * columns u v (cross u v)) * (columns u v (cross u v))⁻¹ := by rw [mul_assoc]
    _ = 1 := by rw [hB, Matrix.mul_nonsing_inv _ hunit]

theorem centroid_transformPoints {n : Nat} (hn : 0 < n) (R : Matrix3) (t : Vector3)
    (P : Points n) (i : Fin 3) :
    centroid (transformPoints R t P) i = (R.mulVec (centroid P)) i + t i := by
  have hn0 : (n : ℚ) ≠ 0 := Nat.cast_ne_zero.mpr (Nat.pos_iff_ne_zero.mp hn)
  simp only [centroid, transformPoints, Matrix.of_apply, Matrix.mul_apply, Matrix.mulVec,
    Matrix.dotProduct, Fin.sum_univ_three, Finset.sum_add_distrib, Finset.sum_const,
    Finset.card_univ, Fintype.card_fin, nsmul_eq_mul, ← Finset.mul_sum]
  field_simp
  ring

theorem centred_transformPoints {n : Nat} (hn : 0 < n) (R : Matrix3) (t : Vector3)
    (P : Points n) : centred (transformPoints R t P) = R * centred P := by
  ext i j
  have hc := centroid_transformPoints hn R t P i
  simp only [centred, Matrix.of_apply, hc]
  simp only [transformPoints, Matrix.of_apply, Matrix.mul_apply, Matrix.mulVec,
    Matrix.dotProduct, Fin.sum_univ_three]
  ring

theorem squaredDistance_self {n : Nat} (R : Matrix3) (X : Points n) :
    squaredDistance R X (R * X) = 0 := by
  simp [squaredDistance]

theorem squaredDistance_eq_zero {n : Nat} {R : Matrix3} {X Y : Points n}
    (h : squaredDistance R X Y ≤ 0) : R * X = Y := by
  have hnonneg : ∀ j ∈ (Finset.univ : Finset (Fin n)), 0 ≤ ∑ i, ((R * X) i j - Y i j) ^ 2 :=
    fun j _ => Finset.sum_nonneg (fun i _ => sq_nonneg _)
  have hzero : squaredDistance R X Y = 0 := le_antisymm h (Finset.sum_nonneg hnonneg)
  ext i j
  have hj := (Finset.sum_eq_zero_iff_of_nonneg hnonneg).mp hzero j (Finset.mem_univ j)
  have hi := (Finset.sum_eq_zero_iff_of_nonneg (fun i _ => sq_nonneg _)).mp hj i (Finset.mem_univ i)
  have := pow_eq_zero_iff (two_ne_zero) |>.mp hi
  linarith

theorem mulVec_column_sub {n : Nat} (R : Matrix3) (X : Points n) (a b : Fin n) :
    R.mulVec (fun i => X i b - X i a) = fun i => (R * X) i b - (R * X) i a := by
  ext i
  simp only [Matrix.mulVec, Matrix.dotProduct, Matrix.mul_apply, Fin.sum_univ_three]
  ring

theorem rotation_mul {R S : Matrix3} (hR : IsRotation R) (hS : IsRotation S) :
    IsRotation (R.transpose * S) := by
  constructor
  · rw [Matrix.transpose_mul, Matrix.transpose_transpose, mul_assoc, ← mul_assoc R,
      rotation_mul_transpose hR, one_mul, hS.1]
  · rw [Matrix.det_mul, Matrix.det_transpose, hR.2, hS.2, one_mul]

/-- Two rotations that agree on the differences of three points not on one line are equal. -/
theorem rotation_unique {n : Nat} {R R0 : Matrix3} (hR : IsRotation R) (hR0 : IsRotation R0)
    (X : Points n) (a b c : Fin n) (hX : R * X = R0 * X)
    (hnc : cross (fun i => X i b - X i a) (fun i => X i c - X i a) ≠ 0) : R = R0 := by
  have hu : R.mulVec (fun i => X i b - X i a) = R0.mulVec (fun i => X i b - X i a) := by
    rw [mulVec_column_sub, mulVec_column_sub, hX]
  have hv : R.mulVec (fun i => X i c - X i a) = R0.mulVec (fun i => X i c - X i a) := by
    rw [mulVec_column_sub, mulVec_column_sub, hX]
  have hS := rotation_mul hR0 hR
  have hSu : (R0.transpose * R).mulVec (fun i => X i b - X i a) = fun i => X i b - X i a := by
    rw [← Matrix.mulVec_mulVec, hu, Matrix.mulVec_mulVec, hR0.1, Matrix.one_mulVec]
  have hSv : (R0.transpose * R).mulVec (fun i => X i c - X i a) = fun i => X i c - X i a := by
    rw [← Matrix.mulVec_mulVec, hv, Matrix.mulVec_mulVec, hR0.1, Matrix.one_mulVec]
  have hone := rotation_eq_one hS hSu hSv hnc
  calc R = (R0 * R0.transpose) * R := by rw [rotation_mul_transpose hR0, one_mul]
    _ = R0 * (R0.transpose * R) := by rw [mul_assoc]
    _ = R0 := by rw [hone, mul_one]

/-- C6: for every rigid transform (rotation `R0`, translation `t0`) and every set of local
points of which three are not on one line, `Kabsch` applied to the points and their images
under the transform returns the matrix of the transform, provided the orthogonal fit it uses
is optimal on the two centred point sets. -/
theorem Kabsch_recovers_transform {n : Nat} (orthogonalFit : Points n → Points n → Matrix3)
    (R0 : Matrix3) (t0 : Vector3) (P : Points n) (a b c : Fin n)
    (hR0 : IsRotation R0) (hnc : NonCollinear P a b c)
    (hfit : IsOptimalOrthogonalFit
      (orthogonalFit (centred P) (centred (transformPoints R0 t0 P)))
      (centred P) (centred (transformPoints R0 t0 P))) :
    Kabsch orthogonalFit P (transformPoints R0 t0 P) = rigidTransform R0 t0 := by
  have hn : 0 < n := Fin.pos a
  have hcentred := centred_transformPoints hn R0 t0 P
  rw [hcentred] at hfit
  have hle := hfit.2 R0 hR0
  rw [squaredDistance_self] at hle
  have hX := squaredDistance_eq_zero hle
  have hnc1 : cross (fun i => centred P i b - centred P i a)
      (fun i => centred P i c - centred P i a) ≠ 0 := by
    have e1 : (fun i => centred P i b - centred P i a) = fun i => P i b - P i a := by
      ext i; simp [centred]
    have e2 : (fun i => centred P i c - centred P i a) = fun i => P i c - P i a := by
      ext i; simp [centred]
    rw [e1, e2]
    exact hnc
  have hR := rotation_unique hfit.1 hR0 (centred P) a b c hX hnc1
  unfold Kabsch
  simp only [hcentred, hR]
  have ht : (fun i => centroid (transformPoints R0 t0 P) i - Matrix.mulVec R0 (centroid P) i)
      = t0 := by
    ext i
    rw [centroid_transformPoints hn]
    ring
  rw [ht]



theorem exampleRotation_isRotation : IsRotation exampleRotation := by
  constructor
  · with_unfolding_all decide
  · with_unfolding_all decide

theorem Kabsch_recovers_transform_witness :
    IsRotation exampleRotation ∧ NonCollinear examplePoints 0 1 2 ∧
    Kabsch (fun _ _ => exampleRotation) examplePoints
        (transformPoints exampleRotation ![1, 2, 3] examplePoints)
      = rigidTransform exampleRotation ![1, 2, 3] := by
  have hnc : NonCollinear examplePoints 0 1 2 := by
    intro h
    have h2 := congrFun h 2
    simp [cross, examplePoints] at h2
  refine ⟨exampleRotation_isRotation, hnc, ?_⟩
  refine Kabsch_recovers_transform (fun _ _ => exampleRotation) exampleRotation ![1, 2, 3]
    examplePoints 0 1 2 exampleRotation_isRotation hnc ⟨exampleRotation_isRotation, ?_⟩
  intro R1 _
  rw [centred_transformPoints (by decide), squaredDistance_self]
  exact Finset.sum_nonneg (fun j _ => Finset.sum_nonneg (fun i _ => sq_nonneg _))


/-! ## C11: the retry loop of `sample_pixels_for_ransac` -/

theorem sample_slot_valid (env : Env) :
    ∀ (fuel innerIterations : Nat) (st st1 : SamplerState) (v : Bool),
      innerIterations < 50 → sample_slot env fuel innerIterations st = .ok (v, st1) → v = true
  | 0, innerIterations, st, st1, v, hlt, h => by
    unfold sample_slot at h
    rw [if_pos hlt] at h
    cases h
  | fuel + 1, innerIterations, st, st1, v, hlt, h => by
    unfold sample_slot at h
    rw [if_pos hlt] at h
    split at h
    · cases h
    · cases h
      rfl
    · exact sample_slot_valid env fuel innerIterations _ st1 v hlt h

theorem sample_attempt_noDepth (st : SamplerState) :
    ∃ st1, sample_attempt noDepthEnv st = .ok (false, st1) := by
  unfold sample_attempt
  simp only
  have hneg : ¬ ((noDepthEnv.patchFeaturesData
      ((uniform_int_distribution noDepthEnv.height
          (uniform_int_distribution noDepthEnv.width st.eng).2).1 * noDepthEnv.width
        + (uniform_int_distribution noDepthEnv.width st.eng).1)).position 3 ≥ 0) := by
    simp [noDepthEnv]
  rw [if_neg hneg]
  exact ⟨_, rfl⟩

theorem sample_slot_noDepth :
    ∀ (fuel : Nat) (st : SamplerState),
      sample_slot noDepthEnv fuel 0 st = .error .samplingUnfinished
  | 0, st => by
    unfold sample_slot
    rfl
  | fuel + 1, st => by
    obtain ⟨st1, h1⟩ := sample_attempt_noDepth st
    unfold sample_slot
    rw [if_pos (by decide), h1]
    exact sample_slot_noDepth fuel st1

/-- C11 (the code on failing inputs): no statement of the retry loop changes
`innerIterations`, so (1) a slot never gives up: whenever the loop of a slot returns, it
returns with a valid pixel; (2) on a frame without any valid pixel the call does not return,
whatever the number of passes allowed; (3) on a frame whose only valid pixel is first drawn
in the sixtieth pass, the call makes sixty passes (120 draws) for its single slot and returns
that pixel. -/
theorem sample_pixels_retry_unbounded :
    (∀ (env : Env) (fuel : Nat) (st st1 : SamplerState) (v : Bool),
      sample_slot env fuel 0 st = .ok (v, st1) → v = true) ∧
    (∀ (fuel : Nat) (st : SamplerState),
      sample_pixels_for_ransac noDepthEnv fuel st 1 = .error .samplingUnfinished) ∧
    (∃ st1, sample_pixels_for_ransac lateEnv 60 (samplerEntry lateEnv (fun _ => none) []) 1
        = .ok st1 ∧
      st1.sampledPixelIdx = [(59, 0)] ∧ st1.eng.pos = 120) ∧
    sample_pixels_for_ransac lateEnv 59 (samplerEntry lateEnv (fun _ => none) []) 1
      = .error .samplingUnfinished := by
  refine ⟨fun env fuel st st1 v h => sample_slot_valid env fuel 0 st st1 v (by decide) h,
    ?_, ⟨_, by with_unfolding_all rfl, by with_unfolding_all rfl, by with_unfolding_all rfl⟩,
    by with_unfolding_all rfl⟩
  intro fuel st
  have hdims : ¬ (noDepthEnv.width = 0 ∨ noDepthEnv.height = 0) := by decide
  unfold sample_pixels_for_ransac
  rw [if_neg hdims]
  unfold sample_batch
  rw [sample_slot_noDepth fuel st]


/-! ## The prediction cache only gains filtered predictions -/

theorem cacheExtends_refl (env : Env) (cache : PredictionCache) : CacheExtends env cache cache :=
  fun _ => Or.inl rfl

theorem cacheExtends_trans {env : Env} {c0 c1 c2 : PredictionCache}
    (h01 : CacheExtends env c0 c1) (h12 : CacheExtends env c1 c2) : CacheExtends env c0 c2 := by
  intro i
  rcases h12 i with h | ⟨hnone, p, hp, hstored⟩
  · rw [h]
    exact h01 i
  · rcases h01 i with h | ⟨hnone0, _, _, hstored0⟩
    · exact Or.inr ⟨by rw [← h]; exact hnone, p, hp, hstored⟩
    · rw [hstored0] at hnone
      cases hnone

theorem cacheExtends_store (env : Env) (cache : PredictionCache) (linearIdx : Nat)
    (p : EnsemblePredictionGaussianMean) (hnone : cache linearIdx = none)
    (hp : env.GetPredictionForLeaves (featureLeaves env linearIdx) = some p) :
    CacheExtends env cache (cache.store linearIdx (filterModes p)) := by
  intro i
  by_cases hi : i = linearIdx
  · subst hi
    exact Or.inr ⟨hnone, p, hp, by simp [PredictionCache.store]⟩
  · exact Or.inl (by simp [PredictionCache.store, hi])

theorem cacheExtends_keeps {env : Env} {cache cache1 : PredictionCache}
    (h : CacheExtends env cache cache1) (i : Nat) (pred : EnsemblePredictionGaussianMean)
    (hi : cache i = some pred) : cache1 i = some pred := by
  rcases h i with h1 | ⟨hnone, -⟩
  · rw [h1, hi]
  · rw [hi] at hnone
    cases hnone

theorem filterModes_length (p : EnsemblePredictionGaussianMean) :
    (filterModes p)._modes.length ≤ 20 := by
  unfold filterModes
  simp only
  split
  · rw [List.length_take]
    exact min_le_left _ _
  · omega

theorem cacheExtends_capped {env : Env} {cache cache1 : PredictionCache}
    (h : CacheExtends env cache cache1) (i : Nat) (pred : EnsemblePredictionGaussianMean)
    (hi : cache1 i = some pred) : cache i = some pred ∨ pred._modes.length ≤ 20 := by
  rcases h i with h1 | ⟨-, p, -, hstored⟩
  · exact Or.inl (by rw [← h1, hi])
  · rw [hstored] at hi
    cases hi
    exact Or.inr (filterModes_length p)

theorem select_prediction_extends (env : Env) (st st2 : SamplerState) (linearIdx : Nat)
    (h : select_prediction env st linearIdx = some st2) :
    CacheExtends env st.m_featurePredictions st2.m_featurePredictions := by
  unfold select_prediction at h
  split at h
  · cases h
    exact cacheExtends_refl env _
  · rename_i hnone
    split at h
    · cases h
    · rename_i p hp
      cases h
      exact cacheExtends_store env _ _ p hnone hp

theorem sample_attempt_extends (env : Env) (st st1 : SamplerState) (v : Bool)
    (h : sample_attempt env st = .ok (v, st1)) :
    CacheExtends env st.m_featurePredictions st1.m_featurePredictions := by
  unfold sample_attempt at h
  simp only at h
  split at h
  · split at h
    · cases h
      exact cacheExtends_refl env _
    · rename_i st2 hsel
      have hext := select_prediction_extends env _ st2 _ hsel
      split at h
      · cases h
        exact hext
      · split at h
        · cases h
        · cases h
          exact hext
        · cases h
          exact hext
  · cases h
    exact cacheExtends_refl env _

theorem sample_slot_extends (env : Env) :
    ∀ (fuel innerIterations : Nat) (st st1 : SamplerState) (v : Bool),
      sample_slot env fuel innerIterations st = .ok (v, st1) →
      CacheExtends env st.m_featurePredictions st1.m_featurePredictions
  | 0, innerIterations, st, st1, v, h => by
    unfold sample_slot at h
    split at h
    · cases h
    · cases h
      exact cacheExtends_refl env _
  | fuel + 1, innerIterations, st, st1, v, h => by
    unfold sample_slot at h
    split at h
    · split at h
      · cases h
      · rename_i stA hatt
        cases h
        exact sample_attempt_extends env st _ true hatt
      · rename_i stA hatt
        exact cacheExtends_trans (sample_attempt_extends env st stA false hatt)
          (sample_slot_extends env fuel innerIterations stA st1 v h)
    · cases h
      exact cacheExtends_refl env _

theorem sample_batch_extends (env : Env) (fuel : Nat) :
    ∀ (remaining : Nat) (st st1 : SamplerState),
      sample_batch env fuel remaining st = .ok st1 →
      CacheExtends env st.m_featurePredictions st1.m_featurePredictions
  | 0, st, st1, h => by
    unfold sample_batch at h
    cases h
    exact cacheExtends_refl env _
  | remaining + 1, st, st1, h => by
    unfold sample_batch at h
    split at h
    · cases h
    · rename_i stA hslot
      exact cacheExtends_trans (sample_slot_extends env fuel 0 st stA true hslot)
        (sample_batch_extends env fuel remaining stA st1 h)
    · rename_i stA hslot
      cases h
      exact sample_slot_extends env fuel 0 st _ false hslot

theorem sample_pixels_for_ransac_extends (env : Env) (fuel batchSize : Nat)
    (st st1 : SamplerState) (h : sample_pixels_for_ransac env fuel st batchSize = .ok st1) :
    CacheExtends env st.m_featurePredictions st1.m_featurePredictions := by
  unfold sample_pixels_for_ransac at h
  split at h
  · cases h
  · exact sample_batch_extends env fuel batchSize st st1 h


/-! ## The cache and the selection in `hypothesize_pose` -/

theorem cached_prediction_extends (env : Env) (cache cache1 : PredictionCache)
    (linearFeatureIdx : Nat) (pred : EnsemblePredictionGaussianMean)
    (h : cached_prediction env cache linearFeatureIdx = some (pred, cache1)) :
    CacheExtends env cache cache1 := by
  unfold cached_prediction at h
  split at h
  · cases h
    exact cacheExtends_refl env _
  · rename_i hnone
    split at h
    · cases h
    · rename_i p hp
      cases h
      exact cacheExtends_store env _ _ p hnone hp

theorem hypothesize_attempt_extends (env : Env) (cfg : Config) (st st1 : HypothesisState)
    (h : hypothesize_attempt env cfg st = .ok st1) :
    CacheExtends env st.m_featurePredictions st1.m_featurePredictions := by
  unfold hypothesize_attempt at h
  simp only at h
  split at h
  · cases h
    exact cacheExtends_refl env _
  · split at h
    · cases h
      exact cacheExtends_refl env _
    · rename_i pred cache1 hcached
      have hext := cached_prediction_extends env _ cache1 _ pred hcached
      split at h
      · cases h
      · split at h
        · cases h
        · split at h
          · cases h
          · cases h
            exact hext
          · cases h
            exact hext

theorem hypothesize_inner_extends (env : Env) (cfg : Config) :
    ∀ (fuel : Nat) (st st1 : HypothesisState), hypothesize_inner env cfg fuel st = .ok st1 →
      CacheExtends env st.m_featurePredictions st1.m_featurePredictions
  | 0, st, st1, h => by
    unfold hypothesize_inner at h
    split at h
    · cases h
    · cases h
      exact cacheExtends_refl env _
  | fuel + 1, st, st1, h => by
    unfold hypothesize_inner at h
    split at h
    · split at h
      · cases h
      · rename_i stA hatt
        exact cacheExtends_trans (hypothesize_attempt_extends env cfg st stA hatt)
          (hypothesize_inner_extends env cfg fuel stA st1 h)
    · cases h
      exact cacheExtends_refl env _

theorem correspondences_length (env : Env) (cache : PredictionCache) :
    ∀ (selected : List (Nat × Nat × Nat)) (found : List (Vector3 × Vector3 × (Nat × Int))),
      correspondences env cache selected = .ok found → found.length = selected.length
  | [], found, h => by
    unfold correspondences at h
    cases h
    rfl
  | (x, y, modeIdx) :: rest, found, h => by
    unfold correspondences at h
    simp only at h
    split at h
    · cases h
    · split at h
      · cases h
      · split at h
        · cases h
        · rename_i found1 hrest
          cases h
          simp [correspondences_length env cache rest found1 hrest]

/-- What a completed `hypothesize_outer` amounts to: the cache has only gained filtered
predictions; when `true` is returned `res` holds a candidate which, unless it is the one
passed in, has as many inliers as points are needed for the alignment and id `-1`. -/
theorem hypothesize_outer_spec (env : Env) (cfg : Config)
    (orthogonalFit : (n : Nat) → Points n → Points n → Matrix3) (fuel : Nat) :
    ∀ (remaining : Nat) (found : Option PoseCandidate) (cache : PredictionCache)
      (eng : Mt19937) (r : HypothesisResult),
      hypothesize_outer env cfg orthogonalFit fuel remaining found cache eng = .ok r →
      CacheExtends env cache r.m_featurePredictions ∧
      (r.res = found ∨ ∃ c, r.res = some c ∧
        c.inliers.length = cfg.m_nbPointsForKabschBoostrap ∧ c.cameraId = -1) ∧
      (r.returned = true → ∃ c, r.res = some c)
  | 0, found, cache, eng, r, h => by
    unfold hypothesize_outer at h
    cases h
    exact ⟨cacheExtends_refl env _, Or.inl rfl, fun hr => Bool.noConfusion hr⟩
  | remaining + 1, some res, cache, eng, r, h => by
    unfold hypothesize_outer at h
    cases h
    exact ⟨cacheExtends_refl env _, Or.inl rfl, fun _ => ⟨res, rfl⟩⟩
  | remaining + 1, none, cache, eng, r, h => by
    unfold hypothesize_outer at h
    split at h
    · cases h
    · rename_i st hinner
      have hext := hypothesize_inner_extends env cfg fuel _ st hinner
      simp only at hext
      split at h
      · cases h
        exact ⟨hext, Or.inl rfl, fun hr => Bool.noConfusion hr⟩
      · rename_i hN
        split at h
        · cases h
        · rename_i found1 hfound
          obtain ⟨hext1, hres, hret⟩ := hypothesize_outer_spec env cfg orthogonalFit fuel
            remaining _ _ _ r h
          refine ⟨cacheExtends_trans hext hext1, Or.inr ?_, hret⟩
          have hlen := correspondences_length env _ _ found1 hfound
          have hN1 : st.selectedPixelsAndModes.length = cfg.m_nbPointsForKabschBoostrap := by
            by_contra hcontra
            exact hN hcontra
          rcases hres with hsame | ⟨c, hc, hcl, hcid⟩
          · exact ⟨_, hsame, by simp [hypothesis, hlen, hN1], rfl⟩
          · exact ⟨c, hc, hcl, hcid⟩

theorem hypothesize_pose_spec (env : Env) (cfg : Config)
    (orthogonalFit : (n : Nat) → Points n → Points n → Matrix3) (fuel : Nat)
    (cache : PredictionCache) (eng : Mt19937) (r : HypothesisResult)
    (h : hypothesize_pose env cfg orthogonalFit fuel cache eng = .ok r) :
    CacheExtends env cache r.m_featurePredictions ∧
    (r.returned = true → ∃ c, r.res = some c ∧
      c.inliers.length = cfg.m_nbPointsForKabschBoostrap ∧ c.cameraId = -1) := by
  unfold hypothesize_pose at h
  split at h
  · cases h
  · obtain ⟨hext, hres, hret⟩ := hypothesize_outer_spec env cfg orthogonalFit fuel _ _ _ _ r h
    refine ⟨hext, fun hr => ?_⟩
    obtain ⟨c, hc⟩ := hret hr
    rcases hres with hnone | ⟨c1, hc1, hlen, hid⟩
    · rw [hc] at hnone
      cases hnone
    · exact ⟨c1, hc1, hlen, hid⟩


/-! ## C17: the pool of `generate_pose_candidates` -/

theorem push_candidate_pool (nbPoints i : Nat) (poseCandidates : List PoseCandidate)
    (r : HypothesisResult) (hpool : PoolUpTo nbPoints i poseCandidates)
    (hr : r.returned = true → ∃ c, r.res = some c ∧ c.inliers.length = nbPoints) :
    PoolUpTo nbPoints (i + 1) (push_candidate poseCandidates i r) := by
  have hkeep : PoolUpTo nbPoints (i + 1) poseCandidates := by
    refine ⟨hpool.1.trans ?_, hpool.2⟩
    rw [List.range_succ, List.map_append]
    exact List.sublist_append_left _ _
  unfold push_candidate
  split
  · rename_i candidate hret hres
    split
    · obtain ⟨c, hc, hlen⟩ := hr hret
      rw [hres] at hc
      cases hc
      refine ⟨?_, ?_⟩
      · rw [List.map_append, List.range_succ, List.map_append]
        exact List.Sublist.append hpool.1 (List.Sublist.refl _)
      · intro c1 hc1
        rcases List.mem_append.mp hc1 with hold | hnew
        · exact hpool.2 c1 hold
        · rw [List.mem_singleton] at hnew
          rw [hnew]
          exact hlen
    · exact hkeep
  · exact hkeep

theorem generate_loop_spec (env : Env) (cfg : Config) (gen : Generator) (fuel : Nat) :
    ∀ (remaining i : Nat) (st final : GeneratorState),
      generate_loop env cfg gen fuel remaining i st = .ok final →
      CacheExtends env st.m_featurePredictions final.m_featurePredictions ∧
      (PoolUpTo cfg.m_nbPointsForKabschBoostrap i st.poseCandidates →
        PoolUpTo cfg.m_nbPointsForKabschBoostrap (i + remaining) final.poseCandidates)
  | 0, i, st, final, h => by
    unfold generate_loop at h
    cases h
    exact ⟨cacheExtends_refl env _, fun hpool => hpool⟩
  | remaining + 1, i, st, final, h => by
    unfold generate_loop at h
    simp only at h
    split at h
    · cases h
    · rename_i r hr
      obtain ⟨hext, hres⟩ := hypothesize_pose_spec env cfg gen.orthogonalFit fuel _ _ r hr
      obtain ⟨hext1, hpool1⟩ := generate_loop_spec env cfg gen fuel remaining (i + 1) _ final h
      refine ⟨cacheExtends_trans hext hext1, fun hpool => ?_⟩
      have hpush := push_candidate_pool cfg.m_nbPointsForKabschBoostrap i st.poseCandidates r
        hpool (fun hret => by
          obtain ⟨c, hc, hlen, -⟩ := hres hret
          exact ⟨c, hc, hlen⟩)
      have := hpool1 hpush
      rw [Nat.add_assoc, Nat.add_comm 1 remaining] at this
      exact this

theorem generate_pose_candidates_poolUpTo (env : Env) (cfg : Config) (gen : Generator)
    (fuel : Nat) (final : GeneratorState)
    (h : generate_pose_candidates env cfg gen fuel = .ok final) :
    PoolUpTo cfg.m_nbPointsForKabschBoostrap cfg.m_kInitRansac final.poseCandidates := by
  unfold generate_pose_candidates at h
  have := (generate_loop_spec env cfg gen fuel _ 0 _ final h).2
    ⟨by simp, fun c hc => by simp at hc⟩
  simpa using this

/-- C17: every candidate of the pool left by `generate_pose_candidates` with
`K = m_kInitRansac` attempts carries exactly `N = m_nbPointsForKabschBoostrap` inliers and an
id in `[0, K)`; the ids, read in the order of the pool, are a subsequence of the attempt
indices `0, 1, ..., K - 1` (each candidate has the index of the attempt that pushed it), so
they are pairwise distinct and the pool holds at most `K` candidates. -/
theorem generate_pose_candidates_pool (env : Env) (cfg : Config) (gen : Generator)
    (fuel : Nat) (final : GeneratorState)
    (h : generate_pose_candidates env cfg gen fuel = .ok final) :
    (∀ c ∈ final.poseCandidates,
      c.inliers.length = cfg.m_nbPointsForKabschBoostrap ∧
      0 ≤ c.cameraId ∧ c.cameraId < cfg.m_kInitRansac) ∧
    (final.poseCandidates.map PoseCandidate.cameraId).Sublist
      ((List.range cfg.m_kInitRansac).map Int.ofNat) ∧
    (final.poseCandidates.map PoseCandidate.cameraId).Nodup ∧
    final.poseCandidates.length ≤ cfg.m_kInitRansac := by
  obtain ⟨hsub, hlen⟩ := generate_pose_candidates_poolUpTo env cfg gen fuel final h
  have hnodup : ((List.range cfg.m_kInitRansac).map Int.ofNat).Nodup :=
    (List.nodup_range _).map (fun a b hab => Int.ofNat.inj hab)
  refine ⟨fun c hc => ⟨hlen c hc, ?_⟩, hsub, hnodup.sublist hsub, ?_⟩
  · have hmem : c.cameraId ∈ (List.range cfg.m_kInitRansac).map Int.ofNat :=
      hsub.subset (List.mem_map_of_mem _ hc)
    obtain ⟨k, hk, hkc⟩ := List.mem_map.mp hmem
    rw [List.mem_range] at hk
    rw [← hkc]
    exact ⟨Int.ofNat_nonneg k, Int.ofNat_lt.mpr hk⟩
  · have := hsub.length_le
    simpa using this

theorem generate_pose_candidates_pool_witness :
    ∃ final, generate_pose_candidates exampleEnv fourAttemptsConfig exampleGenerator 20
        = .ok final ∧
      final.poseCandidates.map PoseCandidate.cameraId = [0, 1, 2, 3] ∧
      (∀ c ∈ final.poseCandidates,
        c.inliers.length = fourAttemptsConfig.m_nbPointsForKabschBoostrap ∧
        0 ≤ c.cameraId ∧ c.cameraId < fourAttemptsConfig.m_kInitRansac) := by
  have h : ∃ final, generate_pose_candidates exampleEnv fourAttemptsConfig exampleGenerator 20
      = .ok final ∧ final.poseCandidates.map PoseCandidate.cameraId = [0, 1, 2, 3] :=
    ⟨_, by with_unfolding_all rfl, by with_unfolding_all rfl⟩
  obtain ⟨final, h1, h2⟩ := h
  exact ⟨final, h1, h2,
    (generate_pose_candidates_pool exampleEnv fourAttemptsConfig exampleGenerator 20 final h1).1⟩


/-! ## C12: the outer loop of `hypothesize_pose` -/

theorem hypothesize_pose_one_outer (env : Env) (cfg : Config)
    (orthogonalFit : (n : Nat) → Points n → Points n → Matrix3) (fuel : Nat)
    (cache : PredictionCache) (eng : Mt19937) (r : HypothesisResult)
    (h : hypothesize_pose env cfg orthogonalFit fuel cache eng = .ok r) :
    r.iterationsOuter = 1 := by
  unfold hypothesize_pose at h
  split at h
  · cases h
  · unfold maxIterationsOuter hypothesize_outer at h
    split at h
    · cases h
    · split at h
      · cases h
        rfl
      · split at h
        · cases h
        · unfold hypothesize_outer at h
          cases h
          rfl

theorem hypothesize_pose_aborts (env : Env) (cfg : Config)
    (orthogonalFit : (n : Nat) → Points n → Points n → Matrix3) (fuel : Nat)
    (cache : PredictionCache) (eng : Mt19937) (st : HypothesisState)
    (hdims : ¬ (env.width = 0 ∨ env.height = 0))
    (hinner : hypothesize_inner env cfg fuel
      { m_featurePredictions := cache, eng := eng, selectedPixelsAndModes := [],
        iterationsInner := 0 } = .ok st)
    (hN : st.selectedPixelsAndModes.length ≠ cfg.m_nbPointsForKabschBoostrap) :
    hypothesize_pose env cfg orthogonalFit fuel cache eng
      = .ok { returned := false, res := none, iterationsOuter := 1,
              m_featurePredictions := st.m_featurePredictions, eng := st.eng } := by
  unfold hypothesize_pose
  rw [if_neg hdims]
  unfold maxIterationsOuter hypothesize_outer
  simp only [hinner, if_pos hN]
  rfl

theorem hypothesize_attempt_colour (st : HypothesisState)
    (hsel : st.selectedPixelsAndModes = []) (hcache : st.m_featurePredictions = exampleCache) :
    ∃ st1, hypothesize_attempt colourEnv constructorConfig st = .ok st1 ∧
      st1.selectedPixelsAndModes = [] ∧ st1.m_featurePredictions = exampleCache ∧
      st1.iterationsInner = st.iterationsInner + 1 := by
  unfold hypothesize_attempt
  simp only [hsel, hcache]
  have hpos : ∀ i, ¬ (colourEnv.patchFeaturesData i).position 3 < 0 := by
    intro i
    simp [colourEnv]
  have hcached : ∀ i, cached_prediction colourEnv exampleCache i
      = some (filterModes (examplePrediction i), exampleCache) := fun i => rfl
  have hmodes : ∀ i, nbModesInFirstTree (filterModes (examplePrediction i)) = .ok 1 := by
    intro i
    simp [nbModesInFirstTree, filterModes, examplePrediction, first_tree_boundary, INT_MAX]
  have hmode : ∀ eng, select_mode constructorConfig 1 eng
      = .ok (0, { eng with pos := eng.pos + 1 }) := by
    intro eng
    simp [select_mode, constructorConfig, uniform_int_distribution, Nat.mod_one]
  have hcolour : ∀ i j, passes_checks colourEnv constructorConfig exampleCache []
      (colourEnv.patchFeaturesData i) (filterModes (examplePrediction j)) 0 = .ok false := by
    intro i j
    have hc : consistentColour (colourEnv.patchFeaturesData i)
        (filterModes (examplePrediction j)) 0 = .ok false := by
      simp only [consistentColour, modeComponent, filterModes, examplePrediction, colourEnv]
      simp
      exact ⟨0, by norm_num⟩
    simp [passes_checks, hc]
  rw [if_neg (hpos _)]
  simp only [hcached, hmodes, hmode, hcolour]
  exact ⟨_, rfl, rfl, rfl, rfl⟩

theorem hypothesize_inner_colour :
    ∀ (fuel : Nat) (st : HypothesisState), st.selectedPixelsAndModes = [] →
      st.m_featurePredictions = exampleCache → maxIterationsInner - st.iterationsInner ≤ fuel →
      ∃ st1, hypothesize_inner colourEnv constructorConfig fuel st = .ok st1 ∧
        st1.selectedPixelsAndModes = [] ∧ maxIterationsInner ≤ st1.iterationsInner
  | 0, st, hsel, _, hfuel => by
    have hge : ¬ st.iterationsInner < maxIterationsInner := by omega
    unfold hypothesize_inner
    rw [if_neg (fun h => hge h.2)]
    exact ⟨st, rfl, hsel, by omega⟩
  | fuel + 1, st, hsel, hcache, hfuel => by
    unfold hypothesize_inner
    by_cases hlt : st.iterationsInner < maxIterationsInner
    · have hcond : st.selectedPixelsAndModes.length ≠ constructorConfig.m_nbPointsForKabschBoostrap
          ∧ st.iterationsInner < maxIterationsInner := by
        refine ⟨?_, hlt⟩
        rw [hsel]
        decide
      rw [if_pos hcond]
      obtain ⟨st1, h1, hsel1, hcache1, hit1⟩ := hypothesize_attempt_colour st hsel hcache
      rw [h1]
      exact hypothesize_inner_colour fuel st1 hsel1 hcache1 (by omega)
    · rw [if_neg (fun h => hlt h.2)]
      exact ⟨st, rfl, hsel, by omega⟩

/-- C12 (the code on the failing input): every completed call of `hypothesize_pose` has made
exactly one pass through the outer loop, so there is no retry; and on the frame whose pixel
colours never match, where the inner loop of the first pass reaches its bound of 6000 counted
passes with nothing selected, the call returns `false` with `iterationsOuter = 1`, for every
engine and every number of passes allowed from 6000 on. -/
theorem hypothesize_pose_no_retry :
    (∀ (env : Env) (cfg : Config) (orthogonalFit : (n : Nat) → Points n → Points n → Matrix3)
      (fuel : Nat) (cache : PredictionCache) (eng : Mt19937) (r : HypothesisResult),
      hypothesize_pose env cfg orthogonalFit fuel cache eng = .ok r → r.iterationsOuter = 1) ∧
    (∀ (orthogonalFit : (n : Nat) → Points n → Points n → Matrix3) (fuel : Nat) (eng : Mt19937),
      maxIterationsInner ≤ fuel →
      ∃ r, hypothesize_pose colourEnv constructorConfig orthogonalFit fuel exampleCache eng
          = .ok r ∧
        r.returned = false ∧ r.res = none ∧ r.iterationsOuter = 1 ∧
        r.iterationsOuter < maxIterationsOuter) := by
  refine ⟨hypothesize_pose_one_outer, ?_⟩
  intro orthogonalFit fuel eng hfuel
  obtain ⟨st, hinner, hsel, -⟩ := hypothesize_inner_colour fuel
    { m_featurePredictions := exampleCache, eng := eng, selectedPixelsAndModes := [],
      iterationsInner := 0 } rfl rfl (by simpa using hfuel)
  have hN : st.selectedPixelsAndModes.length
      ≠ constructorConfig.m_nbPointsForKabschBoostrap := by
    rw [hsel]
    decide
  have h := hypothesize_pose_aborts colourEnv constructorConfig orthogonalFit fuel exampleCache
    eng st (by decide) hinner hN
  exact ⟨_, h, rfl, rfl, rfl, show 1 < maxIterationsOuter by decide⟩


/-! ## The cache through `estimate_pose` -/

theorem trim_evaluate_extends (env : Env) (cfg : Config) (fuel : Nat) (st ev : RansacState)
    (h : trim_evaluate env cfg fuel st = .ok ev) :
    CacheExtends env st.m_featurePredictions ev.m_featurePredictions := by
  unfold trim_evaluate at h
  split at h
  · cases h
  · rename_i sampled hsampled
    split at h
    · cases h
    · cases h
      exact sample_pixels_for_ransac_extends env fuel _ _ sampled hsampled

theorem first_trim_extends (env : Env) (cfg : Config) (fuel : Nat) (st trimmed : RansacState)
    (h : first_trim env cfg fuel st = .ok trimmed) :
    CacheExtends env st.m_featurePredictions trimmed.m_featurePredictions := by
  unfold first_trim at h
  split at h
  · simp only at h
    split at h
    · cases h
    · rename_i ev hev
      have hext := trim_evaluate_extends env cfg fuel st ev hev
      split at h
      · cases h
        exact hext
      · cases h
        exact hext
  · cases h
    exact cacheExtends_refl env _

theorem tournament_round_extends (env : Env) (cfg : Config) (fuel : Nat) (st st1 : RansacState)
    (h : tournament_round env cfg fuel st = .ok st1) :
    CacheExtends env st.m_featurePredictions st1.m_featurePredictions := by
  obtain ⟨sc, hsc, rfl⟩ := tournament_round_inv env cfg fuel st st1 h
  obtain ⟨sampled, _, _, hsampled, -, -, -, -, hcache, -⟩ := round_scored_spec env cfg fuel st sc hsc
  have hext := sample_pixels_for_ransac_extends env fuel _ _ sampled hsampled
  simp only [erase_worse_half, hcache]
  exact hext

theorem tournament_loop_extends (env : Env) (cfg : Config) (fuel : Nat) :
    ∀ (rounds : Nat) (st final : RansacState),
      tournament_loop env cfg fuel rounds st = .ok final →
      CacheExtends env st.m_featurePredictions final.m_featurePredictions
  | 0, st, final, h => by
    unfold tournament_loop at h
    split at h
    · cases h
    · cases h
      exact cacheExtends_refl env _
  | rounds + 1, st, final, h => by
    unfold tournament_loop at h
    split at h
    · split at h
      · cases h
      · rename_i st1 hround
        exact cacheExtends_trans (tournament_round_extends env cfg fuel st st1 hround)
          (tournament_loop_extends env cfg fuel rounds st1 final h)
    · cases h
      exact cacheExtends_refl env _

theorem estimate_pose_extends (env : Env) (cfg : Config) (fuel : Nat) (cache : PredictionCache)
    (candidates : List PoseCandidate) (r : EstimateResult)
    (h : estimate_pose env cfg fuel cache candidates = .ok r) :
    CacheExtends env cache r.final.m_featurePredictions := by
  unfold estimate_pose at h
  split at h
  · cases h
  · rename_i trimmed htrim
    split at h
    · cases h
    · rename_i final hfinal
      split at h
      · cases h
      · cases h
        have h1 := first_trim_extends env cfg fuel _ trimmed htrim
        have h2 := tournament_loop_extends env cfg fuel _ _ final hfinal
        exact cacheExtends_trans h1 h2


/-! ## C13: the order of the modes of a stored prediction -/

theorem filterModes_equal_sizes (p : EnsemblePredictionGaussianMean)
    (hsize : ∀ m ∈ p._modes, m.length = 2) (hlen : p._modes.length ≤ 20) :
    filterModes p = p := by
  have hsorted : List.Sorted (fun a b : List PredictedGaussianMean => a.length ≥ b.length)
      p._modes := by
    refine List.pairwise_of_forall_mem_list ?_
    intro a ha b hb
    rw [hsize a ha, hsize b hb]
  unfold filterModes
  simp only [hsorted.insertionSort_eq]
  rw [if_neg (by omega)]

/-- C13 (the code on the failing input): the comparator of the sort that precedes the store
compares the number of components of two modes, not their support counts. A prediction whose
modes all have a position and a colour component, at most 20 of them, is stored as the forest
returned it; the prediction with supports `5, 10` is stored with supports `5, 10`, in
ascending order, by `sample_pixels_for_ransac` and by `hypothesize_pose`. -/
theorem stored_modes_not_by_support :
    (∀ p : EnsemblePredictionGaussianMean, (∀ m ∈ p._modes, m.length = 2) →
      p._modes.length ≤ 20 → filterModes p = p) ∧
    supports ascendingPrediction = [5, 10] ∧
    supports (filterModes ascendingPrediction) = [5, 10] ∧
    (∃ st1, sample_pixels_for_ransac ascendingEnv 1
        (samplerEntry ascendingEnv (fun _ => none) []) 1 = .ok st1 ∧
      (st1.m_featurePredictions 0).map supports = some [5, 10]) ∧
    (∃ r, hypothesize_pose ascendingEnv noDistanceConfig identityFit 20 (fun _ => none)
        { stream := fun k => k, pos := 0 } = .ok r ∧
      (r.m_featurePredictions 0).map supports = some [5, 10]) ∧
    ¬ List.Sorted (fun a b : Int => a ≥ b) [5, 10] :=
  ⟨filterModes_equal_sizes, by with_unfolding_all rfl, by with_unfolding_all rfl,
    ⟨_, by with_unfolding_all rfl, by with_unfolding_all rfl⟩,
    ⟨_, by with_unfolding_all rfl, by with_unfolding_all rfl⟩, by decide⟩

/-! ## C14: stored predictions have at most 20 modes -/

/-- C14: `filterModes` leaves at most 20 modes whatever prediction the forest returned, and
every cache entry after a completed `sample_pixels_for_ransac` or `hypothesize_pose` is the
entry from before the call or has at most 20 modes; after `generate_pose_candidates`, which
starts from the cleared cache, every entry has at most 20 modes, and `estimate_pose` keeps
that. -/
theorem stored_predictions_capped (env : Env) :
    (∀ p : EnsemblePredictionGaussianMean, (filterModes p)._modes.length ≤ 20) ∧
    (∀ (fuel batchSize : Nat) (st st1 : SamplerState),
      sample_pixels_for_ransac env fuel st batchSize = .ok st1 →
      ∀ i pred, st1.m_featurePredictions i = some pred →
        st.m_featurePredictions i = some pred ∨ pred._modes.length ≤ 20) ∧
    (∀ (cfg : Config) (orthogonalFit : (n : Nat) → Points n → Points n → Matrix3) (fuel : Nat)
      (cache : PredictionCache) (eng : Mt19937) (r : HypothesisResult),
      hypothesize_pose env cfg orthogonalFit fuel cache eng = .ok r →
      ∀ i pred, r.m_featurePredictions i = some pred →
        cache i = some pred ∨ pred._modes.length ≤ 20) ∧
    (∀ (cfg : Config) (gen : Generator) (fuel : Nat) (final : GeneratorState),
      generate_pose_candidates env cfg gen fuel = .ok final →
      ∀ i pred, final.m_featurePredictions i = some pred → pred._modes.length ≤ 20) ∧
    (∀ (cfg : Config) (fuel : Nat) (cache : PredictionCache) (candidates : List PoseCandidate)
      (r : EstimateResult),
      (∀ i pred, cache i = some pred → pred._modes.length ≤ 20) →
      estimate_pose env cfg fuel cache candidates = .ok r →
      ∀ i pred, r.final.m_featurePredictions i = some pred → pred._modes.length ≤ 20) := by
  refine ⟨filterModes_length, ?_, ?_, ?_, ?_⟩
  · intro fuel batchSize st st1 h i pred hi
    exact cacheExtends_capped (sample_pixels_for_ransac_extends env fuel batchSize st st1 h)
      i pred hi
  · intro cfg orthogonalFit fuel cache eng r h i pred hi
    exact cacheExtends_capped (hypothesize_pose_spec env cfg orthogonalFit fuel cache eng r h).1
      i pred hi
  · intro cfg gen fuel final h i pred hi
    unfold generate_pose_candidates at h
    have hext := (generate_loop_spec env cfg gen fuel _ 0 _ final h).1
    rcases cacheExtends_capped hext i pred hi with hnone | hle
    · cases hnone
    · exact hle
  · intro cfg fuel cache candidates r hcache h i pred hi
    rcases cacheExtends_capped (estimate_pose_extends env cfg fuel cache candidates r h)
      i pred hi with hold | hle
    · exact hcache i pred hold
    · exact hle

theorem stored_predictions_capped_witness :
    manyModesPrediction._modes.length = 25 ∧
    ∃ st1, sample_pixels_for_ransac manyModesEnv 1
        (samplerEntry manyModesEnv (fun _ => none) []) 1 = .ok st1 ∧
      (st1.m_featurePredictions 0).map (fun pred => pred._modes.length) = some 20 ∧
      ∀ i pred, st1.m_featurePredictions i = some pred →
        (samplerEntry manyModesEnv (fun _ => none) []).m_featurePredictions i = some pred ∨
          pred._modes.length ≤ 20 := by
  have h : ∃ st1, sample_pixels_for_ransac manyModesEnv 1
      (samplerEntry manyModesEnv (fun _ => none) []) 1 = .ok st1 ∧
      (st1.m_featurePredictions 0).map (fun pred => pred._modes.length) = some 20 :=
    ⟨_, by with_unfolding_all rfl, by with_unfolding_all rfl⟩
  obtain ⟨st1, h1, h2⟩ := h
  exact ⟨by with_unfolding_all rfl, st1, h1, h2,
    (stored_predictions_capped manyModesEnv).2.1 1 1 _ st1 h1⟩

/-! ## C15: cached predictions are not changed -/

/-- C15: an entry that the cache holds (a non-null pointer) before a call is the entry it
holds after the call, for `sample_pixels_for_ransac`, for `hypothesize_pose`, for a round of
the tournament (which calls `update_candidate_pose` and `compute_pose_energy`, both of which
only read the cache), for the whole of `estimate_pose`, and for any number of successive
attempts of `generate_pose_candidates`. -/
theorem cached_predictions_kept (env : Env) :
    (∀ (fuel batchSize : Nat) (st st1 : SamplerState),
      sample_pixels_for_ransac env fuel st batchSize = .ok st1 →
      ∀ i pred, st.m_featurePredictions i = some pred →
        st1.m_featurePredictions i = some pred) ∧
    (∀ (cfg : Config) (orthogonalFit : (n : Nat) → Points n → Points n → Matrix3) (fuel : Nat)
      (cache : PredictionCache) (eng : Mt19937) (r : HypothesisResult),
      hypothesize_pose env cfg orthogonalFit fuel cache eng = .ok r →
      ∀ i pred, cache i = some pred → r.m_featurePredictions i = some pred) ∧
    (∀ (cfg : Config) (fuel : Nat) (st st1 : RansacState),
      tournament_round env cfg fuel st = .ok st1 →
      ∀ i pred, st.m_featurePredictions i = some pred →
        st1.m_featurePredictions i = some pred) ∧
    (∀ (cfg : Config) (fuel : Nat) (cache : PredictionCache) (candidates : List PoseCandidate)
      (r : EstimateResult),
      estimate_pose env cfg fuel cache candidates = .ok r →
      ∀ i pred, cache i = some pred → r.final.m_featurePredictions i = some pred) ∧
    (∀ (cfg : Config) (gen : Generator) (fuel remaining first : Nat)
      (st final : GeneratorState),
      generate_loop env cfg gen fuel remaining first st = .ok final →
      ∀ i pred, st.m_featurePredictions i = some pred →
        final.m_featurePredictions i = some pred) := by
  refine ⟨?_, ?_, ?_, ?_, ?_⟩
  · intro fuel batchSize st st1 h i pred hi
    exact cacheExtends_keeps (sample_pixels_for_ransac_extends env fuel batchSize st st1 h)
      i pred hi
  · intro cfg orthogonalFit fuel cache eng r h i pred hi
    exact cacheExtends_keeps (hypothesize_pose_spec env cfg orthogonalFit fuel cache eng r h).1
      i pred hi
  · intro cfg fuel st st1 h i pred hi
    exact cacheExtends_keeps (tournament_round_extends env cfg fuel st st1 h) i pred hi
  · intro cfg fuel cache candidates r h i pred hi
    exact cacheExtends_keeps (estimate_pose_extends env cfg fuel cache candidates r h) i pred hi
  · intro cfg gen fuel remaining first st final h i pred hi
    exact cacheExtends_keeps (generate_loop_spec env cfg gen fuel remaining first st final h).1
      i pred hi

theorem cached_predictions_kept_witness :
    ∃ r, estimate_pose exampleEnv exampleConfig 1 onePixelCache
        [{ exampleCandidate 0 with inliers := [(3, 0)] },
         { exampleCandidate 1 with inliers := [(3, 0)] }] = .ok r ∧
      onePixelCache 0 = none ∧
      r.final.m_featurePredictions 0 = some (filterModes (examplePrediction 0)) ∧
      onePixelCache 3 = some (filterModes (examplePrediction 3)) ∧
      r.final.m_featurePredictions 3 = some (filterModes (examplePrediction 3)) := by
  have h : ∃ r, estimate_pose exampleEnv exampleConfig 1 onePixelCache
      [{ exampleCandidate 0 with inliers := [(3, 0)] },
       { exampleCandidate 1 with inliers := [(3, 0)] }] = .ok r ∧
      r.final.m_featurePredictions 0 = some (filterModes (examplePrediction 0)) :=
    ⟨_, by with_unfolding_all rfl, by with_unfolding_all rfl⟩
  obtain ⟨r, h1, h2⟩ := h
  exact ⟨r, h1, rfl, h2, rfl,
    (cached_predictions_kept exampleEnv).2.2.2.1 exampleConfig 1 onePixelCache _ r h1 3 _ rfl⟩


/-! ## C16: refinement needs four accepted correspondences -/

/-- C16: when the working set built from the inliers of a candidate has fewer than four
accepted correspondences, `update_candidate_pose` returns `false` and the candidate, its pose
included, is unchanged. -/
theorem update_candidate_pose_too_few (env : Env) (cfg : Config) (cache : PredictionCache)
    (c : PoseCandidate) (pts : List PointForLM)
    (hpts : pointsForLM env cache c.cameraPose c.inliers = .ok pts) (hfew : pts.length < 4) :
    update_candidate_pose env cfg cache c = .ok (false, c) := by
  unfold update_candidate_pose
  simp only [hpts]
  rw [if_neg (by omega)]

theorem update_candidate_pose_too_few_witness :
    ∃ pts, pointsForLM exampleEnv exampleCache (exampleCandidate 1).cameraPose
        [(0, 0), (1, 0), (2, 0)] = .ok pts ∧
      pts.length = 3 ∧
      update_candidate_pose exampleEnv constructorConfig exampleCache
          { exampleCandidate 1 with inliers := [(0, 0), (1, 0), (2, 0)] }
        = .ok (false, { exampleCandidate 1 with inliers := [(0, 0), (1, 0), (2, 0)] }) := by
  have h : ∃ pts, pointsForLM exampleEnv exampleCache (exampleCandidate 1).cameraPose
      [(0, 0), (1, 0), (2, 0)] = .ok pts ∧ pts.length = 3 :=
    ⟨_, by with_unfolding_all rfl, by with_unfolding_all rfl⟩
  obtain ⟨pts, h1, h2⟩ := h
  exact ⟨pts, h1, h2,
    update_candidate_pose_too_few exampleEnv constructorConfig exampleCache
      { exampleCandidate 1 with inliers := [(0, 0), (1, 0), (2, 0)] } pts h1 (by omega)⟩

/-! ## More fuel does not change the result of a run -/

theorem sample_slot_mono (env : Env) :
    ∀ (fuel innerIterations : Nat) (st : SamplerState) (r : Bool × SamplerState),
      sample_slot env fuel innerIterations st = .ok r →
      ∀ fuel1, fuel ≤ fuel1 → sample_slot env fuel1 innerIterations st = .ok r
  | 0, innerIterations, st, r, h, fuel1, _ => by
    unfold sample_slot at h
    split at h
    · cases h
    · rename_i hge
      cases fuel1 with
      | zero => unfold sample_slot; rw [if_neg hge]; exact h
      | succ k => unfold sample_slot; rw [if_neg hge]; exact h
  | fuel + 1, innerIterations, st, r, h, fuel1, hle => by
    obtain ⟨k, rfl⟩ : ∃ k, fuel1 = k + 1 := ⟨fuel1 - 1, by omega⟩
    unfold sample_slot at h ⊢
    split
    · rename_i hlt
      rw [if_pos hlt] at h
      cases hatt : sample_attempt env st with
      | error e => rw [hatt] at h; cases h
      | ok p =>
        obtain ⟨v, stA⟩ := p
        rw [hatt] at h
        cases v
        · exact sample_slot_mono env fuel innerIterations stA r h k (by omega)
        · exact h
    · rename_i hge
      rw [if_neg hge] at h
      exact h

theorem sample_batch_mono (env : Env) (fuel fuel1 : Nat) (hle : fuel ≤ fuel1) :
    ∀ (remaining : Nat) (st r : SamplerState),
      sample_batch env fuel remaining st = .ok r → sample_batch env fuel1 remaining st = .ok r
  | 0, st, r, h => by
    unfold sample_batch at h ⊢
    exact h
  | remaining + 1, st, r, h => by
    unfold sample_batch at h ⊢
    cases hslot : sample_slot env fuel 0 st with
    | error e => rw [hslot] at h; cases h
    | ok p =>
      obtain ⟨v, stA⟩ := p
      rw [hslot] at h
      rw [sample_slot_mono env fuel 0 st _ hslot fuel1 hle]
      cases v
      · exact h
      · exact sample_batch_mono env fuel fuel1 hle remaining stA r h

theorem sample_pixels_for_ransac_mono (env : Env) (fuel fuel1 : Nat) (hle : fuel ≤ fuel1)
    (st r : SamplerState) (batchSize : Nat)
    (h : sample_pixels_for_ransac env fuel st batchSize = .ok r) :
    sample_pixels_for_ransac env fuel1 st batchSize = .ok r := by
  unfold sample_pixels_for_ransac at h ⊢
  split
  · rename_i hdims
    rw [if_pos hdims] at h
    cases h
  · rename_i hdims
    rw [if_neg hdims] at h
    exact sample_batch_mono env fuel fuel1 hle batchSize st r h

theorem trim_evaluate_mono (env : Env) (cfg : Config) (fuel fuel1 : Nat) (hle : fuel ≤ fuel1)
    (st r : RansacState) (h : trim_evaluate env cfg fuel st = .ok r) :
    trim_evaluate env cfg fuel1 st = .ok r := by
  unfold trim_evaluate at h ⊢
  cases hs : sample_pixels_for_ransac env fuel
      { m_featurePredictions := st.m_featurePredictions, maskSampledPixels := [],
        sampledPixelIdx := [], eng := st.random_engine } cfg.m_batchSizeRansac with
  | error e => rw [hs] at h; cases h
  | ok sampled =>
    rw [hs] at h
    rw [sample_pixels_for_ransac_mono env fuel fuel1 hle _ sampled _ hs]
    exact h

theorem first_trim_mono (env : Env) (cfg : Config) (fuel fuel1 : Nat) (hle : fuel ≤ fuel1)
    (st r : RansacState) (h : first_trim env cfg fuel st = .ok r) :
    first_trim env cfg fuel1 st = .ok r := by
  unfold first_trim at h ⊢
  split
  · rename_i hlt
    rw [if_pos hlt] at h
    cases hev : trim_evaluate env cfg fuel st with
    | error e => simp only [hev] at h; cases h
    | ok ev =>
      simp only [hev] at h
      simp only [trim_evaluate_mono env cfg fuel fuel1 hle st ev hev]
      exact h
  · rename_i hge
    rw [if_neg hge] at h
    exact h

theorem round_scored_mono (env : Env) (cfg : Config) (fuel fuel1 : Nat) (hle : fuel ≤ fuel1)
    (st r : RansacState) (h : round_scored env cfg fuel st = .ok r) :
    round_scored env cfg fuel1 st = .ok r := by
  unfold round_scored at h ⊢
  cases hs : sample_pixels_for_ransac env fuel
      { m_featurePredictions := st.m_featurePredictions,
        maskSampledPixels := st.maskSampledPixels,
        sampledPixelIdx := [], eng := st.random_engine } cfg.m_batchSizeRansac with
  | error e => rw [hs] at h; cases h
  | ok sampled =>
    rw [hs] at h
    rw [sample_pixels_for_ransac_mono env fuel fuel1 hle _ sampled _ hs]
    exact h

theorem tournament_round_mono (env : Env) (cfg : Config) (fuel fuel1 : Nat) (hle : fuel ≤ fuel1)
    (st r : RansacState) (h : tournament_round env cfg fuel st = .ok r) :
    tournament_round env cfg fuel1 st = .ok r := by
  unfold tournament_round at h ⊢
  cases hs : round_scored env cfg fuel st with
  | error e => rw [hs] at h; cases h
  | ok sc =>
    rw [hs] at h
    rw [round_scored_mono env cfg fuel fuel1 hle st sc hs]
    exact h

theorem tournament_loop_mono (env : Env) (cfg : Config) (fuel fuel1 : Nat) (hle : fuel ≤ fuel1) :
    ∀ (rounds : Nat) (st r : RansacState),
      tournament_loop env cfg fuel rounds st = .ok r →
      tournament_loop env cfg fuel1 rounds st = .ok r
  | 0, st, r, h => by
    unfold tournament_loop at h ⊢
    exact h
  | rounds + 1, st, r, h => by
    unfold tournament_loop at h ⊢
    split
    · rename_i hgt
      rw [if_pos hgt] at h
      cases hs : tournament_round env cfg fuel st with
      | error e => rw [hs] at h; cases h
      | ok st1 =>
        rw [hs] at h
        rw [tournament_round_mono env cfg fuel fuel1 hle st st1 hs]
        exact tournament_loop_mono env cfg fuel fuel1 hle rounds st1 r h
    · rename_i hle1
      rw [if_neg hle1] at h
      exact h

theorem estimate_pose_mono (env : Env) (cfg : Config) (fuel fuel1 : Nat) (hle : fuel ≤ fuel1)
    (cache : PredictionCache) (candidates : List PoseCandidate) (r : EstimateResult)
    (h : estimate_pose env cfg fuel cache candidates = .ok r) :
    estimate_pose env cfg fuel1 cache candidates = .ok r := by
  unfold estimate_pose at h ⊢
  cases ht : first_trim env cfg fuel (entryState env cache candidates) with
  | error e => rw [ht] at h; cases h
  | ok trimmed =>
    rw [ht] at h
    rw [first_trim_mono env cfg fuel fuel1 hle _ trimmed ht]
    simp only at h ⊢
    cases hl : tournament_loop env cfg fuel trimmed.candidates.length
        (loop_entry env trimmed) with
    | error e => rw [hl] at h; cases h
    | ok final =>
      rw [hl] at h
      rw [tournament_loop_mono env cfg fuel fuel1 hle _ _ final hl]
      exact h

/-! ## C19: the first trim -/

/-- C19: when the pool is larger than the trim threshold, the threshold exceeds one and all
candidates of the pool have the same number of inliers (as in every pool that
`generate_pose_candidates` hands over, where each candidate has
`m_nbPointsForKabschBoostrap` inliers), a completed first trim leaves exactly as many
candidates as the threshold; they are, in order, the front of the pool sorted by the energies
of the evaluation round (in ascending order, none above a dropped candidate), and each
survivor is the initial candidate it was evaluated from, with that candidate's inlier list,
pose and id, and the energy of the evaluation round. -/
theorem first_trim_keeps_lowest (env : Env) (cfg : Config) (fuel : Nat)
    (st trimmed : RansacState)
    (hsize : cfg.m_trimKinitAfterFirstEnergyComputation < st.candidates.length)
    (hT : 1 < cfg.m_trimKinitAfterFirstEnergyComputation)
    (huniform : ∀ c ∈ st.candidates, ∀ d ∈ st.candidates, c.inliers.length = d.inliers.length)
    (h : first_trim env cfg fuel st = .ok trimmed) :
    trimmed.candidates.length = cfg.m_trimKinitAfterFirstEnergyComputation ∧
    ∃ (sampled : SamplerState) (sorted : List PoseCandidate),
      sample_pixels_for_ransac env fuel
        { m_featurePredictions := st.m_featurePredictions, maskSampledPixels := [],
          sampledPixelIdx := [], eng := st.random_engine } cfg.m_batchSizeRansac = .ok sampled ∧
      compute_and_sort_energies env sampled.m_featurePredictions
        (update_inliers_for_optimization env sampled.sampledPixelIdx st.candidates)
          = .ok sorted ∧
      sorted.length = st.candidates.length ∧
      sorted.Pairwise (fun a b => a.energy ≤ b.energy) ∧
      (∀ s ∈ sorted.take cfg.m_trimKinitAfterFirstEnergyComputation,
        ∀ d ∈ sorted.drop cfg.m_trimKinitAfterFirstEnergyComputation, s.energy ≤ d.energy) ∧
      List.Forall₂
        (fun e s => ∃ c ∈ st.candidates,
          e = { c with inliers := c.inliers ++ sampledInliers env sampled.sampledPixelIdx,
                       energy := e.energy } ∧
          compute_pose_energy env sampled.m_featurePredictions c.cameraPose
            (c.inliers ++ sampledInliers env sampled.sampledPixelIdx) = .ok e.energy ∧
          s = { c with energy := e.energy })
        (sorted.take cfg.m_trimKinitAfterFirstEnergyComputation) trimmed.candidates := by
  obtain ⟨cands, cache, mask, eng, iteration⟩ := st
  cases cands with
  | nil => simp at hsize
  | cons c0 rest =>
    unfold first_trim at h
    rw [if_pos hsize] at h
    simp only at h
    split at h
    · cases h
    · rename_i ev hev
      rw [if_pos hT] at h
      cases h
      unfold trim_evaluate at hev
      split at hev
      · cases hev
      · rename_i sampled hsampled
        split at hev
        · cases hev
        · rename_i sorted hsorted
          cases hev
          obtain ⟨scored, hscored, hperm, hpair⟩ :=
            compute_and_sort_energies_sorted env _ _ _ hsorted
          have hlen : sorted.length = (c0 :: rest).length := by
            rw [hperm.length_eq, ← hscored.length_eq]
            simp [update_inliers_for_optimization]
          refine ⟨?_, sampled, sorted, hsampled, hsorted, hlen, hpair, ?_, ?_⟩
          · simp only [trim_inliers_length, List.length_take, hlen]
            simp only at hsize
            omega
          · have hp := hpair
            rw [← List.take_append_drop cfg.m_trimKinitAfterFirstEnergyComputation sorted] at hp
            exact (List.pairwise_append.mp hp).2.2
          · simp only [trim_inliers]
            rw [List.forall₂_map_right_iff, List.forall₂_same]
            intro e he
            obtain ⟨u, hu, hsc⟩ :=
              forall₂_exists_left hscored e (hperm.mem_iff.mp (List.mem_of_mem_take he))
            simp only [update_inliers_for_optimization, List.mem_map] at hu
            obtain ⟨c, hc, rfl⟩ := hu
            have hLc : c.inliers.length = c0.inliers.length :=
              huniform c hc c0 (List.mem_cons_self _ _)
            obtain ⟨heq, hen⟩ := hsc
            refine ⟨c, hc, heq, hen, ?_⟩
            obtain ⟨ep, ei, ee, eid⟩ := e
            simp only [PoseCandidate.mk.injEq] at heq
            obtain ⟨hp1, hi1, -, hid1⟩ := heq
            subst hp1 hi1 hid1
            split
            · simp only [PoseCandidate.mk.injEq, true_and, and_true]
              rw [← hLc]
              exact List.take_left _ _
            · rename_i hle
              simp only [List.length_append, gt_iff_lt, not_lt] at hle
              have hnil : sampledInliers env sampled.sampledPixelIdx = [] :=
                List.length_eq_zero.mp (by omega)
              simp only [hnil, List.append_nil]

set_option maxRecDepth 4000 in
theorem first_trim_keeps_lowest_witness :
    ∃ generated trimmed,
      generate_pose_candidates exampleEnv smallTrimConfig exampleGenerator 20
        = .ok generated ∧
      generated.poseCandidates.map PoseCandidate.inliers
        = [[(1, 0), (0, 0), (3, 0)], [(2, 0), (1, 0), (0, 0)], [(3, 0), (2, 0), (1, 0)],
            [(0, 0), (3, 0), (2, 0)]] ∧
      first_trim exampleEnv smallTrimConfig 3
        (entryState exampleEnv generated.m_featurePredictions generated.poseCandidates)
          = .ok trimmed ∧
      trimmed.candidates.map PoseCandidate.cameraId = [0, 1] ∧
      trimmed.candidates.map PoseCandidate.inliers
        = [[(1, 0), (0, 0), (3, 0)], [(2, 0), (1, 0), (0, 0)]] ∧
      trimmed.candidates.length = 2 := by
  have h : ∃ generated trimmed,
      generate_pose_candidates exampleEnv smallTrimConfig exampleGenerator 20
        = .ok generated ∧
      generated.poseCandidates.map PoseCandidate.inliers
        = [[(1, 0), (0, 0), (3, 0)], [(2, 0), (1, 0), (0, 0)], [(3, 0), (2, 0), (1, 0)],
            [(0, 0), (3, 0), (2, 0)]] ∧
      first_trim exampleEnv smallTrimConfig 3
        (entryState exampleEnv generated.m_featurePredictions generated.poseCandidates)
          = .ok trimmed ∧
      trimmed.candidates.map PoseCandidate.cameraId = [0, 1] ∧
      trimmed.candidates.map PoseCandidate.inliers
        = [[(1, 0), (0, 0), (3, 0)], [(2, 0), (1, 0), (0, 0)]] :=
    ⟨_, _, by with_unfolding_all rfl, by with_unfolding_all rfl, by with_unfolding_all rfl,
      by with_unfolding_all rfl, by with_unfolding_all rfl⟩
  obtain ⟨generated, trimmed, h1, h2, h3, h4, h5⟩ := h
  have hlen : generated.poseCandidates.length = 4 := by
    have := congrArg List.length h2
    simpa using this
  have hpool := (generate_pose_candidates_poolUpTo exampleEnv smallTrimConfig exampleGenerator
    20 generated h1).2
  exact ⟨generated, trimmed, h1, h2, h3, h4, h5,
    (first_trim_keeps_lowest exampleEnv smallTrimConfig 3
      (entryState exampleEnv generated.m_featurePredictions generated.poseCandidates) trimmed
      (by
        show 2 < generated.poseCandidates.length
        omega)
      (by decide)
      (fun c hc d hd => (hpool c hc).trans (hpool d hd).symm)
      h3).1⟩


/-! ## C20: the energy as a formula -/

theorem energy_loop_fst (env : Env) (cache : PredictionCache) (pose : Matrix4f) :
    ∀ (l1 l2 : List (Nat × Int)) (energy : ℚ), l1.map Prod.fst = l2.map Prod.fst →
      energy_loop env cache pose l1 energy = energy_loop env cache pose l2 energy
  | [], [], _, _ => rfl
  | [], _ :: _, _, h => by simp at h
  | _ :: _, [], _, h => by simp at h
  | s1 :: rest1, s2 :: rest2, energy, h => by
    simp only [List.map_cons, List.cons.injEq] at h
    obtain ⟨hs, hrest⟩ := h
    unfold energy_loop
    rw [hs]
    cases inlier_energy env cache pose s2.1 with
    | error e => rfl
    | ok term =>
      cases term with
      | none => exact energy_loop_fst env cache pose rest1 rest2 energy hrest
      | some t => exact energy_loop_fst env cache pose rest1 rest2 (energy + t) hrest

/-- C21: two inlier lists with the same pixel indices in the same order give the same result
of `compute_pose_energy`, whatever mode indices they record. -/
theorem compute_pose_energy_ignores_modes (env : Env) (cache : PredictionCache)
    (pose : Matrix4f) (l1 l2 : List (Nat × Int)) (h : l1.map Prod.fst = l2.map Prod.fst) :
    compute_pose_energy env cache pose l1 = compute_pose_energy env cache pose l2 := by
  have hlen : l1.length = l2.length := by
    have := congrArg List.length h
    simpa using this
  unfold compute_pose_energy
  rw [energy_loop_fst env cache pose l1 l2 0 h, hlen]

theorem compute_pose_energy_ignores_modes_witness :
    compute_pose_energy exampleEnv exampleCache (exampleCandidate 1).cameraPose
        [(0, 0), (1, -1), (2, 1)] = .ok (-199 / 43200) ∧
    compute_pose_energy exampleEnv exampleCache (exampleCandidate 1).cameraPose
        [(0, 0), (1, -1), (2, 1)]
      = compute_pose_energy exampleEnv exampleCache (exampleCandidate 1).cameraPose
        [(0, -1), (1, 7), (2, 0)] :=
  ⟨by with_unfolding_all rfl,
    compute_pose_energy_ignores_modes exampleEnv exampleCache (exampleCandidate 1).cameraPose
      [(0, 0), (1, -1), (2, 1)] [(0, -1), (1, 7), (2, 0)] (by decide)⟩

/-! ## C25: refinement changes the pose only -/

/-- C25: whatever `update_candidate_pose` returns, the candidate it leaves has the inlier
list, the id and the energy it had before; only the pose may differ. -/
theorem update_candidate_pose_keeps_inliers (env : Env) (cfg : Config)
    (cache : PredictionCache) (c r : PoseCandidate) (b : Bool)
    (h : update_candidate_pose env cfg cache c = .ok (b, r)) :
    r.inliers = c.inliers ∧ r.cameraId = c.cameraId ∧ r.energy = c.energy := by
  have hsame := update_candidate_pose_same env cfg cache c r b h
  unfold SameButPose at hsame
  rw [hsame]
  exact ⟨rfl, rfl, rfl⟩

theorem update_candidate_pose_keeps_inliers_witness :
    ∃ r, update_candidate_pose exampleEnv constructorConfig exampleCache
        exampleCandidateFourInliers = .ok (true, r) ∧
      r.cameraPose ≠ exampleCandidateFourInliers.cameraPose ∧
      r.inliers = exampleCandidateFourInliers.inliers ∧
      r.cameraId = exampleCandidateFourInliers.cameraId ∧
      r.energy = exampleCandidateFourInliers.energy := by
  have h : ∃ r, update_candidate_pose exampleEnv constructorConfig exampleCache
      exampleCandidateFourInliers = .ok (true, r) ∧
      r.cameraPose ≠ exampleCandidateFourInliers.cameraPose :=
    ⟨_, by with_unfolding_all rfl, by with_unfolding_all decide⟩
  obtain ⟨r, h1, h2⟩ := h
  exact ⟨r, h1, h2,
    update_candidate_pose_keeps_inliers exampleEnv constructorConfig exampleCache
      exampleCandidateFourInliers r true h1⟩


/-! ## C24: the inliers appended for the sampled pixels -/

theorem push_samples_eq (env : Env) :
    ∀ (sampledPixelIdx : List (Nat × Nat)) (inliers : List (Nat × Int)),
      push_samples env sampledPixelIdx inliers
        = inliers ++ sampledPixelIdx.map (fun s => (s.2 * env.width + s.1, (-1 : Int)))
  | [], inliers => by simp [push_samples]
  | s :: rest, inliers => by
    unfold push_samples
    simp only
    rw [push_samples_eq env rest]
    simp

theorem update_inliers_loop_eq (env : Env) (sampledPixelIdx : List (Nat × Nat)) :
    ∀ poseCandidates : List PoseCandidate,
      update_inliers_loop env sampledPixelIdx poseCandidates
        = update_inliers_for_optimization env sampledPixelIdx poseCandidates
  | [] => rfl
  | c :: rest => by
    unfold update_inliers_loop
    rw [update_inliers_loop_eq env sampledPixelIdx rest, push_samples_eq]
    rfl

/-- C24: for every list of sampled pixels and every pool, the two loops of
`update_inliers_for_optimization` leave a pool of the same length in which every candidate
has its old inlier list followed by one entry `(y * width + x, -1)` per sampled pixel
`(x, y)`, in order, and the pose, energy and id it had. -/
theorem update_inliers_appends_samples (env : Env) (sampledPixelIdx : List (Nat × Nat))
    (poseCandidates : List PoseCandidate) :
    update_inliers_loop env sampledPixelIdx poseCandidates
      = update_inliers_for_optimization env sampledPixelIdx poseCandidates ∧
    List.Forall₂
      (fun c c1 : PoseCandidate =>
        c1.inliers
          = c.inliers ++ sampledPixelIdx.map (fun s => (s.2 * env.width + s.1, (-1 : Int))) ∧
        c1.cameraPose = c.cameraPose ∧ c1.energy = c.energy ∧ c1.cameraId = c.cameraId)
      poseCandidates (update_inliers_loop env sampledPixelIdx poseCandidates) := by
  refine ⟨update_inliers_loop_eq env sampledPixelIdx poseCandidates, ?_⟩
  induction poseCandidates with
  | nil => exact List.Forall₂.nil
  | cons c rest ih =>
    unfold update_inliers_loop
    exact List.Forall₂.cons ⟨push_samples_eq env sampledPixelIdx c.inliers, rfl, rfl, rfl⟩ ih

/-! ## C23: the refinement energy without covariances -/

theorem foldl_add_eq_sum {α : Type} (f : α → ℚ) :
    ∀ (l : List α) (a : ℚ), l.foldl (fun res x => res + f x) a = a + (l.map f).sum
  | [], a => by simp
  | x :: rest, a => by
    simp only [List.foldl_cons, List.map_cons, List.sum_cons]
    rw [foldl_add_eq_sum f rest (a + f x), add_assoc]

/-- The value of `EnergyForContinuous3DOptimizationUsingL2` is the sum, over the
correspondences, of the square of the Euclidean distance between the transformed local point
and its mode mean (`err = diff.norm(); err *= err;`); when the square root is exact on the
squared distances that occur, this is the sum of the squared distances themselves. -/
theorem L2_energy_sums_squares (env : Env) (pts : List PointForLM) (pose : Matrix4f) :
    EnergyForContinuous3DOptimizationUsingL2 env pts pose
      = (pts.map (fun pt => specDistance env pose pt * specDistance env pose pt)).sum ∧
    ((∀ pt ∈ pts, env.sqrt (squaredResidual env pose pt) * env.sqrt (squaredResidual env pose pt)
        = squaredResidual env pose pt) →
      EnergyForContinuous3DOptimizationUsingL2 env pts pose
        = (pts.map (squaredResidual env pose)).sum) := by
  have hmain : EnergyForContinuous3DOptimizationUsingL2 env pts pose
      = (pts.map (fun pt => specDistance env pose pt * specDistance env pose pt)).sum := by
    have hfold := foldl_add_eq_sum
      (fun pt => specDistance env pose pt * specDistance env pose pt) pts 0
    rw [zero_add] at hfold
    exact hfold
  refine ⟨hmain, fun hexact => ?_⟩
  rw [hmain]
  congr 1
  refine List.map_congr_left (fun pt hpt => ?_)
  exact hexact pt hpt

theorem L2_energy_sums_squares_witness :
    EnergyForContinuous3DOptimizationUsingL2 rootEnv farPoints (rigidTransform 1 ![0, 0, 0])
      = (farPoints.map (squaredResidual rootEnv (rigidTransform 1 ![0, 0, 0]))).sum ∧
    (farPoints.map (squaredResidual rootEnv (rigidTransform 1 ![0, 0, 0]))).sum = 8 :=
  ⟨(L2_energy_sums_squares rootEnv farPoints (rigidTransform 1 ![0, 0, 0])).2
      (by
        intro pt hpt
        simp only [farPoints, List.mem_cons, List.mem_singleton, List.not_mem_nil,
          or_false] at hpt
        rcases hpt with rfl | rfl <;> with_unfolding_all rfl),
    by with_unfolding_all rfl⟩

/-- C23 (the code on the failing input): of the routines "to optimize the sum of 3D L2
distances", `EnergyForContinuous3DOptimizationUsingL2` squares each distance before adding
it, for every working set. For two correspondences whose transformed local points lie at
distance `2` from their mode mean, the sum of the plain Euclidean distances is `4`, which is
also what the sibling `EnergyForContinuous3DOptimizationUsingFullCovariance` returns with
unit covariances, and `EnergyForContinuous3DOptimizationUsingL2` returns `8`. -/
theorem L2_energy_not_plain_distance :
    (∀ (env : Env) (pts : List PointForLM) (pose : Matrix4f),
      EnergyForContinuous3DOptimizationUsingL2 env pts pose
        = (pts.map (fun pt => specDistance env pose pt * specDistance env pose pt)).sum) ∧
    specL2Energy rootEnv farPoints (rigidTransform 1 ![0, 0, 0]) = 4 ∧
    EnergyForContinuous3DOptimizationUsingFullCovariance rootEnv farPoints
      (rigidTransform 1 ![0, 0, 0]) = 4 ∧
    farPoints.map (specDistance rootEnv (rigidTransform 1 ![0, 0, 0])) = [2, 2] ∧
    EnergyForContinuous3DOptimizationUsingL2 rootEnv farPoints (rigidTransform 1 ![0, 0, 0])
      = 8 ∧
    refinementEnergy rootEnv
        { constructorConfig with m_usePredictionCovarianceForPoseOptimization := false }
        farPoints (rigidTransform 1 ![0, 0, 0]) = 8 :=
  ⟨fun env pts pose => (L2_energy_sums_squares env pts pose).1,
    by with_unfolding_all rfl, by with_unfolding_all rfl, by with_unfolding_all rfl,
    by with_unfolding_all rfl, by with_unfolding_all rfl⟩


/-! ## C22: the energy is at most ten -/

theorem supports_cons (mode : List PredictedGaussianMean)
    (rest : List (List PredictedGaussianMean)) (g : PredictedGaussianMean)
    (hg : mode[0]? = some g) :
    supports { _modes := mode :: rest } = g._nbPoints :: supports { _modes := rest } := by
  simp [supports, List.filterMap_cons, hg]

theorem supports_length (modes : List (List PredictedGaussianMean))
    (hcomp : ∀ m ∈ modes, m ≠ []) : (supports { _modes := modes }).length = modes.length := by
  induction modes with
  | nil => rfl
  | cons mode rest ih =>
    cases mode with
    | nil => exact absurd rfl (hcomp [] (List.mem_cons_self _ _))
    | cons g tail =>
      rw [supports_cons (g :: tail) rest g (by simp)]
      simp [ih (fun m hm => hcomp m (List.mem_cons_of_mem _ hm))]

/-- What the loop of `first_tree_boundary` returns on modes that all have a first component:
position `j` of the remaining modes is the first whose support exceeds the one before it
(`prevNbPointsPerMode` for `j = 0`), or there is no such position. -/
theorem first_tree_boundary_spec :
    ∀ (modes : List (List PredictedGaussianMean)) (i : Nat) (prev : Int),
      (∀ m ∈ modes, m ≠ []) →
      ∃ res, first_tree_boundary modes i prev = .ok res ∧
        ((res = none ∧ ∀ j < (supports { _modes := modes }).length,
            (supports { _modes := modes }).getD j 0
              ≤ (prev :: supports { _modes := modes }).getD j 0) ∨
          ∃ j, res = some (i + j) ∧ j < (supports { _modes := modes }).length ∧
            (∀ j1 < j, (supports { _modes := modes }).getD j1 0
              ≤ (prev :: supports { _modes := modes }).getD j1 0) ∧
            (supports { _modes := modes }).getD j 0
              > (prev :: supports { _modes := modes }).getD j 0)
  | [], i, prev, _ => by
    refine ⟨none, rfl, Or.inl ⟨rfl, ?_⟩⟩
    intro j hj
    simp [supports] at hj
  | mode :: rest, i, prev, hcomp => by
    cases mode with
    | nil => exact absurd rfl (hcomp [] (List.mem_cons_self _ _))
    | cons g tail =>
      have hsup := supports_cons (g :: tail) rest g (by simp)
      unfold first_tree_boundary
      simp only [List.getElem?_cons_zero]
      by_cases hgt : g._nbPoints > prev
      · rw [if_pos hgt]
        refine ⟨some i, rfl, Or.inr ⟨0, rfl, ?_, ?_, ?_⟩⟩
        · rw [hsup]
          simp
        · intro j1 hj1
          omega
        · rw [hsup]
          simpa using hgt
      · rw [if_neg hgt]
        obtain ⟨res, hres, hcases⟩ := first_tree_boundary_spec rest (i + 1) g._nbPoints
          (fun m hm => hcomp m (List.mem_cons_of_mem _ hm))
        refine ⟨res, hres, ?_⟩
        have hstep : ∀ j : Nat,
            (supports { _modes := rest }).getD j 0
                ≤ (g._nbPoints :: supports { _modes := rest }).getD j 0 →
              (supports { _modes := (g :: tail) :: rest }).getD (j + 1) 0
                ≤ (prev :: supports { _modes := (g :: tail) :: rest }).getD (j + 1) 0 := by
          intro j hj
          rw [hsup]
          simpa using hj
        have hzero : (supports { _modes := (g :: tail) :: rest }).getD 0 0
            ≤ (prev :: supports { _modes := (g :: tail) :: rest }).getD 0 0 := by
          rw [hsup]
          simp only [List.getD_cons_zero]
          omega
        rcases hcases with ⟨hnone, hall⟩ | ⟨j, hsome, hj, hbefore, hrise⟩
        · refine Or.inl ⟨hnone, ?_⟩
          intro j hj
          cases j with
          | zero => exact hzero
          | succ j1 =>
            refine hstep j1 (hall j1 ?_)
            rw [hsup] at hj
            simpa using hj
        · refine Or.inr ⟨j + 1, ?_, ?_, ?_, ?_⟩
          · rw [hsome]
            congr 1
            omega
          · rw [hsup]
            simpa using hj
          · intro j1 hj1
            cases j1 with
            | zero => exact hzero
            | succ j2 => exact hstep j2 (hbefore j2 (by omega))
          · rw [hsup]
            simpa using hrise

theorem select_mode_below (cfg : Config) (k : Nat) (hk : 1 ≤ k) (eng : Mt19937) :
    ∃ m eng1, select_mode cfg k eng = .ok (m, eng1) ∧ m < k := by
  unfold select_mode
  by_cases hall : cfg.m_useAllModesPerLeafInPoseHypothesisGeneration = true
  · rw [if_pos hall, if_neg (by omega)]
    exact ⟨_, _, rfl, Nat.mod_lt _ (by omega)⟩
  · rw [if_neg hall]
    exact ⟨0, eng, rfl, by omega⟩

/-- The result of `nbModesInFirstTree` on a prediction whose modes all have a first component
and whose first support count is in the range of `int`. -/
theorem nbModesInFirstTree_spec (pred : EnsemblePredictionGaussianMean)
    (hcomp : ∀ m ∈ pred._modes, m ≠ [])
    (hrange : ∀ n ∈ supports pred, n ≤ INT_MAX) :
    ∃ k, nbModesInFirstTree pred = .ok k ∧ specIsFirstTreeCount (supports pred) k ∧
      k ≤ pred._modes.length ∧ (pred._modes ≠ [] → 1 ≤ k) := by
  obtain ⟨modes⟩ := pred
  have hlen := supports_length modes hcomp
  obtain ⟨res, hres, hcases⟩ := first_tree_boundary_spec modes 0 INT_MAX hcomp
  have hshift : ∀ j : Nat, 1 ≤ j →
      (INT_MAX :: supports { _modes := modes }).getD j 0
        = (supports { _modes := modes }).getD (j - 1) 0 := by
    intro j hj
    obtain ⟨j1, rfl⟩ : ∃ j1, j = j1 + 1 := ⟨j - 1, by omega⟩
    simp
  rcases hcases with ⟨hnone, hall⟩ | ⟨j, hsome, hj, hbefore, hrise⟩
  · refine ⟨modes.length, ?_, ⟨?_, Or.inl hlen.symm⟩, le_refl _, ?_⟩
    · unfold nbModesInFirstTree
      simp only [hres, hnone]
    · intro i hi h1
      have := hall i (by omega)
      rwa [hshift i h1] at this
    · intro hne
      exact List.length_pos.mpr hne
  · have hj1 : 1 ≤ j := by
      by_contra hcontra
      have hj0 : j = 0 := by omega
      subst hj0
      have hmem : (supports { _modes := modes }).getD 0 0 ∈ supports { _modes := modes } := by
        rw [List.getD_eq_getElem _ _ hj]
        exact List.getElem_mem _
      have := hrange _ hmem
      simp only [List.getD_cons_zero] at hrise
      omega
    have hjlen : j ≤ modes.length := by
      rw [hlen] at hj
      exact Nat.le_of_lt hj
    refine ⟨j, ?_, ⟨?_, Or.inr ⟨hj1, hj, ?_⟩⟩, hjlen, fun _ => hj1⟩
    · unfold nbModesInFirstTree
      simp only [hres, hsome, Nat.zero_add]
    · intro i hi h1
      have := hbefore i hi
      rwa [hshift i h1] at this
    · rwa [hshift j hj1] at hrise

/-- C26: for a prediction with a non-empty mode list, all modes with a first component and
support counts in the range of `int`, `nbModesInFirstTree` returns the smallest index `i ≥ 1`
at which the support count of mode `i` exceeds that of mode `i - 1`, or the number of modes
when there is no such index; the value lies between `1` and the number of modes, and the
mode index that `select_mode` then chooses is below it. -/
theorem nbModesInFirstTree_first_rise (cfg : Config) (pred : EnsemblePredictionGaussianMean)
    (hne : pred._modes ≠ []) (hcomp : ∀ m ∈ pred._modes, m ≠ [])
    (hrange : ∀ n ∈ supports pred, n ≤ INT_MAX) :
    (supports pred).length = pred._modes.length ∧
    ∃ k, nbModesInFirstTree pred = .ok k ∧ specIsFirstTreeCount (supports pred) k ∧
      1 ≤ k ∧ k ≤ pred._modes.length ∧
      ∀ eng, ∃ m eng1, select_mode cfg k eng = .ok (m, eng1) ∧ m < k := by
  obtain ⟨k, hk, hspec, hle, hpos⟩ := nbModesInFirstTree_spec pred hcomp hrange
  exact ⟨supports_length pred._modes hcomp, k, hk, hspec, hpos hne, hle,
    select_mode_below cfg k (hpos hne)⟩

theorem nbModesInFirstTree_first_rise_witness :
    supports twoTreesPrediction = [10, 5, 7, 2] ∧
    nbModesInFirstTree twoTreesPrediction = .ok 2 ∧
    specIsFirstTreeCount (supports twoTreesPrediction) 2 ∧
    ∃ k, nbModesInFirstTree twoTreesPrediction = .ok k ∧
      specIsFirstTreeCount (supports twoTreesPrediction) k ∧
      1 ≤ k ∧ k ≤ twoTreesPrediction._modes.length ∧
      ∀ eng, ∃ m eng1, select_mode constructorConfig k eng = .ok (m, eng1) ∧ m < k :=
  ⟨by decide, by with_unfolding_all rfl, by decide,
    (nbModesInFirstTree_first_rise constructorConfig twoTreesPrediction (by decide)
      (by decide) (by decide)).2⟩


theorem sorted_getD_le (s : List Int) (hsorted : s.Sorted (fun a b => a ≥ b)) (k : Nat)
    (hk : 1 ≤ k) (hlen : k < s.length) : s.getD k 0 ≤ s.getD (k - 1) 0 := by
  have hlen1 : k - 1 < s.length := by omega
  rw [List.getD_eq_getElem _ _ hlen, List.getD_eq_getElem _ _ hlen1]
  exact List.pairwise_iff_getElem.mp hsorted (k - 1) k hlen1 hlen (by omega)

/-- C30: for a prediction whose support counts are in non-increasing order (all modes with a
first component, counts in the range of `int`), `nbModesInFirstTree` finds no boundary and
returns the number of modes; with `m_useAllModesPerLeafInPoseHypothesisGeneration` set and a
non-empty mode list the mode index is then a draw of the distribution over all modes, and
every mode index can be drawn. -/
theorem nbModesInFirstTree_of_sorted (cfg : Config) (pred : EnsemblePredictionGaussianMean)
    (hcomp : ∀ m ∈ pred._modes, m ≠ []) (hrange : ∀ n ∈ supports pred, n ≤ INT_MAX)
    (hsorted : (supports pred).Sorted (fun a b => a ≥ b)) :
    first_tree_boundary pred._modes 0 INT_MAX = .ok none ∧
    nbModesInFirstTree pred = .ok pred._modes.length ∧
    (cfg.m_useAllModesPerLeafInPoseHypothesisGeneration = true → pred._modes ≠ [] →
      (∀ eng, select_mode cfg pred._modes.length eng
        = .ok (uniform_int_distribution pred._modes.length eng)) ∧
      ∀ m < pred._modes.length, ∃ eng eng1,
        select_mode cfg pred._modes.length eng = .ok (m, eng1)) := by
  have hlen := supports_length pred._modes hcomp
  have hnone : first_tree_boundary pred._modes 0 INT_MAX = .ok none := by
    obtain ⟨res, hres, hcases⟩ := first_tree_boundary_spec pred._modes 0 INT_MAX hcomp
    rcases hcases with ⟨hn, -⟩ | ⟨j, -, hj, -, hrise⟩
    · rw [hres, hn]
    · exfalso
      cases j with
      | zero =>
        have hmem : (supports { _modes := pred._modes }).getD 0 0
            ∈ supports { _modes := pred._modes } := by
          rw [List.getD_eq_getElem _ _ hj]
          exact List.getElem_mem _
        have := hrange _ hmem
        simp only [List.getD_cons_zero] at hrise
        omega
      | succ j1 =>
        have hle := sorted_getD_le (supports { _modes := pred._modes }) hsorted (j1 + 1)
          (by omega) hj
        have hshift : (INT_MAX :: supports { _modes := pred._modes }).getD (j1 + 1) 0
            = (supports { _modes := pred._modes }).getD j1 0 := by simp
        rw [hshift] at hrise
        simp only [Nat.add_sub_cancel] at hle
        omega
  refine ⟨hnone, ?_, ?_⟩
  · unfold nbModesInFirstTree
    simp only [hnone]
  · intro hall hne
    have hpos : 0 < pred._modes.length := List.length_pos.mpr hne
    have hsel : ∀ eng, select_mode cfg pred._modes.length eng
        = .ok (uniform_int_distribution pred._modes.length eng) := by
      intro eng
      unfold select_mode
      rw [if_pos hall, if_neg (by omega)]
    refine ⟨hsel, ?_⟩
    intro m hm
    refine ⟨{ stream := fun _ => m, pos := 0 }, { stream := fun _ => m, pos := 1 }, ?_⟩
    rw [hsel]
    simp only [uniform_int_distribution, Nat.mod_eq_of_lt hm]

theorem nbModesInFirstTree_of_sorted_witness :
    supports descendingPrediction = [10, 5, 5, 2] ∧
    nbModesInFirstTree descendingPrediction = .ok 4 ∧
    select_mode constructorConfig 4 { stream := fun _ => 7, pos := 0 }
      = .ok (3, { stream := fun _ => 7, pos := 1 }) ∧
    nbModesInFirstTree descendingPrediction = .ok descendingPrediction._modes.length :=
  ⟨by decide, by with_unfolding_all rfl, by with_unfolding_all rfl,
    (nbModesInFirstTree_of_sorted constructorConfig descendingPrediction (by decide)
      (by decide) (by decide)).2.1⟩


/-! ## The pixels and modes selected by `hypothesize_pose` -/

theorem distance_comm (env : Env) (a b : Vector3) : distance env a b = distance env b a := by
  unfold distance
  congr 1
  ring

theorem chosenMean_extends {env : Env} {cache cache1 : PredictionCache}
    (hext : CacheExtends env cache cache1) (linearIdx : Nat) (modeIdx : Int) (p : Vector3)
    (h : chosenMean cache linearIdx modeIdx = some p) :
    chosenMean cache1 linearIdx modeIdx = some p := by
  unfold chosenMean at h ⊢
  cases hc : cache linearIdx with
  | none => rw [hc] at h; cases h
  | some pred =>
    rw [cacheExtends_keeps hext linearIdx pred hc]
    rw [hc] at h
    exact h

theorem modesApart_extends {env : Env} {cfg : Config} {cache cache1 : PredictionCache}
    (hext : CacheExtends env cache cache1) (a b : Nat × Int)
    (h : ModesApart env cfg cache a b) : ModesApart env cfg cache1 a b := by
  obtain ⟨pa, pb, ha, hb, hd⟩ := h
  exact ⟨pa, pb, chosenMean_extends hext _ _ pa ha, chosenMean_extends hext _ _ pb hb, hd⟩

theorem cached_prediction_entry (env : Env) (cache cache1 : PredictionCache)
    (linearFeatureIdx : Nat) (pred : EnsemblePredictionGaussianMean)
    (h : cached_prediction env cache linearFeatureIdx = some (pred, cache1)) :
    cache1 linearFeatureIdx = some pred := by
  unfold cached_prediction at h
  split at h
  · rename_i p hp
    cases h
    exact hp
  · split at h
    · cases h
    · cases h
      simp [PredictionCache.store]

theorem farEnough_spec (env : Env) (cfg : Config) (cache : PredictionCache)
    (worldPt : Vector3) :
    ∀ selected : List (Nat × Nat × Nat), farEnough env cfg cache worldPt selected = .ok true →
      ∀ s ∈ selected, ∃ pa, chosenMean cache (selectedInlier env s).1 (selectedInlier env s).2
          = some pa ∧
        cfg.m_minDistanceBetweenSampledModes ≤ distance env pa worldPt
  | [], _, s, hs => by simp at hs
  | (xOther, yOther, modeIdxOther) :: rest, h, s, hs => by
    unfold farEnough at h
    split at h
    · cases h
    · rename_i predOther hpred
      split at h
      · cases h
      · rename_i modeOther hmode
        split at h
        · cases h
        · rename_i hge
          rcases List.mem_cons.mp hs with rfl | hrest
          · refine ⟨modeOther._mean, ?_, not_lt.mp hge⟩
            simp [chosenMean, selectedInlier, hpred, hmode]
          · exact farEnough_spec env cfg cache worldPt rest h s hrest

theorem passes_checks_far (env : Env) (cfg : Config) (cache : PredictionCache)
    (selected : List (Nat × Nat × Nat)) (selectedFeature : RGBDPatchFeature)
    (selectedPrediction : EnsemblePredictionGaussianMean) (selectedModeIdx : Nat)
    (hcheck : cfg.m_checkMinDistanceBetweenSampledModes = true)
    (h : passes_checks env cfg cache selected selectedFeature selectedPrediction
      selectedModeIdx = .ok true) :
    ∃ mode, modeComponent selectedPrediction selectedModeIdx 0 = some mode ∧
      farEnough env cfg cache mode._mean selected = .ok true := by
  unfold passes_checks at h
  simp only [hcheck, if_true] at h
  split at h
  · cases h
  · cases h
  · cases hm : modeComponent selectedPrediction selectedModeIdx 0 with
    | none => simp [hm] at h
    | some mode =>
      simp only [hm] at h
      refine ⟨mode, rfl, ?_⟩
      cases hf : farEnough env cfg cache mode._mean selected with
      | error e => simp [hf] at h
      | ok b =>
        cases b with
        | true => rfl
        | false => simp [hf] at h


/-- What one pass of the inner loop of `hypothesize_pose` does to the selection: nothing, or
it appends a pixel of the image whose prediction is in the cache and passed the checks. -/
theorem hypothesize_attempt_shape (env : Env) (cfg : Config) (st st1 : HypothesisState)
    (hw : 0 < env.width) (hh : 0 < env.height)
    (h : hypothesize_attempt env cfg st = .ok st1) :
    st1.selectedPixelsAndModes = st.selectedPixelsAndModes ∨
    ∃ x y m pred, x < env.width ∧ y < env.height ∧
      st1.selectedPixelsAndModes = st.selectedPixelsAndModes ++ [(x, y, m)] ∧
      st1.m_featurePredictions (y * env.width + x) = some pred ∧
      passes_checks env cfg st1.m_featurePredictions st.selectedPixelsAndModes
        (env.patchFeaturesData (y * env.width + x)) pred m = .ok true := by
  unfold hypothesize_attempt at h
  simp only at h
  split at h
  · cases h
    exact Or.inl rfl
  · split at h
    · cases h
      exact Or.inl rfl
    · rename_i pred cache1 hcached
      have hentry := cached_prediction_entry env _ cache1 _ pred hcached
      split at h
      · cases h
      · split at h
        · cases h
        · rename_i m eng3 hsel
          split at h
          · cases h
          · cases h
            exact Or.inl rfl
          · rename_i hpass
            cases h
            exact Or.inr ⟨_, _, m, pred, Nat.mod_lt _ hw, Nat.mod_lt _ hh, rfl, hentry, hpass⟩

theorem hypothesize_attempt_selected (env : Env) (cfg : Config) (st st1 : HypothesisState)
    (hw : 0 < env.width) (hh : 0 < env.height)
    (h : hypothesize_attempt env cfg st = .ok st1) :
    (SelectedCached env st.m_featurePredictions st.selectedPixelsAndModes →
      SelectedCached env st1.m_featurePredictions st1.selectedPixelsAndModes) ∧
    (cfg.m_checkMinDistanceBetweenSampledModes = true →
      SelectedApart env cfg st.m_featurePredictions st.selectedPixelsAndModes →
      SelectedApart env cfg st1.m_featurePredictions st1.selectedPixelsAndModes) := by
  have hext := hypothesize_attempt_extends env cfg st st1 h
  have hold : SelectedCached env st.m_featurePredictions st.selectedPixelsAndModes →
      SelectedCached env st1.m_featurePredictions st.selectedPixelsAndModes := by
    intro hc s hs
    obtain ⟨h1, h2, pred, hpred⟩ := hc s hs
    exact ⟨h1, h2, pred, cacheExtends_keeps hext _ pred hpred⟩
  have holdApart : SelectedApart env cfg st.m_featurePredictions st.selectedPixelsAndModes →
      SelectedApart env cfg st1.m_featurePredictions st.selectedPixelsAndModes := by
    intro ha
    exact List.Pairwise.imp (fun hab => modesApart_extends hext _ _ hab) ha
  rcases hypothesize_attempt_shape env cfg st st1 hw hh h with hsame | ⟨x, y, m, pred, hx, hy,
    hpush, hentry, hpass⟩
  · rw [hsame]
    exact ⟨hold, fun _ => holdApart⟩
  · rw [hpush]
    refine ⟨?_, ?_⟩
    · intro hc s hs
      rcases List.mem_append.mp hs with hs1 | hs2
      · exact hold hc s hs1
      · rw [List.mem_singleton] at hs2
        subst hs2
        exact ⟨hx, hy, pred, hentry⟩
    · intro hcheck ha
      obtain ⟨mode, hmode, hfar⟩ := passes_checks_far env cfg _ _ _ pred m hcheck hpass
      unfold SelectedApart
      rw [List.map_append, List.pairwise_append]
      refine ⟨holdApart ha, by simp, ?_⟩
      intro a ha1 b hb1
      simp only [List.map_cons, List.map_nil, List.mem_singleton] at hb1
      subst hb1
      obtain ⟨s, hs, rfl⟩ := List.mem_map.mp ha1
      obtain ⟨pa, hpa, hdist⟩ := farEnough_spec env cfg _ _ _ hfar s hs
      refine ⟨pa, mode._mean, hpa, ?_, hdist⟩
      simp [chosenMean, selectedInlier, hentry, hmode]

theorem hypothesize_inner_selected (env : Env) (cfg : Config)
    (hw : 0 < env.width) (hh : 0 < env.height) :
    ∀ (fuel : Nat) (st st1 : HypothesisState), hypothesize_inner env cfg fuel st = .ok st1 →
      (SelectedCached env st.m_featurePredictions st.selectedPixelsAndModes →
        SelectedCached env st1.m_featurePredictions st1.selectedPixelsAndModes) ∧
      (cfg.m_checkMinDistanceBetweenSampledModes = true →
        SelectedApart env cfg st.m_featurePredictions st.selectedPixelsAndModes →
        SelectedApart env cfg st1.m_featurePredictions st1.selectedPixelsAndModes)
  | 0, st, st1, h => by
    unfold hypothesize_inner at h
    split at h
    · cases h
    · cases h
      exact ⟨fun hc => hc, fun _ ha => ha⟩
  | fuel + 1, st, st1, h => by
    unfold hypothesize_inner at h
    split at h
    · split at h
      · cases h
      · rename_i stA hatt
        obtain ⟨h1, h2⟩ := hypothesize_attempt_selected env cfg st stA hw hh hatt
        obtain ⟨h3, h4⟩ := hypothesize_inner_selected env cfg hw hh fuel stA st1 h
        exact ⟨fun hc => h3 (h1 hc), fun hcheck ha => h4 hcheck (h2 hcheck ha)⟩
    · cases h
      exact ⟨fun hc => hc, fun _ ha => ha⟩

theorem correspondences_inliers (env : Env) (cache : PredictionCache) :
    ∀ (selected : List (Nat × Nat × Nat)) (found : List (Vector3 × Vector3 × (Nat × Int))),
      correspondences env cache selected = .ok found →
      found.map (fun f => f.2.2) = selected.map (selectedInlier env)
  | [], found, h => by
    unfold correspondences at h
    cases h
    rfl
  | (x, y, modeIdx) :: rest, found, h => by
    unfold correspondences at h
    simp only at h
    split at h
    · cases h
    · split at h
      · cases h
      · split at h
        · cases h
        · rename_i found1 hrest
          cases h
          simp [correspondences_inliers env cache rest found1 hrest, selectedInlier]

/-- A call of `hypothesize_pose` that returns `true` has run the inner loop once from the
empty selection, and `res` is the hypothesis built from the correspondences of the pixels
selected there. -/
theorem hypothesize_pose_found (env : Env) (cfg : Config)
    (orthogonalFit : (n : Nat) → Points n → Points n → Matrix3) (fuel : Nat)
    (cache : PredictionCache) (eng : Mt19937) (r : HypothesisResult)
    (h : hypothesize_pose env cfg orthogonalFit fuel cache eng = .ok r)
    (hret : r.returned = true) :
    0 < env.width ∧ 0 < env.height ∧
    ∃ st found,
      hypothesize_inner env cfg fuel
        { m_featurePredictions := cache, eng := eng, selectedPixelsAndModes := [],
          iterationsInner := 0 } = .ok st ∧
      correspondences env st.m_featurePredictions st.selectedPixelsAndModes = .ok found ∧
      r.res = some (hypothesis orthogonalFit found) ∧
      r.m_featurePredictions = st.m_featurePredictions := by
  unfold hypothesize_pose at h
  split at h
  · cases h
  · rename_i hdims
    refine ⟨by omega, by omega, ?_⟩
    unfold maxIterationsOuter hypothesize_outer at h
    split at h
    · cases h
    · rename_i st hinner
      split at h
      · cases h
        exact Bool.noConfusion hret
      · split at h
        · cases h
        · rename_i found hfound
          unfold hypothesize_outer at h
          cases h
          exact ⟨st, found, hinner, hfound, rfl, rfl⟩

/-- The candidate of a call of `hypothesize_pose` that returns `true`: its inliers are the
pixels selected, all inside the image and with an entry in the cache left by the call, and,
when the distance check is on, with modes pairwise apart. -/
theorem hypothesize_pose_inliers (env : Env) (cfg : Config)
    (orthogonalFit : (n : Nat) → Points n → Points n → Matrix3) (fuel : Nat)
    (cache : PredictionCache) (eng : Mt19937) (r : HypothesisResult)
    (h : hypothesize_pose env cfg orthogonalFit fuel cache eng = .ok r)
    (hret : r.returned = true) :
    ∃ c, r.res = some c ∧
      (∀ s ∈ c.inliers, s.1 < env.dataSize ∧ ∃ pred, r.m_featurePredictions s.1 = some pred) ∧
      (cfg.m_checkMinDistanceBetweenSampledModes = true →
        c.inliers.Pairwise (ModesApart env cfg r.m_featurePredictions)) := by
  obtain ⟨hw, hh, st, found, hinner, hfound, hres, hcache⟩ :=
    hypothesize_pose_found env cfg orthogonalFit fuel cache eng r h hret
  obtain ⟨hcached, hapart⟩ := hypothesize_inner_selected env cfg hw hh fuel _ st hinner
  have hin := correspondences_inliers env _ _ found hfound
  refine ⟨_, hres, ?_, ?_⟩
  · intro s hs
    simp only [hypothesis, hin] at hs
    obtain ⟨sel, hsel, rfl⟩ := List.mem_map.mp hs
    obtain ⟨hx, hy, pred, hpred⟩ := hcached (fun s hs => by simp at hs) sel hsel
    refine ⟨?_, pred, by rw [hcache]; exact hpred⟩
    simp only [selectedInlier, Env.dataSize]
    calc sel.2.1 * env.width + sel.1 < sel.2.1 * env.width + env.width := by omega
      _ = (sel.2.1 + 1) * env.width := by ring
      _ ≤ env.height * env.width := Nat.mul_le_mul_right _ hy
      _ = env.width * env.height := Nat.mul_comm _ _
  · intro hcheck
    simp only [hypothesis, hin, hcache]
    exact hapart hcheck (by simp [SelectedApart])


/-! ## C27: the distance between the modes of a hypothesis -/

/-- C27 (as amended): when `m_checkMinDistanceBetweenSampledModes` is set, the inliers of a
candidate that `hypothesize_pose` returns with `true` record modes whose 3D means, read from
the cache the call leaves, are pairwise at a distance of at least
`m_minDistanceBetweenSampledModes` (greater than or equal, in either order of the two). -/
theorem hypothesize_pose_modes_apart (env : Env) (cfg : Config)
    (orthogonalFit : (n : Nat) → Points n → Points n → Matrix3) (fuel : Nat)
    (cache : PredictionCache) (eng : Mt19937) (r : HypothesisResult)
    (hcheck : cfg.m_checkMinDistanceBetweenSampledModes = true)
    (h : hypothesize_pose env cfg orthogonalFit fuel cache eng = .ok r)
    (hret : r.returned = true) :
    ∃ c, r.res = some c ∧
      c.inliers.Pairwise (fun a b =>
        ModesApart env cfg r.m_featurePredictions a b ∧
        ModesApart env cfg r.m_featurePredictions b a) := by
  obtain ⟨c, hc, -, hapart⟩ :=
    hypothesize_pose_inliers env cfg orthogonalFit fuel cache eng r h hret
  refine ⟨c, hc, List.Pairwise.imp ?_ (hapart hcheck)⟩
  intro a b hab
  refine ⟨hab, ?_⟩
  obtain ⟨pa, pb, ha, hb, hd⟩ := hab
  exact ⟨pb, pa, hb, ha, by rw [distance_comm]; exact hd⟩

theorem hypothesize_pose_modes_apart_witness :
    ∃ r, hypothesize_pose rootEnv constructorConfig identityFit 10 (fun _ => none)
        { stream := fun k => k / 3, pos := 0 } = .ok r ∧
      r.returned = true ∧
      r.res.map PoseCandidate.inliers = some [(0, 0), (1, 0), (2, 0)] ∧
      ∃ c, r.res = some c ∧
        c.inliers.Pairwise (fun a b =>
          ModesApart rootEnv constructorConfig r.m_featurePredictions a b ∧
          ModesApart rootEnv constructorConfig r.m_featurePredictions b a) := by
  have h : ∃ r, hypothesize_pose rootEnv constructorConfig identityFit 10 (fun _ => none)
      { stream := fun k => k / 3, pos := 0 } = .ok r ∧
      r.returned = true ∧
      r.res.map PoseCandidate.inliers = some [(0, 0), (1, 0), (2, 0)] :=
    ⟨_, by with_unfolding_all rfl, by with_unfolding_all rfl, by with_unfolding_all rfl⟩
  obtain ⟨r, h1, h2, h3⟩ := h
  exact ⟨r, h1, h2, h3,
    hypothesize_pose_modes_apart rootEnv constructorConfig identityFit 10 (fun _ => none)
      { stream := fun k => k / 3, pos := 0 } r rfl h1 h2⟩

/-- C27 (counterexample): with a minimum distance of `1`, in the frame whose pixel `i` has
its mode mean at `(i, 0, 0)`, `hypothesize_pose` returns `true` with the modes of the pixels
`0`, `1` and `2`; the means of the first two are at distance exactly `1`, which is not
greater than the minimum. -/
theorem hypothesize_pose_accepts_minimum_distance :
    ∃ r, hypothesize_pose rootEnv unitDistanceConfig identityFit 10 (fun _ => none)
        { stream := fun k => k / 3, pos := 0 } = .ok r ∧
      r.returned = true ∧
      r.res.map PoseCandidate.inliers = some [(0, 0), (1, 0), (2, 0)] ∧
      chosenMean r.m_featurePredictions 0 0 = some ![0, 0, 0] ∧
      chosenMean r.m_featurePredictions 1 0 = some ![1, 0, 0] ∧
      distance rootEnv ![0, 0, 0] ![1, 0, 0] = 1 ∧
      unitDistanceConfig.m_checkMinDistanceBetweenSampledModes = true ∧
      unitDistanceConfig.m_minDistanceBetweenSampledModes = 1 ∧
      ¬ distance rootEnv ![0, 0, 0] ![1, 0, 0]
        > unitDistanceConfig.m_minDistanceBetweenSampledModes :=
  ⟨_, by with_unfolding_all rfl, by with_unfolding_all rfl, by with_unfolding_all rfl,
    by with_unfolding_all rfl, by with_unfolding_all rfl, by with_unfolding_all rfl,
    rfl, rfl, by with_unfolding_all decide⟩


/-! ## The pixels returned by `sample_pixels_for_ransac` -/

theorem sampledCached_extends {env : Env} {cache cache1 : PredictionCache}
    (hext : CacheExtends env cache cache1) (pixels : List (Nat × Nat))
    (h : SampledCached env cache pixels) : SampledCached env cache1 pixels := by
  intro s hs
  obtain ⟨h1, h2, pred, hpred⟩ := h s hs
  exact ⟨h1, h2, pred, cacheExtends_keeps hext _ pred hpred⟩

theorem sampledCached_append {env : Env} {cache : PredictionCache} {a b : List (Nat × Nat)}
    (ha : SampledCached env cache a) (hb : SampledCached env cache b) :
    SampledCached env cache (a ++ b) := by
  intro s hs
  rcases List.mem_append.mp hs with h1 | h2
  · exact ha s h1
  · exact hb s h2

theorem select_prediction_entry (env : Env) (st st2 : SamplerState) (linearIdx : Nat)
    (h : select_prediction env st linearIdx = some st2) :
    ∃ pred, st2.m_featurePredictions linearIdx = some pred := by
  unfold select_prediction at h
  split at h
  · rename_i p hp
    cases h
    exact ⟨p, hp⟩
  · split at h
    · cases h
    · rename_i p hp
      cases h
      exact ⟨filterModes p, by simp [PredictionCache.store]⟩

/-- One pass of the sampling loop appends one pixel when it ends with `validIndex` set and
none otherwise; an appended pixel lies inside the image and has an entry in the cache. -/
theorem sample_attempt_new (env : Env) (st st1 : SamplerState) (v : Bool)
    (hw : 0 < env.width) (hh : 0 < env.height)
    (h : sample_attempt env st = .ok (v, st1)) :
    ∃ new, st1.sampledPixelIdx = st.sampledPixelIdx ++ new ∧
      new.length = (if v = true then 1 else 0) ∧
      SampledCached env st1.m_featurePredictions new := by
  have hnil : SampledCached env st1.m_featurePredictions [] := fun s hs => by simp at hs
  unfold sample_attempt at h
  simp only at h
  split at h
  · split at h
    · cases h
      exact ⟨[], by simp, rfl, fun s hs => by simp at hs⟩
    · rename_i st2 hsel
      obtain ⟨-, hs⟩ := select_prediction_frame env _ st2 _ hsel
      obtain ⟨pred, hpred⟩ := select_prediction_entry env _ st2 _ hsel
      simp only at hs
      have hone : ∀ cache : PredictionCache,
          cache ((uniform_int_distribution env.height
              (uniform_int_distribution env.width st.eng).2).1 * env.width
            + (uniform_int_distribution env.width st.eng).1) = some pred →
          SampledCached env cache
            [((uniform_int_distribution env.width st.eng).1,
              (uniform_int_distribution env.height
                (uniform_int_distribution env.width st.eng).2).1)] := by
        intro cache hc s hmem
        rw [List.mem_singleton] at hmem
        subst hmem
        exact ⟨Nat.mod_lt _ hw, Nat.mod_lt _ hh, pred, hc⟩
      split at h
      · cases h
        exact ⟨[_], by rw [hs], rfl, hone _ hpred⟩
      · split at h
        · cases h
        · cases h
          exact ⟨[], by simp [hs], rfl, fun s hs => by simp at hs⟩
        · cases h
          exact ⟨[_], by rw [hs], rfl, hone _ hpred⟩
  · cases h
    exact ⟨[], by simp, rfl, fun s hs => by simp at hs⟩

theorem sample_slot_new (env : Env) (hw : 0 < env.width) (hh : 0 < env.height) :
    ∀ (fuel : Nat) (st st1 : SamplerState) (v : Bool),
      sample_slot env fuel 0 st = .ok (v, st1) →
      ∃ new, st1.sampledPixelIdx = st.sampledPixelIdx ++ new ∧ new.length = 1 ∧
        SampledCached env st1.m_featurePredictions new
  | 0, st, st1, v, h => by
    unfold sample_slot at h
    rw [if_pos (by decide)] at h
    cases h
  | fuel + 1, st, st1, v, h => by
    unfold sample_slot at h
    rw [if_pos (by decide)] at h
    cases hatt : sample_attempt env st with
    | error e => rw [hatt] at h; cases h
    | ok p =>
      obtain ⟨b, stA⟩ := p
      rw [hatt] at h
      obtain ⟨new, hnew, hlen, hcached⟩ := sample_attempt_new env st stA b hw hh hatt
      cases b with
      | true =>
        simp only [Except.ok.injEq, Prod.mk.injEq] at h
        obtain ⟨-, rfl⟩ := h
        exact ⟨new, hnew, by simpa using hlen, hcached⟩
      | false =>
        obtain ⟨new1, hnew1, hlen1, hcached1⟩ := sample_slot_new env hw hh fuel stA st1 v h
        have hempty : new = [] := List.length_eq_zero.mp (by simpa using hlen)
        refine ⟨new1, ?_, hlen1, hcached1⟩
        rw [hnew1, hnew, hempty, List.append_nil]

theorem sample_batch_new (env : Env) (fuel : Nat) (hw : 0 < env.width) (hh : 0 < env.height) :
    ∀ (remaining : Nat) (st st1 : SamplerState),
      sample_batch env fuel remaining st = .ok st1 →
      ∃ new, st1.sampledPixelIdx = st.sampledPixelIdx ++ new ∧ new.length = remaining ∧
        SampledCached env st1.m_featurePredictions new
  | 0, st, st1, h => by
    unfold sample_batch at h
    cases h
    exact ⟨[], by simp, rfl, fun s hs => by simp at hs⟩
  | remaining + 1, st, st1, h => by
    unfold sample_batch at h
    cases hslot : sample_slot env fuel 0 st with
    | error e => rw [hslot] at h; cases h
    | ok p =>
      obtain ⟨b, stA⟩ := p
      rw [hslot] at h
      have hb := sample_slot_valid env fuel 0 st stA b (by decide) hslot
      subst hb
      obtain ⟨new, hnew, hlen, hcached⟩ := sample_slot_new env hw hh fuel st stA true hslot
      obtain ⟨new1, hnew1, hlen1, hcached1⟩ :=
        sample_batch_new env fuel hw hh remaining stA st1 h
      have hext := sample_batch_extends env fuel remaining stA st1 h
      refine ⟨new ++ new1, ?_, ?_, ?_⟩
      · rw [hnew1, hnew, List.append_assoc]
      · rw [List.length_append, hlen, hlen1]
        omega
      · exact sampledCached_append (sampledCached_extends hext new hcached) hcached1

/-- A call of `sample_pixels_for_ransac` that returns, entered with an empty output vector,
returns exactly `batchSize` pixels, all inside the feature image and with an entry in the
cache it leaves. -/
theorem sample_pixels_for_ransac_new (env : Env) (fuel batchSize : Nat)
    (st st1 : SamplerState) (hstart : st.sampledPixelIdx = [])
    (h : sample_pixels_for_ransac env fuel st batchSize = .ok st1) :
    st1.sampledPixelIdx.length = batchSize ∧
      SampledCached env st1.m_featurePredictions st1.sampledPixelIdx := by
  unfold sample_pixels_for_ransac at h
  split at h
  · cases h
  · rename_i hdims
    obtain ⟨new, hnew, hlen, hcached⟩ :=
      sample_batch_new env fuel (by omega) (by omega) batchSize st st1 h
    rw [hstart, List.nil_append] at hnew
    rw [hnew]
    exact ⟨hlen, hcached⟩


/-! ## C28: the number of rounds and of appended inliers -/

/-- Over a completed tournament loop every surviving candidate has received the same
appended inliers, one batch per round. -/
theorem tournament_loop_count (env : Env) (cfg : Config) (fuel : Nat) :
    ∀ (rounds : Nat) (st final : RansacState),
      tournament_loop env cfg fuel rounds st = .ok final →
      st.iteration ≤ final.iteration ∧
      ∃ added : List (Nat × Int),
        added.length = cfg.m_batchSizeRansac * (final.iteration - st.iteration) ∧
        ∀ c1 ∈ final.candidates, ∃ c ∈ st.candidates,
          c1.inliers = c.inliers ++ added ∧ c1.cameraId = c.cameraId
  | 0, st, final, h => by
    unfold tournament_loop at h
    split at h
    · cases h
    · cases h
      exact ⟨le_refl _, [], by simp, fun c1 hc1 => ⟨c1, hc1, by simp, rfl⟩⟩
  | rounds + 1, st, final, h => by
    unfold tournament_loop at h
    split at h
    · split at h
      · cases h
      · rename_i st1 hround
        have hit := tournament_round_iteration env cfg fuel st st1 hround
        obtain ⟨sc, hsc, rfl⟩ := tournament_round_inv env cfg fuel st st1 hround
        obtain ⟨sampled, hsampled, -, hcands⟩ := round_scored_candidates env cfg fuel st sc hsc
        obtain ⟨hlen, -⟩ := sample_pixels_for_ransac_new env fuel _ _ sampled rfl hsampled
        obtain ⟨hle, added, hadded, hcands1⟩ :=
          tournament_loop_count env cfg fuel rounds (erase_worse_half sc) final h
        refine ⟨by omega, sampledInliers env sampled.sampledPixelIdx ++ added, ?_, ?_⟩
        · have hsplit : final.iteration - st.iteration
              = (final.iteration - (erase_worse_half sc).iteration) + 1 := by omega
          rw [List.length_append, hadded, hsplit, Nat.mul_succ]
          simp only [sampledInliers, List.length_map, hlen]
          omega
        · intro c2 hc2
          obtain ⟨c1, hc1, hin1, hid1⟩ := hcands1 c2 hc2
          have hc1' : c1 ∈ sc.candidates := List.mem_of_mem_take hc1
          obtain ⟨c, hc, hin, hid⟩ := hcands c1 hc1'
          exact ⟨c, hc, by rw [hin1, hin, List.append_assoc], by rw [hid1, hid]⟩
    · cases h
      exact ⟨le_refl _, [], by simp, fun c1 hc1 => ⟨c1, hc1, by simp, rfl⟩⟩

/-- C28: for a pool of `P ≥ 1` candidates that is not larger than the trim threshold, a
completed `estimate_pose` has made exactly `floor(log2 P)` rounds of the tournament loop, and
the candidate it returns is a candidate of the pool, with the same id, whose inlier list has
been extended by `B = m_batchSizeRansac` entries per round: its length is
`n0 + B * floor(log2 P)`. (Whenever the sampler returns, it returns a full batch.) -/
theorem estimate_pose_round_count (env : Env) (cfg : Config) (fuel : Nat)
    (cache : PredictionCache) (candidates : List PoseCandidate) (r : EstimateResult)
    (hP : 1 ≤ candidates.length)
    (hT : candidates.length ≤ cfg.m_trimKinitAfterFirstEnergyComputation)
    (h : estimate_pose env cfg fuel cache candidates = .ok r) :
    r.final.iteration = Nat.log 2 candidates.length ∧
    ∃ c ∈ candidates, r.result.cameraId = c.cameraId ∧ c.inliers <+: r.result.inliers ∧
      r.result.inliers.length
        = c.inliers.length + cfg.m_batchSizeRansac * Nat.log 2 candidates.length := by
  have hnot : ¬ cfg.m_trimKinitAfterFirstEnergyComputation
      < (entryState env cache candidates).candidates.length := by
    show ¬ _ < candidates.length
    omega
  unfold estimate_pose at h
  unfold first_trim at h
  rw [if_neg hnot] at h
  simp only at h
  split at h
  · cases h
  · rename_i final hfinal
    split at h
    · cases h
    · rename_i c1 rest hc1
      cases h
      have hspec := (tournament_loop_spec env cfg fuel candidates.length
        (loop_entry env (entryState env cache candidates))
        (by simp [loop_entry, entryState])).2 final hfinal
      obtain ⟨-, hpos⟩ := hspec
      obtain ⟨-, -, hlow, hhigh⟩ := hpos (by simpa [loop_entry, entryState] using hP)
      simp only [loop_entry, entryState, Nat.sub_zero] at hlow hhigh
      have hlog : Nat.log 2 candidates.length = final.iteration :=
        Nat.log_eq_of_pow_le_of_lt_pow hlow hhigh
      obtain ⟨-, added, hadded, hcands⟩ := tournament_loop_count env cfg fuel _ _ final hfinal
      simp only [loop_entry, entryState, Nat.sub_zero] at hadded hcands
      obtain ⟨c, hc, hin, hid⟩ := hcands c1 (by rw [hc1]; exact List.mem_cons_self _ _)
      refine ⟨hlog.symm, c, hc, hid, ?_, ?_⟩
      · show c.inliers <+: c1.inliers
        rw [hin]
        exact List.prefix_append _ _
      · show c1.inliers.length = _
        rw [hin, List.length_append, hadded, hlog]

theorem estimate_pose_round_count_witness :
    ∃ r, estimate_pose exampleEnv exampleConfig 2 exampleCache
        [exampleCandidate 4, exampleCandidate 3, exampleCandidate 2, exampleCandidate 0,
          exampleCandidate 1] = .ok r ∧
      Nat.log 2 5 = 2 ∧ r.final.iteration = 2 ∧ r.result.inliers.length = 1 + 1 * 2 ∧
      r.final.iteration = Nat.log 2 5 := by
  have h : ∃ r, estimate_pose exampleEnv exampleConfig 2 exampleCache
      [exampleCandidate 4, exampleCandidate 3, exampleCandidate 2, exampleCandidate 0,
        exampleCandidate 1] = .ok r ∧
      r.final.iteration = 2 ∧ r.result.inliers.length = 1 + 1 * 2 :=
    ⟨_, by with_unfolding_all rfl, by with_unfolding_all rfl, by with_unfolding_all rfl⟩
  obtain ⟨r, h1, h2, h3⟩ := h
  exact ⟨r, h1, Nat.log_eq_of_pow_le_of_lt_pow (by decide) (by decide), h2, h3,
    (estimate_pose_round_count exampleEnv exampleConfig 2 exampleCache _ r (by decide)
      (by decide) h1).1⟩


/-! ## C29: the inliers of the candidates have cache entries -/

theorem inliersCached_extends {env : Env} {cache cache1 : PredictionCache}
    (hext : CacheExtends env cache cache1) (candidates : List PoseCandidate)
    (h : InliersCached env cache candidates) : InliersCached env cache1 candidates := by
  intro c hc s hs
  obtain ⟨hlt, pred, hpred⟩ := h c hc s hs
  exact ⟨hlt, pred, cacheExtends_keeps hext _ pred hpred⟩

theorem inliersCached_subset {env : Env} {cache : PredictionCache}
    {candidates candidates1 : List PoseCandidate}
    (hsub : ∀ c1 ∈ candidates1, ∃ c ∈ candidates, ∀ s ∈ c1.inliers, s ∈ c.inliers)
    (h : InliersCached env cache candidates) : InliersCached env cache candidates1 := by
  intro c1 hc1 s hs
  obtain ⟨c, hc, hin⟩ := hsub c1 hc1
  exact h c hc s (hin s hs)

theorem inliersCached_appended {env : Env} {cache : PredictionCache}
    {candidates candidates1 : List PoseCandidate} {sampledPixelIdx : List (Nat × Nat)}
    (h : InliersCached env cache candidates)
    (hsampled : SampledCached env cache sampledPixelIdx)
    (happ : ∀ c1 ∈ candidates1, ∃ c ∈ candidates,
      c1.inliers = c.inliers ++ sampledInliers env sampledPixelIdx) :
    InliersCached env cache candidates1 := by
  intro c1 hc1 s hs
  obtain ⟨c, hc, hin⟩ := happ c1 hc1
  rw [hin] at hs
  rcases List.mem_append.mp hs with hold | hnew
  · exact h c hc s hold
  · simp only [sampledInliers, List.mem_map] at hnew
    obtain ⟨px, hpx, rfl⟩ := hnew
    obtain ⟨hx, hy, pred, hpred⟩ := hsampled px hpx
    refine ⟨?_, pred, hpred⟩
    simp only [Env.dataSize]
    calc px.2 * env.width + px.1 < px.2 * env.width + env.width := by omega
      _ = (px.2 + 1) * env.width := by ring
      _ ≤ env.height * env.width := Nat.mul_le_mul_right _ hy
      _ = env.width * env.height := Nat.mul_comm _ _

theorem inliersCached_update (env : Env) (cache : PredictionCache)
    (candidates : List PoseCandidate) (sampledPixelIdx : List (Nat × Nat))
    (h : InliersCached env cache candidates)
    (hsampled : SampledCached env cache sampledPixelIdx) :
    InliersCached env cache
      (update_inliers_for_optimization env sampledPixelIdx candidates) := by
  refine inliersCached_appended h hsampled ?_
  intro c1 hc1
  simp only [update_inliers_for_optimization, List.mem_map] at hc1
  obtain ⟨c, hc, rfl⟩ := hc1
  exact ⟨c, hc, rfl⟩

theorem inliersCached_refined (env : Env) (cache : PredictionCache)
    (candidates refined : List PoseCandidate) (h : InliersCached env cache candidates)
    (hsame : List.Forall₂ SameButPose candidates refined) :
    InliersCached env cache refined := by
  refine inliersCached_subset ?_ h
  intro c1 hc1
  obtain ⟨c, hc, hcs⟩ := forall₂_exists_left hsame c1 hc1
  unfold SameButPose at hcs
  refine ⟨c, hc, ?_⟩
  intro s hs
  rw [hcs] at hs
  exact hs

theorem push_candidate_cached (env : Env) (poseCandidates : List PoseCandidate) (i : Nat)
    (r : HypothesisResult)
    (hpool : InliersCached env r.m_featurePredictions poseCandidates)
    (hr : r.returned = true → ∃ c, r.res = some c ∧
      ∀ s ∈ c.inliers, s.1 < env.dataSize ∧ ∃ pred, r.m_featurePredictions s.1 = some pred) :
    InliersCached env r.m_featurePredictions (push_candidate poseCandidates i r) := by
  unfold push_candidate
  split
  · rename_i candidate hret hres
    obtain ⟨c, hc, hin⟩ := hr hret
    rw [hres] at hc
    cases hc
    split
    · intro c1 hc1 s hs
      rcases List.mem_append.mp hc1 with hold | hnew
      · exact hpool c1 hold s hs
      · rw [List.mem_singleton] at hnew
        subst hnew
        exact hin s hs
    · exact hpool
  · exact hpool

theorem generate_loop_cached (env : Env) (cfg : Config) (gen : Generator) (fuel : Nat) :
    ∀ (remaining i : Nat) (st final : GeneratorState),
      generate_loop env cfg gen fuel remaining i st = .ok final →
      InliersCached env st.m_featurePredictions st.poseCandidates →
      InliersCached env final.m_featurePredictions final.poseCandidates
  | 0, i, st, final, h, hst => by
    unfold generate_loop at h
    cases h
    exact hst
  | remaining + 1, i, st, final, h, hst => by
    unfold generate_loop at h
    simp only at h
    split at h
    · cases h
    · rename_i r hr
      obtain ⟨hext, -⟩ := hypothesize_pose_spec env cfg gen.orthogonalFit fuel _ _ r hr
      refine generate_loop_cached env cfg gen fuel remaining (i + 1) _ final h ?_
      refine push_candidate_cached env st.poseCandidates i r
        (inliersCached_extends hext _ hst) ?_
      intro hret
      obtain ⟨c, hc, hin, -⟩ :=
        hypothesize_pose_inliers env cfg gen.orthogonalFit fuel _ _ r hr hret
      exact ⟨c, hc, hin⟩

theorem round_scored_cached (env : Env) (cfg : Config) (fuel : Nat) (st sc : RansacState)
    (hst : InliersCached env st.m_featurePredictions st.candidates)
    (h : round_scored env cfg fuel st = .ok sc) :
    InliersCached env sc.m_featurePredictions sc.candidates := by
  obtain ⟨sampled, hsampled, -, hcands⟩ := round_scored_candidates env cfg fuel st sc h
  obtain ⟨_, _, _, hsampled1, -, -, -, -, hcache, -⟩ := round_scored_spec env cfg fuel st sc h
  rw [hsampled] at hsampled1
  cases hsampled1
  have hext := sample_pixels_for_ransac_extends env fuel _ _ sampled hsampled
  obtain ⟨-, hnew⟩ := sample_pixels_for_ransac_new env fuel _ _ sampled rfl hsampled
  rw [hcache]
  exact inliersCached_appended (inliersCached_extends hext _ hst) hnew
    (fun c1 hc1 => by
      obtain ⟨c, hc, hin, -⟩ := hcands c1 hc1
      exact ⟨c, hc, hin⟩)

theorem tournament_round_cached (env : Env) (cfg : Config) (fuel : Nat)
    (st st1 : RansacState) (hst : InliersCached env st.m_featurePredictions st.candidates)
    (h : tournament_round env cfg fuel st = .ok st1) :
    InliersCached env st1.m_featurePredictions st1.candidates := by
  obtain ⟨sc, hsc, rfl⟩ := tournament_round_inv env cfg fuel st st1 h
  have hcached := round_scored_cached env cfg fuel st sc hst hsc
  intro c hc s hs
  exact hcached c (List.mem_of_mem_take hc) s hs

theorem tournament_loop_cached (env : Env) (cfg : Config) (fuel : Nat) :
    ∀ (rounds : Nat) (st final : RansacState),
      InliersCached env st.m_featurePredictions st.candidates →
      tournament_loop env cfg fuel rounds st = .ok final →
      InliersCached env final.m_featurePredictions final.candidates
  | 0, st, final, hst, h => by
    unfold tournament_loop at h
    split at h
    · cases h
    · cases h
      exact hst
  | rounds + 1, st, final, hst, h => by
    unfold tournament_loop at h
    split at h
    · split at h
      · cases h
      · rename_i st1 hround
        exact tournament_loop_cached env cfg fuel rounds st1 final
          (tournament_round_cached env cfg fuel st st1 hst hround) h
    · cases h
      exact hst

theorem trim_evaluate_cached (env : Env) (cfg : Config) (fuel : Nat) (st ev : RansacState)
    (hst : InliersCached env st.m_featurePredictions st.candidates)
    (h : trim_evaluate env cfg fuel st = .ok ev) :
    InliersCached env ev.m_featurePredictions ev.candidates := by
  unfold trim_evaluate at h
  split at h
  · cases h
  · rename_i sampled hsampled
    split at h
    · cases h
    · rename_i sorted hsorted
      cases h
      have hext := sample_pixels_for_ransac_extends env fuel _ _ sampled hsampled
      obtain ⟨-, hnew⟩ := sample_pixels_for_ransac_new env fuel _ _ sampled rfl hsampled
      obtain ⟨scored, hscored, hperm, -⟩ := compute_and_sort_energies_sorted env _ _ _ hsorted
      have hupd := inliersCached_update env sampled.m_featurePredictions st.candidates
        sampled.sampledPixelIdx (inliersCached_extends hext _ hst) hnew
      refine inliersCached_subset ?_ hupd
      intro c1 hc1
      obtain ⟨c2, hc2, hsc⟩ :=
        forall₂_exists_left hscored c1 (hperm.mem_iff.mp (List.mem_of_mem_take hc1))
      refine ⟨c2, hc2, ?_⟩
      intro s hs
      rw [hsc.1] at hs
      exact hs

theorem first_trim_cached (env : Env) (cfg : Config) (fuel : Nat) (st trimmed : RansacState)
    (hst : InliersCached env st.m_featurePredictions st.candidates)
    (h : first_trim env cfg fuel st = .ok trimmed) :
    InliersCached env trimmed.m_featurePredictions trimmed.candidates := by
  unfold first_trim at h
  split at h
  · simp only at h
    split at h
    · cases h
    · rename_i ev hev
      have hcached := trim_evaluate_cached env cfg fuel st ev hst hev
      split at h
      · cases h
        refine inliersCached_subset ?_ hcached
        intro c1 hc1
        simp only [trim_inliers, List.mem_map] at hc1
        obtain ⟨c, hc, rfl⟩ := hc1
        refine ⟨c, hc, ?_⟩
        intro s hs
        split at hs
        · exact List.mem_of_mem_take hs
        · exact hs
      · cases h
        exact hcached
  · cases h
    exact hst

theorem estimate_pose_cached (env : Env) (cfg : Config) (fuel : Nat)
    (cache : PredictionCache) (candidates : List PoseCandidate) (r : EstimateResult)
    (hst : InliersCached env cache candidates)
    (h : estimate_pose env cfg fuel cache candidates = .ok r) :
    InliersCached env r.final.m_featurePredictions r.final.candidates ∧
    ∀ s ∈ r.result.inliers,
      s.1 < env.dataSize ∧ ∃ pred, r.final.m_featurePredictions s.1 = some pred := by
  unfold estimate_pose at h
  split at h
  · cases h
  · rename_i trimmed htrim
    split at h
    · cases h
    · rename_i final hfinal
      split at h
      · cases h
      · rename_i c1 rest hc1
        cases h
        have htrimmed := first_trim_cached env cfg fuel _ trimmed hst htrim
        have hfinalc := tournament_loop_cached env cfg fuel _ (loop_entry env trimmed) final
          htrimmed hfinal
        exact ⟨hfinalc, hfinalc c1 (by rw [hc1]; exact List.mem_cons_self _ _)⟩


/-- C29: in the pool that `generate_pose_candidates` leaves, every inlier of every candidate
has a pixel index inside the feature image whose entry in the cache left by the generation
is not null; this property of a pool and a cache is kept by every step of `estimate_pose`:
the candidates handed to the refinement and to the scoring of a round (the pool with the
sampled inliers appended, then refined) have it with respect to the cache the sampling
leaves, and the first trim and every round of the loop hand it on, so that it holds for the
final pool and the returned candidate of `estimate_pose` on the generated pool. -/
theorem inliers_cached_in_rounds (env : Env) (cfg : Config) (gen : Generator) (fuel : Nat)
    (generated : GeneratorState)
    (hgen : generate_pose_candidates env cfg gen fuel = .ok generated) :
    InliersCached env generated.m_featurePredictions generated.poseCandidates ∧
    (∀ (fuel1 : Nat) (cache : PredictionCache) (candidates : List PoseCandidate)
      (mask : List Bool) (eng : Mt19937) (sampled : SamplerState),
      InliersCached env cache candidates →
      sample_pixels_for_ransac env fuel1
        { m_featurePredictions := cache, maskSampledPixels := mask, sampledPixelIdx := [],
          eng := eng } cfg.m_batchSizeRansac = .ok sampled →
      InliersCached env sampled.m_featurePredictions
        (update_inliers_for_optimization env sampled.sampledPixelIdx candidates) ∧
      ∀ refined,
        update_candidate_poses env cfg sampled.m_featurePredictions
          (update_inliers_for_optimization env sampled.sampledPixelIdx candidates)
            = .ok refined →
        InliersCached env sampled.m_featurePredictions refined) ∧
    (∀ (fuel1 : Nat) (st st1 : RansacState),
      InliersCached env st.m_featurePredictions st.candidates →
      first_trim env cfg fuel1 st = .ok st1 →
      InliersCached env st1.m_featurePredictions st1.candidates) ∧
    (∀ (fuel1 : Nat) (st st1 : RansacState),
      InliersCached env st.m_featurePredictions st.candidates →
      tournament_round env cfg fuel1 st = .ok st1 →
      InliersCached env st1.m_featurePredictions st1.candidates) ∧
    (∀ (fuel1 : Nat) (r : EstimateResult),
      estimate_pose env cfg fuel1 generated.m_featurePredictions generated.poseCandidates
        = .ok r →
      InliersCached env r.final.m_featurePredictions r.final.candidates ∧
      ∀ s ∈ r.result.inliers,
        s.1 < env.dataSize ∧ ∃ pred, r.final.m_featurePredictions s.1 = some pred) := by
  have hpool : InliersCached env generated.m_featurePredictions generated.poseCandidates := by
    unfold generate_pose_candidates at hgen
    exact generate_loop_cached env cfg gen fuel _ 0 _ generated hgen
      (fun c hc => by simp at hc)
  refine ⟨hpool, ?_, ?_, ?_, ?_⟩
  · intro fuel1 cache candidates mask eng sampled hst hsampled
    have hext := sample_pixels_for_ransac_extends env fuel1 _ _ sampled hsampled
    obtain ⟨-, hnew⟩ := sample_pixels_for_ransac_new env fuel1 _ _ sampled rfl hsampled
    have hupd := inliersCached_update env sampled.m_featurePredictions candidates
      sampled.sampledPixelIdx (inliersCached_extends hext _ hst) hnew
    exact ⟨hupd, fun refined href =>
      inliersCached_refined env _ _ refined hupd
        (update_candidate_poses_same env cfg _ _ refined href)⟩
  · intro fuel1 st st1 hst h
    exact first_trim_cached env cfg fuel1 st st1 hst h
  · intro fuel1 st st1 hst h
    exact tournament_round_cached env cfg fuel1 st st1 hst h
  · intro fuel1 r h
    exact estimate_pose_cached env cfg fuel1 _ _ r hpool h

theorem inliers_cached_in_rounds_witness :
    ∃ generated, generate_pose_candidates exampleEnv smallPoolConfig exampleGenerator 20
        = .ok generated ∧
      generated.poseCandidates.map PoseCandidate.inliers
        = [[(1, 0), (0, 0), (3, 0)], [(2, 0), (1, 0), (0, 0)], [(3, 0), (2, 0), (1, 0)],
            [(0, 0), (3, 0), (2, 0)]] ∧
      (∃ r, estimate_pose exampleEnv smallPoolConfig 3 generated.m_featurePredictions
          generated.poseCandidates = .ok r ∧
        r.result.inliers = [(1, 0), (0, 0), (3, 0), (0, -1), (1, -1)]) ∧
      InliersCached exampleEnv generated.m_featurePredictions generated.poseCandidates := by
  have h : ∃ generated,
      generate_pose_candidates exampleEnv smallPoolConfig exampleGenerator 20
        = .ok generated ∧
      generated.poseCandidates.map PoseCandidate.inliers
        = [[(1, 0), (0, 0), (3, 0)], [(2, 0), (1, 0), (0, 0)], [(3, 0), (2, 0), (1, 0)],
            [(0, 0), (3, 0), (2, 0)]] ∧
      (∃ r, estimate_pose exampleEnv smallPoolConfig 3 generated.m_featurePredictions
          generated.poseCandidates = .ok r ∧
        r.result.inliers = [(1, 0), (0, 0), (3, 0), (0, -1), (1, -1)]) :=
    ⟨_, by with_unfolding_all rfl, by with_unfolding_all rfl,
      ⟨_, by with_unfolding_all rfl, by with_unfolding_all rfl⟩⟩
  obtain ⟨generated, h1, h2, h3⟩ := h
  exact ⟨generated, h1, h2, h3,
    (inliers_cached_in_rounds exampleEnv smallPoolConfig exampleGenerator 20 generated h1).1⟩


/-! ## C18: the result of `estimate_pose` under any schedule of its parallel loops -/

theorem forall₂_of_getElem? {α β : Type} {R : α → β → Prop} :
    ∀ (l1 : List α) (l2 : List β),
      (∀ i : Nat, (∃ a b, l1[i]? = some a ∧ l2[i]? = some b ∧ R a b) ∨
        (l1[i]? = none ∧ l2[i]? = none)) →
      List.Forall₂ R l1 l2
  | [], l2, h => by
    rcases h 0 with ⟨a, b, ha, -, -⟩ | ⟨-, h2⟩
    · simp at ha
    · cases l2 with
      | nil => exact List.Forall₂.nil
      | cons b rest => simp at h2
  | a :: rest, l2, h => by
    rcases h 0 with ⟨a0, b0, ha, hb, hR⟩ | ⟨h1, -⟩
    · cases l2 with
      | nil => simp at hb
      | cons b rest2 =>
        simp only [List.getElem?_cons_zero, Option.some.injEq] at ha hb
        subst ha hb
        refine List.Forall₂.cons hR (forall₂_of_getElem? rest rest2 ?_)
        intro i
        have := h (i + 1)
        simpa using this
    · simp at h1

/-- After the iterations `order` of a `parallel_for`, each once, the candidates at the
indices of `order` are the results of `body` on the candidates that were there, and the
others are untouched. -/
theorem parallel_for_spec (body : PoseCandidate → Run PoseCandidate) :
    ∀ (order : List Nat) (poseCandidates out : List PoseCandidate), order.Nodup →
      parallel_for body order poseCandidates = .ok out →
      ∀ i : Nat,
        (i ∈ order → ∃ c o, poseCandidates[i]? = some c ∧ body c = .ok o ∧ out[i]? = some o) ∧
        (i ∉ order → out[i]? = poseCandidates[i]?)
  | [], poseCandidates, out, _, h => by
    unfold parallel_for at h
    cases h
    intro i
    exact ⟨fun hi => by simp at hi, fun _ => rfl⟩
  | j :: rest, poseCandidates, out, hnodup, h => by
    unfold parallel_for at h
    split at h
    · cases h
    · rename_i c hc
      split at h
      · cases h
      · rename_i c1 hbody
        obtain ⟨hj, hrest⟩ := List.nodup_cons.mp hnodup
        have ih := parallel_for_spec body rest (poseCandidates.set j c1) out hrest h
        have hjlt : j < poseCandidates.length := (List.getElem?_eq_some.mp hc).1
        intro i
        by_cases hij : i = j
        · subst hij
          refine ⟨fun _ => ⟨c, c1, hc, hbody, ?_⟩, fun hni => ?_⟩
          · rw [(ih i).2 hj]
            exact List.getElem?_set_self hjlt
          · exact absurd (List.mem_cons_self _ _) hni
        · have hne : j ≠ i := fun hc => hij hc.symm
          refine ⟨fun hi => ?_, fun hni => ?_⟩
          · have hi' : i ∈ rest := by
              rcases List.mem_cons.mp hi with h1 | h1
              · exact absurd h1 hij
              · exact h1
            obtain ⟨c', o, hc', hb', ho⟩ := (ih i).1 hi'
            rw [List.getElem?_set_ne hne] at hc'
            exact ⟨c', o, hc', hb', ho⟩
          · have hni' : i ∉ rest := fun hmem => hni (List.mem_cons_of_mem _ hmem)
            rw [(ih i).2 hni', List.getElem?_set_ne hne]

/-- A `parallel_for` whose order completes every iteration exactly once leaves, at each
index, the result of `body` on the candidate that was there, whatever the order. -/
theorem parallel_for_forall₂ (body : PoseCandidate → Run PoseCandidate) (order : List Nat)
    (poseCandidates out : List PoseCandidate)
    (horder : order.Perm (List.range poseCandidates.length))
    (h : parallel_for body order poseCandidates = .ok out) :
    List.Forall₂ (fun c o => body c = .ok o) poseCandidates out := by
  have hnodup : order.Nodup := horder.nodup_iff.mpr (List.nodup_range _)
  have hspec := parallel_for_spec body order poseCandidates out hnodup h
  refine forall₂_of_getElem? poseCandidates out ?_
  intro i
  by_cases hi : i < poseCandidates.length
  · have hmem : i ∈ order := horder.mem_iff.mpr (List.mem_range.mpr hi)
    obtain ⟨c, o, hc, hb, ho⟩ := (hspec i).1 hmem
    exact Or.inl ⟨c, o, hc, ho, hb⟩
  · have hnmem : i ∉ order := fun hmem => hi (List.mem_range.mp (horder.mem_iff.mp hmem))
    have hnone : poseCandidates[i]? = none := List.getElem?_eq_none (by omega)
    exact Or.inr ⟨hnone, by rw [(hspec i).2 hnmem, hnone]⟩

theorem update_inliers_scheduled_eq (env : Env) (sampledPixelIdx : List (Nat × Nat))
    (order : List Nat) (poseCandidates out : List PoseCandidate)
    (horder : order.Perm (List.range poseCandidates.length))
    (h : update_inliers_scheduled env sampledPixelIdx order poseCandidates = .ok out) :
    out = update_inliers_for_optimization env sampledPixelIdx poseCandidates := by
  unfold update_inliers_scheduled at h
  have hall := parallel_for_forall₂ _ order poseCandidates out horder h
  clear h horder
  induction hall with
  | nil => rfl
  | cons hco _ ih =>
    simp only [Except.ok.injEq] at hco
    rw [ih, ← hco, push_samples_eq]
    rfl

theorem update_candidate_poses_of_forall₂ (env : Env) (cfg : Config)
    (cache : PredictionCache) :
    ∀ (poseCandidates out : List PoseCandidate),
      List.Forall₂
        (fun c o =>
          (match update_candidate_pose env cfg cache c with
            | .error e => (.error e : Run PoseCandidate)
            | .ok (_, c1) => .ok c1) = .ok o)
        poseCandidates out →
      update_candidate_poses env cfg cache poseCandidates = .ok out
  | _, _, List.Forall₂.nil => rfl
  | c :: rest, o :: out, List.Forall₂.cons hco hrest => by
    unfold update_candidate_poses
    rw [update_candidate_poses_of_forall₂ env cfg cache rest out hrest]
    simp only at hco
    cases hc : update_candidate_pose env cfg cache c with
    | error e =>
      rw [hc] at hco
      cases hco
    | ok p =>
      obtain ⟨b, c1⟩ := p
      rw [hc] at hco
      simp only [Except.ok.injEq] at hco
      rw [hco]

theorem assign_energies_of_forall₂ (env : Env) (cache : PredictionCache) :
    ∀ (poseCandidates out : List PoseCandidate),
      List.Forall₂
        (fun c o =>
          (match compute_pose_energy env cache c.cameraPose c.inliers with
            | .error e => (.error e : Run PoseCandidate)
            | .ok energy => .ok { c with energy := energy }) = .ok o)
        poseCandidates out →
      assign_energies env cache poseCandidates = .ok out
  | _, _, List.Forall₂.nil => rfl
  | c :: rest, o :: out, List.Forall₂.cons hco hrest => by
    unfold assign_energies
    rw [assign_energies_of_forall₂ env cache rest out hrest]
    simp only at hco
    cases hc : compute_pose_energy env cache c.cameraPose c.inliers with
    | error e =>
      rw [hc] at hco
      cases hco
    | ok energy =>
      rw [hc] at hco
      simp only [Except.ok.injEq] at hco
      rw [← hco]

theorem update_candidate_poses_scheduled_eq (env : Env) (cfg : Config)
    (cache : PredictionCache) (order : List Nat) (poseCandidates out : List PoseCandidate)
    (horder : order.Perm (List.range poseCandidates.length))
    (h : update_candidate_poses_scheduled env cfg cache order poseCandidates = .ok out) :
    update_candidate_poses env cfg cache poseCandidates = .ok out := by
  unfold update_candidate_poses_scheduled at h
  exact update_candidate_poses_of_forall₂ env cfg cache poseCandidates out
    (parallel_for_forall₂ _ order poseCandidates out horder h)

theorem compute_and_sort_energies_scheduled_eq (env : Env) (cache : PredictionCache)
    (order : List Nat) (poseCandidates out : List PoseCandidate)
    (horder : order.Perm (List.range poseCandidates.length))
    (h : compute_and_sort_energies_scheduled env cache order poseCandidates = .ok out) :
    compute_and_sort_energies env cache poseCandidates = .ok out := by
  unfold compute_and_sort_energies_scheduled at h
  split at h
  · cases h
  · rename_i scored hscored
    cases h
    unfold compute_and_sort_energies
    rw [assign_energies_of_forall₂ env cache poseCandidates scored
      (parallel_for_forall₂ _ order poseCandidates scored horder hscored)]


theorem trim_evaluate_scheduled_eq (env : Env) (cfg : Config) (sched : Schedule)
    (hvalid : sched.Valid) (fuel : Nat) (st ev : RansacState)
    (h : trim_evaluate_scheduled env cfg sched fuel st = .ok ev) :
    trim_evaluate env cfg fuel st = .ok ev := by
  unfold trim_evaluate_scheduled at h
  split at h
  · cases h
  · rename_i sampled hsampled
    split at h
    · cases h
    · rename_i appended happended
      have happ := update_inliers_scheduled_eq env _ _ _ appended (hvalid _ _ _) happended
      subst happ
      split at h
      · cases h
      · rename_i sorted hsorted
        have hsort := compute_and_sort_energies_scheduled_eq env _ _ _ sorted (hvalid _ _ _)
          hsorted
        cases h
        unfold trim_evaluate
        simp only [hsampled, hsort]

theorem first_trim_scheduled_eq (env : Env) (cfg : Config) (sched : Schedule)
    (hvalid : sched.Valid) (fuel : Nat) (st trimmed : RansacState)
    (h : first_trim_scheduled env cfg sched fuel st = .ok trimmed) :
    first_trim env cfg fuel st = .ok trimmed := by
  unfold first_trim_scheduled at h
  unfold first_trim
  split
  · rename_i hlt
    rw [if_pos hlt] at h
    simp only at h ⊢
    cases hev : trim_evaluate_scheduled env cfg sched fuel st with
    | error e => rw [hev] at h; cases h
    | ok ev =>
      rw [hev] at h
      rw [trim_evaluate_scheduled_eq env cfg sched hvalid fuel st ev hev]
      exact h
  · rename_i hge
    rw [if_neg hge] at h
    exact h

theorem round_scored_scheduled_eq (env : Env) (cfg : Config) (sched : Schedule)
    (hvalid : sched.Valid) (fuel : Nat) (st sc : RansacState)
    (h : round_scored_scheduled env cfg sched fuel st = .ok sc) :
    round_scored env cfg fuel st = .ok sc := by
  unfold round_scored_scheduled at h
  split at h
  · cases h
  · rename_i sampled hsampled
    split at h
    · cases h
    · rename_i appended happended
      have happ := update_inliers_scheduled_eq env _ _ _ appended (hvalid _ _ _) happended
      subst happ
      simp only at h
      split at h
      · cases h
      · rename_i refined hrefined
        split at h
        · cases h
        · rename_i sorted hsorted
          have hsort := compute_and_sort_energies_scheduled_eq env _ _ _ sorted
            (hvalid _ _ _) hsorted
          cases h
          have href : (if cfg.m_poseUpdate = true then
              update_candidate_poses env cfg sampled.m_featurePredictions
                (update_inliers_for_optimization env sampled.sampledPixelIdx st.candidates)
              else .ok
                (update_inliers_for_optimization env sampled.sampledPixelIdx st.candidates))
              = .ok refined := by
            by_cases hu : cfg.m_poseUpdate = true
            · rw [if_pos hu] at hrefined ⊢
              exact update_candidate_poses_scheduled_eq env cfg _ _ _ refined (hvalid _ _ _)
                hrefined
            · rw [if_neg hu] at hrefined ⊢
              exact hrefined
          unfold round_scored
          simp only [hsampled, href, hsort]

theorem tournament_round_scheduled_eq (env : Env) (cfg : Config) (sched : Schedule)
    (hvalid : sched.Valid) (fuel : Nat) (st st1 : RansacState)
    (h : tournament_round_scheduled env cfg sched fuel st = .ok st1) :
    tournament_round env cfg fuel st = .ok st1 := by
  unfold tournament_round_scheduled at h
  unfold tournament_round
  cases hs : round_scored_scheduled env cfg sched fuel st with
  | error e => rw [hs] at h; cases h
  | ok sc =>
    rw [hs] at h
    rw [round_scored_scheduled_eq env cfg sched hvalid fuel st sc hs]
    exact h

theorem tournament_loop_scheduled_eq (env : Env) (cfg : Config) (sched : Schedule)
    (hvalid : sched.Valid) (fuel : Nat) :
    ∀ (rounds : Nat) (st final : RansacState),
      tournament_loop_scheduled env cfg sched fuel rounds st = .ok final →
      tournament_loop env cfg fuel rounds st = .ok final
  | 0, st, final, h => by
    unfold tournament_loop_scheduled at h
    unfold tournament_loop
    exact h
  | rounds + 1, st, final, h => by
    unfold tournament_loop_scheduled at h
    unfold tournament_loop
    split
    · rename_i hgt
      rw [if_pos hgt] at h
      cases hs : tournament_round_scheduled env cfg sched fuel st with
      | error e => rw [hs] at h; cases h
      | ok st1 =>
        rw [hs] at h
        rw [tournament_round_scheduled_eq env cfg sched hvalid fuel st st1 hs]
        exact tournament_loop_scheduled_eq env cfg sched hvalid fuel rounds st1 final h
    · rename_i hle
      rw [if_neg hle] at h
      exact h

/-- A completed run of `estimate_pose` under a schedule that completes every iteration of
every parallel loop exactly once ends as the run with the loops in ascending order. -/
theorem estimate_pose_scheduled_eq (env : Env) (cfg : Config) (sched : Schedule)
    (hvalid : sched.Valid) (fuel : Nat) (cache : PredictionCache)
    (candidates : List PoseCandidate) (r : EstimateResult)
    (h : estimate_pose_scheduled env cfg sched fuel cache candidates = .ok r) :
    estimate_pose env cfg fuel cache candidates = .ok r := by
  unfold estimate_pose_scheduled at h
  unfold estimate_pose
  cases ht : first_trim_scheduled env cfg sched fuel (entryState env cache candidates) with
  | error e => rw [ht] at h; cases h
  | ok trimmed =>
    rw [ht] at h
    rw [first_trim_scheduled_eq env cfg sched hvalid fuel _ trimmed ht]
    simp only at h ⊢
    cases hl : tournament_loop_scheduled env cfg sched fuel trimmed.candidates.length
        (loop_entry env trimmed) with
    | error e => rw [hl] at h; cases h
    | ok final =>
      rw [hl] at h
      rw [tournament_loop_scheduled_eq env cfg sched hvalid fuel _ _ final hl]
      exact h


/-- When `body` succeeds on every candidate, a `parallel_for` that completes every iteration
exactly once returns, whatever its order. -/
theorem parallel_for_complete_aux (body : PoseCandidate → Run PoseCandidate)
    (out : List PoseCandidate) :
    ∀ (order : List Nat) (st : List PoseCandidate), order.Nodup →
      (∀ i ∈ order, ∃ c o, st[i]? = some c ∧ body c = .ok o ∧ out[i]? = some o) →
      (∀ i, i ∉ order → st[i]? = out[i]?) →
      parallel_for body order st = .ok out
  | [], st, _, _, hrest => by
    unfold parallel_for
    have : st = out := List.ext_getElem? (fun i => hrest i (by simp))
    rw [this]
  | j :: rest, st, hnodup, hin, hout => by
    obtain ⟨hj, hrestnodup⟩ := List.nodup_cons.mp hnodup
    obtain ⟨c, o, hc, hb, ho⟩ := hin j (List.mem_cons_self _ _)
    have hjlt : j < st.length := (List.getElem?_eq_some.mp hc).1
    unfold parallel_for
    simp only [hc, hb]
    refine parallel_for_complete_aux body out rest (st.set j o) hrestnodup ?_ ?_
    · intro i hi
      have hne : j ≠ i := fun h => hj (h ▸ hi)
      obtain ⟨c', o', hc', hb', ho'⟩ := hin i (List.mem_cons_of_mem _ hi)
      exact ⟨c', o', by rw [List.getElem?_set_ne hne]; exact hc', hb', ho'⟩
    · intro i hi
      by_cases hij : j = i
      · subst hij
        rw [List.getElem?_set_self hjlt, ho]
      · rw [List.getElem?_set_ne hij]
        exact hout i (fun hmem => by
          rcases List.mem_cons.mp hmem with h1 | h1
          · exact hij h1.symm
          · exact hi h1)

theorem forall₂_getElem? {α β : Type} {R : α → β → Prop} :
    ∀ {l1 : List α} {l2 : List β}, List.Forall₂ R l1 l2 → ∀ i : Nat,
      (∃ a b, l1[i]? = some a ∧ l2[i]? = some b ∧ R a b) ∨ (l1[i]? = none ∧ l2[i]? = none)
  | _, _, List.Forall₂.nil, i => Or.inr ⟨by simp, by simp⟩
  | _, _, List.Forall₂.cons hab hrest, i => by
    cases i with
    | zero => exact Or.inl ⟨_, _, by simp, by simp, hab⟩
    | succ k => simpa using forall₂_getElem? hrest k

theorem parallel_for_complete (body : PoseCandidate → Run PoseCandidate) (order : List Nat)
    (poseCandidates out : List PoseCandidate)
    (horder : order.Perm (List.range poseCandidates.length))
    (hall : List.Forall₂ (fun c o => body c = .ok o) poseCandidates out) :
    parallel_for body order poseCandidates = .ok out := by
  have hnodup : order.Nodup := horder.nodup_iff.mpr (List.nodup_range _)
  refine parallel_for_complete_aux body out order poseCandidates hnodup ?_ ?_
  · intro i hi
    have hlt : i < poseCandidates.length := List.mem_range.mp (horder.mem_iff.mp hi)
    rcases forall₂_getElem? hall i with ⟨c, o, hc, ho, hb⟩ | ⟨hnone, -⟩
    · exact ⟨c, o, hc, hb, ho⟩
    · rw [List.getElem?_eq_none_iff] at hnone
      omega
  · intro i hi
    have hge : ¬ i < poseCandidates.length :=
      fun hlt => hi (horder.mem_iff.mpr (List.mem_range.mpr hlt))
    rcases forall₂_getElem? hall i with ⟨c, o, hc, -, -⟩ | ⟨h1, h2⟩
    · exact absurd (List.getElem?_eq_some.mp hc).1 hge
    · rw [h1, h2]

theorem update_inliers_scheduled_complete (env : Env) (sampledPixelIdx : List (Nat × Nat))
    (order : List Nat) (poseCandidates : List PoseCandidate)
    (horder : order.Perm (List.range poseCandidates.length)) :
    update_inliers_scheduled env sampledPixelIdx order poseCandidates
      = .ok (update_inliers_for_optimization env sampledPixelIdx poseCandidates) := by
  unfold update_inliers_scheduled
  refine parallel_for_complete _ order poseCandidates _ horder ?_
  unfold update_inliers_for_optimization
  rw [List.forall₂_map_right_iff, List.forall₂_same]
  intro c _
  rw [push_samples_eq]
  rfl

theorem update_candidate_poses_forall₂ (env : Env) (cfg : Config) (cache : PredictionCache) :
    ∀ (poseCandidates out : List PoseCandidate),
      update_candidate_poses env cfg cache poseCandidates = .ok out →
      List.Forall₂
        (fun c o =>
          (match update_candidate_pose env cfg cache c with
            | .error e => (.error e : Run PoseCandidate)
            | .ok (_, c1) => .ok c1) = .ok o)
        poseCandidates out
  | [], out, h => by
    unfold update_candidate_poses at h
    cases h
    exact List.Forall₂.nil
  | c :: rest, out, h => by
    unfold update_candidate_poses at h
    cases hc : update_candidate_pose env cfg cache c with
    | error e => rw [hc] at h; cases h
    | ok p =>
      obtain ⟨b, c1⟩ := p
      rw [hc] at h
      simp only at h
      cases hr : update_candidate_poses env cfg cache rest with
      | error e => rw [hr] at h; cases h
      | ok rest1 =>
        rw [hr] at h
        cases h
        refine List.Forall₂.cons ?_ (update_candidate_poses_forall₂ env cfg cache rest rest1 hr)
        simp only [hc]

theorem assign_energies_forall₂ (env : Env) (cache : PredictionCache) :
    ∀ (poseCandidates out : List PoseCandidate),
      assign_energies env cache poseCandidates = .ok out →
      List.Forall₂
        (fun c o =>
          (match compute_pose_energy env cache c.cameraPose c.inliers with
            | .error e => (.error e : Run PoseCandidate)
            | .ok energy => .ok { c with energy := energy }) = .ok o)
        poseCandidates out
  | [], out, h => by
    unfold assign_energies at h
    cases h
    exact List.Forall₂.nil
  | c :: rest, out, h => by
    unfold assign_energies at h
    cases hc : compute_pose_energy env cache c.cameraPose c.inliers with
    | error e => rw [hc] at h; cases h
    | ok energy =>
      rw [hc] at h
      simp only at h
      cases hr : assign_energies env cache rest with
      | error e => rw [hr] at h; cases h
      | ok rest1 =>
        rw [hr] at h
        cases h
        refine List.Forall₂.cons ?_ (assign_energies_forall₂ env cache rest rest1 hr)
        simp only [hc]

theorem update_candidate_poses_scheduled_complete (env : Env) (cfg : Config)
    (cache : PredictionCache) (order : List Nat) (poseCandidates out : List PoseCandidate)
    (horder : order.Perm (List.range poseCandidates.length))
    (h : update_candidate_poses env cfg cache poseCandidates = .ok out) :
    update_candidate_poses_scheduled env cfg cache order poseCandidates = .ok out := by
  unfold update_candidate_poses_scheduled
  exact parallel_for_complete _ order poseCandidates out horder
    (update_candidate_poses_forall₂ env cfg cache poseCandidates out h)

theorem compute_and_sort_energies_scheduled_complete (env : Env) (cache : PredictionCache)
    (order : List Nat) (poseCandidates out : List PoseCandidate)
    (horder : order.Perm (List.range poseCandidates.length))
    (h : compute_and_sort_energies env cache poseCandidates = .ok out) :
    compute_and_sort_energies_scheduled env cache order poseCandidates = .ok out := by
  unfold compute_and_sort_energies at h
  cases hs : assign_energies env cache poseCandidates with
  | error e => rw [hs] at h; cases h
  | ok scored =>
    rw [hs] at h
    unfold compute_and_sort_energies_scheduled
    rw [parallel_for_complete _ order poseCandidates scored horder
      (assign_energies_forall₂ env cache poseCandidates scored hs)]
    exact h


theorem trim_evaluate_scheduled_complete (env : Env) (cfg : Config) (sched : Schedule)
    (hvalid : sched.Valid) (fuel : Nat) (st ev : RansacState)
    (h : trim_evaluate env cfg fuel st = .ok ev) :
    trim_evaluate_scheduled env cfg sched fuel st = .ok ev := by
  unfold trim_evaluate at h
  split at h
  · cases h
  · rename_i sampled hsampled
    split at h
    · cases h
    · rename_i sorted hsorted
      cases h
      unfold trim_evaluate_scheduled
      simp only [hsampled, update_inliers_scheduled_complete env _ _ _ (hvalid _ _ _),
        compute_and_sort_energies_scheduled_complete env _ _ _ sorted (hvalid _ _ _) hsorted]

theorem first_trim_scheduled_complete (env : Env) (cfg : Config) (sched : Schedule)
    (hvalid : sched.Valid) (fuel : Nat) (st trimmed : RansacState)
    (h : first_trim env cfg fuel st = .ok trimmed) :
    first_trim_scheduled env cfg sched fuel st = .ok trimmed := by
  unfold first_trim at h
  unfold first_trim_scheduled
  split
  · rename_i hlt
    rw [if_pos hlt] at h
    simp only at h ⊢
    cases hev : trim_evaluate env cfg fuel st with
    | error e => rw [hev] at h; cases h
    | ok ev =>
      rw [hev] at h
      rw [trim_evaluate_scheduled_complete env cfg sched hvalid fuel st ev hev]
      exact h
  · rename_i hge
    rw [if_neg hge] at h
    exact h

theorem round_scored_scheduled_complete (env : Env) (cfg : Config) (sched : Schedule)
    (hvalid : sched.Valid) (fuel : Nat) (st sc : RansacState)
    (h : round_scored env cfg fuel st = .ok sc) :
    round_scored_scheduled env cfg sched fuel st = .ok sc := by
  unfold round_scored at h
  split at h
  · cases h
  · rename_i sampled hsampled
    simp only at h
    split at h
    · cases h
    · rename_i refined hrefined
      split at h
      · cases h
      · rename_i sorted hsorted
        cases h
        have href : (if cfg.m_poseUpdate = true then
            update_candidate_poses_scheduled env cfg sampled.m_featurePredictions
              (sched ParallelLoop.update_candidate_poses (st.iteration + 1)
                (update_inliers_for_optimization env sampled.sampledPixelIdx
                  st.candidates).length)
              (update_inliers_for_optimization env sampled.sampledPixelIdx st.candidates)
            else .ok
              (update_inliers_for_optimization env sampled.sampledPixelIdx st.candidates))
            = .ok refined := by
          by_cases hu : cfg.m_poseUpdate = true
          · rw [if_pos hu] at hrefined ⊢
            exact update_candidate_poses_scheduled_complete env cfg _ _ _ refined
              (hvalid _ _ _) hrefined
          · rw [if_neg hu] at hrefined ⊢
            exact hrefined
        unfold round_scored_scheduled
        simp only [hsampled, update_inliers_scheduled_complete env _ _ _ (hvalid _ _ _), href,
          compute_and_sort_energies_scheduled_complete env _ _ _ sorted (hvalid _ _ _) hsorted]

theorem tournament_round_scheduled_complete (env : Env) (cfg : Config) (sched : Schedule)
    (hvalid : sched.Valid) (fuel : Nat) (st st1 : RansacState)
    (h : tournament_round env cfg fuel st = .ok st1) :
    tournament_round_scheduled env cfg sched fuel st = .ok st1 := by
  unfold tournament_round at h
  unfold tournament_round_scheduled
  cases hs : round_scored env cfg fuel st with
  | error e => rw [hs] at h; cases h
  | ok sc =>
    rw [hs] at h
    rw [round_scored_scheduled_complete env cfg sched hvalid fuel st sc hs]
    exact h

theorem tournament_loop_scheduled_complete (env : Env) (cfg : Config) (sched : Schedule)
    (hvalid : sched.Valid) (fuel : Nat) :
    ∀ (rounds : Nat) (st final : RansacState),
      tournament_loop env cfg fuel rounds st = .ok final →
      tournament_loop_scheduled env cfg sched fuel rounds st = .ok final
  | 0, st, final, h => by
    unfold tournament_loop at h
    unfold tournament_loop_scheduled
    exact h
  | rounds + 1, st, final, h => by
    unfold tournament_loop at h
    unfold tournament_loop_scheduled
    split
    · rename_i hgt
      rw [if_pos hgt] at h
      cases hs : tournament_round env cfg fuel st with
      | error e => rw [hs] at h; cases h
      | ok st1 =>
        rw [hs] at h
        rw [tournament_round_scheduled_complete env cfg sched hvalid fuel st st1 hs]
        exact tournament_loop_scheduled_complete env cfg sched hvalid fuel rounds st1 final h
    · rename_i hle
      rw [if_neg hle] at h
      exact h

/-- When the run of `estimate_pose` with the loops in ascending order completes, so does the
run under every schedule that completes every iteration exactly once, with the same
outcome. -/
theorem estimate_pose_scheduled_complete (env : Env) (cfg : Config) (sched : Schedule)
    (hvalid : sched.Valid) (fuel : Nat) (cache : PredictionCache)
    (candidates : List PoseCandidate) (r : EstimateResult)
    (h : estimate_pose env cfg fuel cache candidates = .ok r) :
    estimate_pose_scheduled env cfg sched fuel cache candidates = .ok r := by
  unfold estimate_pose at h
  unfold estimate_pose_scheduled
  cases ht : first_trim env cfg fuel (entryState env cache candidates) with
  | error e => rw [ht] at h; cases h
  | ok trimmed =>
    rw [ht] at h
    rw [first_trim_scheduled_complete env cfg sched hvalid fuel _ trimmed ht]
    simp only at h ⊢
    cases hl : tournament_loop env cfg fuel trimmed.candidates.length
        (loop_entry env trimmed) with
    | error e => rw [hl] at h; cases h
    | ok final =>
      rw [hl] at h
      rw [tournament_loop_scheduled_complete env cfg sched hvalid fuel _ _ final hl]
      exact h

/-- C18: two completed runs of `estimate_pose` on the same frame, the same cache and the
same pool return the same candidate (same pose, same inlier list, same energy, same id) and
leave the same variables, whatever order the OpenMP runtime completes the iterations of the
parallel loops in during either run, and whatever number of passes the sampling loops are
allowed; and when one run completes, so does every other run that is allowed at least as
many passes. Both runs start from a default-constructed engine. -/
theorem estimate_pose_deterministic (env : Env) (cfg : Config) (sched1 sched2 : Schedule)
    (fuel1 fuel2 : Nat) (cache : PredictionCache) (candidates : List PoseCandidate)
    (r1 : EstimateResult) (hvalid1 : sched1.Valid) (hvalid2 : sched2.Valid)
    (h1 : estimate_pose_scheduled env cfg sched1 fuel1 cache candidates = .ok r1) :
    (∀ r2, estimate_pose_scheduled env cfg sched2 fuel2 cache candidates = .ok r2 →
      r1.result.cameraPose = r2.result.cameraPose ∧ r1.result.inliers = r2.result.inliers ∧
      r1.result.energy = r2.result.energy ∧ r1.result.cameraId = r2.result.cameraId ∧
      r1 = r2) ∧
    (fuel1 ≤ fuel2 →
      estimate_pose_scheduled env cfg sched2 fuel2 cache candidates = .ok r1) := by
  have hseq := estimate_pose_scheduled_eq env cfg sched1 hvalid1 fuel1 cache candidates r1 h1
  refine ⟨fun r2 h2 => ?_, fun hle => ?_⟩
  · have e1 := estimate_pose_mono env cfg fuel1 (max fuel1 fuel2) (le_max_left _ _) cache
      candidates r1 hseq
    have e2 := estimate_pose_mono env cfg fuel2 (max fuel1 fuel2) (le_max_right _ _) cache
      candidates r2
      (estimate_pose_scheduled_eq env cfg sched2 hvalid2 fuel2 cache candidates r2 h2)
    rw [e1] at e2
    have heq : r1 = r2 := by injection e2
    subst heq
    exact ⟨rfl, rfl, rfl, rfl, rfl⟩
  · exact estimate_pose_scheduled_complete env cfg sched2 hvalid2 fuel2 cache candidates r1
      (estimate_pose_mono env cfg fuel1 fuel2 hle cache candidates r1 hseq)

theorem estimate_pose_deterministic_witness :
    ascendingSchedule.Valid ∧ descendingSchedule.Valid ∧
    descendingSchedule ParallelLoop.update_candidate_poses 1 3 = [2, 1, 0] ∧
    ∃ r1 r2,
      estimate_pose_scheduled exampleEnv exampleConfig ascendingSchedule 1 exampleCache
        [exampleCandidate 2, exampleCandidate 0, exampleCandidate 1] = .ok r1 ∧
      estimate_pose_scheduled exampleEnv exampleConfig descendingSchedule 7 exampleCache
        [exampleCandidate 2, exampleCandidate 0, exampleCandidate 1] = .ok r2 ∧
      r1.result.cameraId = 0 ∧ r1 = r2 := by
  have hv1 : ascendingSchedule.Valid := fun _ _ _ => List.Perm.refl _
  have hv2 : descendingSchedule.Valid := fun _ _ _ => List.reverse_perm _
  have h : ∃ r1, estimate_pose_scheduled exampleEnv exampleConfig ascendingSchedule 1
      exampleCache [exampleCandidate 2, exampleCandidate 0, exampleCandidate 1] = .ok r1 ∧
      r1.result.cameraId = 0 := ⟨_, by with_unfolding_all rfl, by with_unfolding_all rfl⟩
  have h' : ∃ r2, estimate_pose_scheduled exampleEnv exampleConfig descendingSchedule 7
      exampleCache [exampleCandidate 2, exampleCandidate 0, exampleCandidate 1] = .ok r2 :=
    ⟨_, by with_unfolding_all rfl⟩
  obtain ⟨r1, h1, hid⟩ := h
  obtain ⟨r2, h2⟩ := h'
  exact ⟨hv1, hv2, by decide, r1, r2, h1, h2, hid,
    ((estimate_pose_deterministic exampleEnv exampleConfig ascendingSchedule
      descendingSchedule 1 7 exampleCache _ r1 hv1 hv2 h1).1 r2 h2).2.2.2.2⟩

end spaint
